import Mathlib

/-!
# RTTY (Baudot) decoder block `rtty_decode_ff`

Shallow embedding of `src/lib/rtty_decode_ff.cc`.

* Numbers of type `float` and `double` are rationals, and every operation whose result the
  code keeps in `float` (binary32) or `double` (binary64) is followed by the rounding to
  nearest, ties to even, of that format (`fl32`, `fl64`). The exponent range is unbounded:
  overflow to infinity, NaN and subnormals are outside the model, and so is a division by
  zero. The members `_rate`, `_baud`, `_spb` are taken as `float`, as the constructor's
  parameters are; the header that declares them is not part of the source.
* `int(x)` is truncation toward zero; `_spb*1.5` is a `double` product of a binary32 value
  by 1.5, which is exact.
* A sample is a rational; the code only ever looks at `*in > 0`.
* The pointer `in` is carried as the integer offset `in - instart`; a read outside the
  window `[0, ninput_items[0])` and a table read outside `[0, 32)` make the call fault.
* `datapos` and the local `char outchar` are natural numbers; `outchar` never exceeds 31
  in a call (see `body_acc`), so no wrap-around of `char` arises.
* The `while` loop is run with fuel: `Outcome.timeout` means the loop was still running.
* The members `state`, `datapos`, `charset` live in `rtty_decode_ff` and are passed from
  one call to the next; `outchar` is a local of `general_work` and starts at 0 in each call.
* The base class `gr_block` is not part of the source: the calls the constructor makes into
  it are a parameter (`BaseCalls`).
-/

namespace Rtty

/-! ## Binary floating point -/

/-- The power `2^e` for an integer exponent. -/
def pow2 (e : Int) : ℚ :=
  if 0 ≤ e then ((2 ^ e.toNat : Nat) : ℚ) else 1 / ((2 ^ (-e).toNat : Nat) : ℚ)

/-- The integer binary logarithm of `n ≥ 1`, by repeated halving (`fuel ≥ n` is enough). -/
def ilog2 : Nat → Nat → Nat
  | 0, _ => 0
  | fuel + 1, n => if n < 2 then 0 else ilog2 fuel (n / 2) + 1

/-- The binary exponent of `x > 0`: the `e` with `2^e ≤ x < 2^(e+1)`. -/
def expo (x : ℚ) : Int :=
  if pow2 ((ilog2 x.num.natAbs x.num.natAbs : Int) - (ilog2 x.den x.den : Int)) ≤ x then
    (ilog2 x.num.natAbs x.num.natAbs : Int) - (ilog2 x.den x.den : Int)
  else (ilog2 x.num.natAbs x.num.natAbs : Int) - (ilog2 x.den x.den : Int) - 1

/-- Rounding to the nearest integer, ties to the even one. -/
def roundEven (q : ℚ) : Int :=
  if q - ⌊q⌋ < 1 / 2 then ⌊q⌋
  else if 1 / 2 < q - ⌊q⌋ then ⌊q⌋ + 1
  else if ⌊q⌋ % 2 = 0 then ⌊q⌋ else ⌊q⌋ + 1

/-- Rounding of `x > 0` to `p` significant bits, nearest, ties to even. -/
def flPos (p : Nat) (x : ℚ) : ℚ :=
  (roundEven (x / pow2 (expo x - ((p : Int) - 1))) : ℚ) * pow2 (expo x - ((p : Int) - 1))

/-- Rounding to `p` significant bits, nearest, ties to even. -/
def fl (p : Nat) (x : ℚ) : ℚ :=
  if x = 0 then 0 else if 0 < x then flPos p x else - flPos p (-x)

/-- Rounding to binary32 (`float`). -/
def fl32 (x : ℚ) : ℚ := fl 24 x

/-- Rounding to binary64 (`double`). -/
def fl64 (x : ℚ) : ℚ := fl 53 x

/-! ## The block -/

/-- Values of the member `state`. -/
inductive State where
  | WAITING_FOR_START
  | DATA
  | LOOKING_FOR_STOP
  deriving DecidableEq

/-- Values of the member `charset`. -/
inductive Charset where
  | LETTERS
  | FIGURES
  deriving DecidableEq

/-- Member variables of the class `rtty_decode_ff`. -/
structure rtty_decode_ff where
  state : State
  datapos : Nat
  charset : Charset
  _baud : ℚ
  _rate : ℚ
  _spb : ℚ
  mark : Bool
  space : Bool
  deriving DecidableEq

/-- The constructor `rtty_decode_ff::rtty_decode_ff (float rate, float baud, bool polarity)`,
reached through `rtty_make_decode_ff`: the arguments arrive as `float`, and `_spb = rate/baud`
is a `float` quotient. The member `datapos` is not initialised by the source; it is only read
in state `DATA`, which is entered with `datapos = 0`. The calls into the base class (lines
81-83) are in `new_decoder`. -/
def rtty_make_decode_ff (rate baud : ℚ) (polarity : Bool) : rtty_decode_ff :=
  { state := State.WAITING_FOR_START
    datapos := 0
    charset := Charset.LETTERS
    _baud := fl32 baud
    _rate := fl32 rate
    _spb := fl32 (fl32 rate / fl32 baud)
    mark := if polarity then true else false
    space := if polarity then false else true }

/-- The table `letters[]`. -/
def letters : List Char :=
  ['\x00', 'E', '\n', 'A', ' ', 'S', 'I', 'U', '\r', 'D', 'R', 'J', 'N', 'F', 'C', 'K',
   'T', 'Z', 'L', 'W', 'H', 'Y', 'P', 'Q', 'O', 'B', 'G', '\x00', 'M', 'X', 'V', '\x00']

/-- The table `figures[]` (`\a` is the bell, code 7). -/
def figures : List Char :=
  ['\x00', '3', '\n', '-', ' ', '\x07', '8', '7', '\r', '$', '4', '\x27', ',', '!', ':',
   '(', '5', '\x22', ')', '2', '#', '6', '0', '1', '9', '?', '&', '\x00', '.', '/', ';', '\x00']

/-- The conversion `int(x)`: truncation toward zero. -/
def toInt (x : ℚ) : Int :=
  if 0 ≤ x then ⌊x⌋ else ⌈x⌉

/-- The test `*in > 0` as a boolean. -/
def positive (x : ℚ) : Bool :=
  decide (0 < x)

/-- The read `*in` at offset `i` of the input window. -/
def readSample (input : List ℚ) (i : Int) : Option ℚ :=
  if 0 ≤ i then input[i.toNat]? else none

/-- The variables of one `general_work` call: the members, the offset `in - instart`,
the local `outchar`, and the bytes written so far (`outcount` is their number). -/
structure Work where
  blk : rtty_decode_ff
  inp : Int
  outchar : Nat
  out : List Char
  deriving DecidableEq

/-- The test `(in - instart) < (ninput_items[0]-(_spb*8))` at cursor `c` for a window of `n`
samples: the product, the difference and both sides of the comparison are `float`. -/
def guardAt (n : Nat) (spb : ℚ) (c : Int) : Bool :=
  decide (fl32 (c : ℚ) < fl32 (fl32 (n : ℚ) - fl32 (spb * 8)))

/-- The loop condition
`(outcount < noutput_items) && ((in - instart) < (ninput_items[0] - (_spb*8)))`. -/
def loopCond (input : List ℚ) (noutput_items : Int) (w : Work) : Bool :=
  decide ((w.out.length : Int) < noutput_items) && guardAt input.length w.blk._spb w.inp

/-- The lookup `(charset == LETTERS) ? letters[outchar] : figures[outchar]`. -/
def lookup (charset : Charset) (outchar : Nat) : Option Char :=
  if charset = Charset.LETTERS then letters[outchar]? else figures[outchar]?

/-- The two assignments `if(outchar == 27) charset = FIGURES; if(outchar == 31) charset = LETTERS;`. -/
def shift (charset : Charset) (outchar : Nat) : Charset :=
  let c1 := if outchar = 27 then Charset.FIGURES else charset
  if outchar = 31 then Charset.LETTERS else c1

/-- One pass through the `switch(state)` in the loop body. -/
def body (input : List ℚ) (w : Work) : Option Work :=
  match w.blk.state with
  | State.WAITING_FOR_START =>
    match readSample input w.inp with
    | none => none
    | some x =>
      if positive x = w.blk.space then
        some { w with
          blk := { w.blk with state := State.DATA, datapos := 0 }
          inp := w.inp + toInt (w.blk._spb * (3 / 2)) }
      else
        some { w with inp := w.inp + 1 }
  | State.DATA =>
    if w.blk.datapos > 4 then
      some { w with blk := { w.blk with state := State.LOOKING_FOR_STOP } }
    else
      match readSample input w.inp with
      | none => none
      | some x =>
        some { w with
          blk := { w.blk with datapos := w.blk.datapos + 1 }
          outchar := if positive x = w.blk.mark then w.outchar + (1 <<< w.blk.datapos) else w.outchar
          inp := w.inp + toInt w.blk._spb }
  | State.LOOKING_FOR_STOP =>
    match readSample input w.inp with
    | none => none
    | some x =>
      if positive x = w.blk.mark then
        match lookup (shift w.blk.charset w.outchar) w.outchar with
        | none => none
        | some c =>
          some { w with
            blk := { w.blk with charset := shift w.blk.charset w.outchar, state := State.WAITING_FOR_START }
            out := w.out ++ [c]
            outchar := 0 }
      else
        some { w with blk := { w.blk with state := State.WAITING_FOR_START }, outchar := 0 }

/-- How a run of the loop ends. -/
inductive Outcome where
  | done (w : Work)
  | fault
  | timeout
  deriving DecidableEq

/-- The `while` loop, run for at most `fuel` passes through the body. -/
def loop (input : List ℚ) (noutput_items : Int) : Nat → Work → Outcome
  | 0, w => if loopCond input noutput_items w then Outcome.timeout else Outcome.done w
  | fuel + 1, w =>
    if loopCond input noutput_items w then
      match body input w with
      | none => Outcome.fault
      | some w1 => loop input noutput_items fuel w1
    else Outcome.done w

/-- The variables at entry of `general_work`: `in = instart`, `outchar = 0`, `outcount = 0`. -/
def entry (d : rtty_decode_ff) : Work :=
  { blk := d, inp := 0, outchar := 0, out := [] }

/-- The method `general_work`: in the final `Work`, `out` holds the bytes written
(the return value is their number), `inp` is the argument of `consume_each`, and `blk`
holds the members left for the next call. -/
def general_work (fuel : Nat) (d : rtty_decode_ff) (noutput_items : Int) (input : List ℚ) : Outcome :=
  loop input noutput_items fuel (entry d)

/-- The error kinds of the interface. -/
inductive ErrorKind where
  | InvalidConfig
  deriving DecidableEq

/-- The calls the constructor makes into the base class `gr_block`, which is not part of
the source. Each field tells whether the call returns (`true`) or throws (`false`):
`init` for `gr_block ("decode_ff", ...)` with its two io signatures, whose arguments are
constants, the others for the call of that name, as a function of the value of its argument
expression (the conversion to the parameter type belongs to the call). -/
structure BaseCalls where
  init : Bool
  set_relative_rate : ℚ → Bool
  set_history : ℚ → Bool
  set_output_multiple : Int → Bool

/-- Construction as the interface sees it: `rtty_make_decode_ff` wraps `new rtty_decode_ff`
in a shared pointer. Neither it nor the constructor tests `rate` or `baud`; the constructor
calls `set_relative_rate((baud/rate) / 7.42)` (a `float` quotient divided in `double`),
`set_history(_spb * 8)` and `set_output_multiple(10)`, and construction fails when one of the
base-class calls throws. -/
def new_decoder (base : BaseCalls) (rate baud : ℚ) (polarity : Bool) :
    Except ErrorKind rtty_decode_ff :=
  if base.init &&
      base.set_relative_rate (fl64 (fl32 (fl32 baud / fl32 rate) / fl64 (742 / 100))) &&
      base.set_history (fl32 ((rtty_make_decode_ff rate baud polarity)._spb * 8)) &&
      base.set_output_multiple 10 then
    Except.ok (rtty_make_decode_ff rate baud polarity)
  else Except.error ErrorKind.InvalidConfig

/-- The `double` value `noutput_items / ((_baud/_rate) / 7.42)` of `forecast`: `_baud/_rate`
is a `float` quotient, `7.42` a `double` literal, the two other divisions are `double`
(`noutput_items` is a 32-bit `int`, whose conversion to `double` is exact). -/
def forecastValue (d : rtty_decode_ff) (noutput_items : Int) : ℚ :=
  fl64 ((noutput_items : ℚ) / fl64 (fl32 (d._baud / d._rate) / fl64 (742 / 100)))

/-- The method `forecast`: `ninput_items_required[0] = noutput_items / ((_baud/_rate) / 7.42)`.
The conversion of the `double` to the 32-bit `int` truncates toward zero and is undefined
(`none`) when the truncated value is outside `[-2^31, 2^31 - 1]`. -/
def forecast (d : rtty_decode_ff) (noutput_items : Int) : Option Int :=
  if -2147483649 < forecastValue d noutput_items ∧ forecastValue d noutput_items < 2147483648 then
    some (toInt (forecastValue d noutput_items))
  else none

/-- The first `k` passes through the loop body, each entered with the loop condition true. -/
def iter (input : List ℚ) (noutput_items : Int) : Nat → Work → Option Work
  | 0, w => some w
  | k + 1, w =>
    if loopCond input noutput_items w then
      match body input w with
      | none => none
      | some w1 => iter input noutput_items k w1
    else none

/-- The call that starts with variables `w` returns with variables `r`. -/
def Returns (input : List ℚ) (nout : Int) (w r : Work) : Prop :=
  ∃ f0, ∀ f, f0 ≤ f → loop input nout f w = Outcome.done r

/-! ## The line encoding used to state the round trip -/

/-- The level of a sample for a given `mark` polarity: `true` at mark level
(`(x > 0) == mark`), `false` at space level. -/
def levels (mark : Bool) (input : List ℚ) : List Bool :=
  input.map (fun x => positive x == mark)

/-- Every bit of `bs` held for `s` samples. -/
def hold (s : Nat) : List Bool → List Bool
  | [] => []
  | b :: bs => List.replicate s b ++ hold s bs

/-- The seven bits of one frame: start (space), the five data bits of the code LSB first
(mark when the bit is set), stop (mark). -/
def frameBits (c : Nat) : List Bool :=
  [false, c.testBit 0, c.testBit 1, c.testBit 2, c.testBit 3, c.testBit 4, true]

/-- The bits of a sequence of codes, frame after frame. -/
def encodeBits : List Nat → List Bool
  | [] => []
  | c :: cs => frameBits c ++ encodeBits cs

/-- The bytes a sequence of codes stands for, starting from table `t`: code 27 selects
FIGURES, code 31 selects LETTERS, and every code yields its entry in the table that is
active once its own shift has been applied. -/
def expected (t : Charset) : List Nat → List Char
  | [] => []
  | c :: cs =>
    let t1 := if c = 27 then Charset.FIGURES else if c = 31 then Charset.LETTERS else t
    (if t1 = Charset.LETTERS then letters.getD c '\x00' else figures.getD c '\x00')
      :: expected t1 cs

/-- A sample at the given level for `mark = true`: `1` at mark level, `-1` at space level. -/
def toSample (b : Bool) : ℚ :=
  if b then 1 else -1

/-! ## Auxiliary notions for the invariants -/

/-- The stop test of a pass succeeds: the state is `LOOKING_FOR_STOP` and the sample under
the cursor is at mark level. -/
def stopMatched (input : List ℚ) (w : Work) : Bool :=
  decide (w.blk.state = State.LOOKING_FOR_STOP) &&
    (match readSample input w.inp with
     | some x => decide (positive x = w.blk.mark)
     | none => false)

/-- The number of low bits of `outchar` that may be set in the current state. -/
def accBits (w : Work) : Nat :=
  match w.blk.state with
  | State.WAITING_FOR_START => 0
  | State.DATA => min w.blk.datapos 5
  | State.LOOKING_FOR_STOP => 5

/-- Passes left in the current frame before the state is `WAITING_FOR_START` again. -/
def frameRank (w : Work) : Nat :=
  match w.blk.state with
  | State.WAITING_FOR_START => 0
  | State.LOOKING_FOR_STOP => 1
  | State.DATA => 2 + (5 - w.blk.datapos)

/-- A bound on the number of passes still to run: eight per sample left in the window,
plus the passes left in the current frame. -/
def passBound (input : List ℚ) (w : Work) : Nat :=
  8 * ((input.length : Int) - w.inp).toNat + frameRank w

/-- The invariant of the loop variables: the cursor is not before the window, and only the
low `accBits` bits of `outchar` can be set. -/
def WorkInv (w : Work) : Prop :=
  0 ≤ w.inp ∧ w.outchar < 2 ^ accBits w

/-- The sample at offset `i` is inside the window and at mark level. -/
def markAt (input : List ℚ) (mark : Bool) (i : Int) : Bool :=
  match readSample input i with
  | some x => decide (positive x = mark)
  | none => false

/-- The code read from the first `k` data bits of a frame whose first data bit is sampled
at offset `base`, the following ones `step` samples apart: bit `j` counts `2^j` when the
sample at `base + j*step` is at mark level. -/
def sampledCode (input : List ℚ) (mark : Bool) (base step : Int) : Nat → Nat
  | 0 => 0
  | k + 1 => sampledCode input mark base step k +
      (if markAt input mark (base + (k : Int) * step) then 2 ^ k else 0)

/-- The members after a sequence of calls, each given as fuel, `noutput_items` and input
window; `none` when one of the calls does not return within its fuel. -/
def afterCalls (d : rtty_decode_ff) : List (Nat × Int × List ℚ) → Option rtty_decode_ff
  | [] => some d
  | (fuel, nout, input) :: cs =>
    match general_work fuel d nout input with
    | Outcome.done r => afterCalls r.blk cs
    | _ => none

/-- The frame invariant of the members: while a frame is being read `datapos` is at most
5, and it is 5 when the stop test is due. -/
def FrameInv (d : rtty_decode_ff) : Prop :=
  (d.state = State.DATA → d.datapos ≤ 5) ∧ (d.state = State.LOOKING_FOR_STOP → d.datapos = 5)

/-! ## Rounding: monotone, idempotent, exact on small integers -/

theorem ilog2_spec : ∀ (fuel n : Nat), n ≤ fuel → 1 ≤ n →
    2 ^ ilog2 fuel n ≤ n ∧ n < 2 ^ (ilog2 fuel n + 1) := by
  intro fuel
  induction fuel with
  | zero => intro n h1 h2; omega
  | succ fuel ih =>
    intro n h1 h2
    unfold ilog2
    by_cases h : n < 2
    · rw [if_pos h]
      constructor <;> simp <;> omega
    · rw [if_neg h]
      obtain ⟨a, b⟩ := ih (n / 2) (by omega) (by omega)
      constructor
      · rw [Nat.pow_succ]
        omega
      · rw [Nat.pow_succ]
        omega

theorem pow2_eq (e : Int) : pow2 e = (2 : ℚ) ^ e := by
  unfold pow2
  split
  · rename_i h
    obtain ⟨n, rfl⟩ := Int.eq_ofNat_of_zero_le h
    simp
  · rename_i h
    obtain ⟨n, hn⟩ : ∃ n : Nat, -e = n := Int.eq_ofNat_of_zero_le (by omega)
    have he : e = -(n : Int) := by omega
    rw [hn, he]
    simp

theorem pow2_pos (e : Int) : 0 < pow2 e := by
  rw [pow2_eq]; positivity

theorem pow2_le (a b : Int) (h : a ≤ b) : pow2 a ≤ pow2 b := by
  rw [pow2_eq, pow2_eq]
  exact zpow_le_zpow_right₀ (by norm_num) h

theorem pow2_lt (a b : Int) (h : a < b) : pow2 a < pow2 b := by
  rw [pow2_eq, pow2_eq]
  exact zpow_lt_zpow_right₀ (by norm_num) h

theorem pow2_add (a b : Int) : pow2 (a + b) = pow2 a * pow2 b := by
  rw [pow2_eq, pow2_eq, pow2_eq]
  exact zpow_add₀ (by norm_num) a b

theorem pow2_natCast (n : Nat) : pow2 (n : Int) = ((2 ^ n : Nat) : ℚ) := by
  rw [pow2_eq]; simp

theorem expo_spec (x : ℚ) (hx : 0 < x) : pow2 (expo x) ≤ x ∧ x < pow2 (expo x + 1) := by
  have hnum : 0 < x.num := Rat.num_pos.2 hx
  obtain ⟨a, ha⟩ : ∃ a : Nat, x.num = a := Int.eq_ofNat_of_zero_le (le_of_lt hnum)
  have ha1 : 1 ≤ a := by omega
  have hb1 : 1 ≤ x.den := x.den_pos
  have hnat : x.num.natAbs = a := by rw [ha]; rfl
  obtain ⟨a1, a2⟩ := ilog2_spec a a (le_refl _) ha1
  obtain ⟨b1, b2⟩ := ilog2_spec x.den x.den (le_refl _) hb1
  have hxab : x * (x.den : ℚ) = (a : ℚ) := by
    have h1 := Rat.mul_den_eq_num x
    rw [h1, ha]; simp
  have hbq : (0 : ℚ) < (x.den : ℚ) := by exact_mod_cast hb1
  have a1q : ((2 ^ ilog2 a a : Nat) : ℚ) ≤ (a : ℚ) := by exact_mod_cast a1
  have a2q : (a : ℚ) < ((2 ^ (ilog2 a a + 1) : Nat) : ℚ) := by exact_mod_cast a2
  have b1q : ((2 ^ ilog2 x.den x.den : Nat) : ℚ) ≤ (x.den : ℚ) := by exact_mod_cast b1
  have b2q : (x.den : ℚ) < ((2 ^ (ilog2 x.den x.den + 1) : Nat) : ℚ) := by exact_mod_cast b2
  have hhi : x < pow2 ((ilog2 a a : Int) - (ilog2 x.den x.den : Int) + 1) := by
    have e1 : ((ilog2 a a : Int) - (ilog2 x.den x.den : Int) + 1) =
        (((ilog2 a a + 1 : Nat) : Int)) + (-(ilog2 x.den x.den : Int)) := by push_cast; ring
    have e2 : pow2 (((ilog2 a a + 1 : Nat) : Int)) =
        pow2 ((ilog2 a a : Int) - (ilog2 x.den x.den : Int) + 1) *
          pow2 ((ilog2 x.den x.den : Nat) : Int) := by
      rw [← pow2_add]; congr 1; push_cast; ring
    rw [pow2_natCast, pow2_natCast] at e2
    have hp := pow2_pos ((ilog2 a a : Int) - (ilog2 x.den x.den : Int) + 1)
    by_contra hcon
    have hcon2 := not_lt.1 hcon
    have : ((2 ^ (ilog2 a a + 1) : Nat) : ℚ) ≤ x * (x.den : ℚ) := by
      rw [e2]
      have hpos : (0 : ℚ) ≤ ((2 ^ ilog2 x.den x.den : Nat) : ℚ) := by positivity
      calc pow2 ((ilog2 a a : Int) - (ilog2 x.den x.den : Int) + 1) *
            ((2 ^ ilog2 x.den x.den : Nat) : ℚ)
          ≤ x * ((2 ^ ilog2 x.den x.den : Nat) : ℚ) := mul_le_mul_of_nonneg_right hcon2 hpos
        _ ≤ x * (x.den : ℚ) := mul_le_mul_of_nonneg_left b1q (le_of_lt hx)
    rw [hxab] at this
    linarith
  have hlo : pow2 ((ilog2 a a : Int) - (ilog2 x.den x.den : Int) - 1) < x := by
    have e2 : pow2 ((ilog2 a a : Nat) : Int) =
        pow2 ((ilog2 a a : Int) - (ilog2 x.den x.den : Int) - 1) *
          pow2 ((ilog2 x.den x.den + 1 : Nat) : Int) := by
      rw [← pow2_add]; congr 1; push_cast; ring
    rw [pow2_natCast, pow2_natCast] at e2
    have hp := pow2_pos ((ilog2 a a : Int) - (ilog2 x.den x.den : Int) - 1)
    by_contra hcon
    have hcon2 := not_lt.1 hcon
    have : x * (x.den : ℚ) <
        pow2 ((ilog2 a a : Int) - (ilog2 x.den x.den : Int) - 1) *
          ((2 ^ (ilog2 x.den x.den + 1) : Nat) : ℚ) := by
      calc x * (x.den : ℚ)
          ≤ pow2 ((ilog2 a a : Int) - (ilog2 x.den x.den : Int) - 1) * (x.den : ℚ) :=
            mul_le_mul_of_nonneg_right hcon2 (le_of_lt hbq)
        _ < pow2 ((ilog2 a a : Int) - (ilog2 x.den x.den : Int) - 1) *
            ((2 ^ (ilog2 x.den x.den + 1) : Nat) : ℚ) := mul_lt_mul_of_pos_left b2q hp
    rw [hxab, ← e2] at this
    linarith
  unfold expo
  rw [hnat]
  split
  · rename_i h
    exact ⟨h, hhi⟩
  · rename_i h
    refine ⟨le_of_lt hlo, ?_⟩
    have : (ilog2 a a : Int) - (ilog2 x.den x.den : Int) - 1 + 1 =
        (ilog2 a a : Int) - (ilog2 x.den x.den : Int) := by ring
    rw [this]
    exact not_le.1 h

theorem expo_unique (x : ℚ) (e : Int) (h1 : pow2 e ≤ x) (h2 : x < pow2 (e + 1)) :
    expo x = e := by
  have hx : 0 < x := lt_of_lt_of_le (pow2_pos e) h1
  obtain ⟨s1, s2⟩ := expo_spec x hx
  by_contra hne
  rcases lt_or_gt_of_ne hne with h | h
  · have := pow2_le (expo x + 1) e (by omega)
    linarith
  · have := pow2_le (e + 1) (expo x) (by omega)
    linarith

theorem expo_mono (x y : ℚ) (hx : 0 < x) (hxy : x ≤ y) : expo x ≤ expo y := by
  obtain ⟨s1, _⟩ := expo_spec x hx
  obtain ⟨_, t2⟩ := expo_spec y (lt_of_lt_of_le hx hxy)
  by_contra hcon
  have := pow2_le (expo y + 1) (expo x) (by omega)
  linarith

theorem roundEven_intCast (z : Int) : roundEven (z : ℚ) = z := by
  unfold roundEven
  simp

theorem roundEven_bounds (q : ℚ) : ⌊q⌋ ≤ roundEven q ∧ roundEven q ≤ ⌊q⌋ + 1 := by
  unfold roundEven
  split
  · omega
  · split
    · omega
    · split <;> omega

theorem le_roundEven (q : ℚ) (z : Int) (h : (z : ℚ) ≤ q) : z ≤ roundEven q :=
  le_trans (Int.le_floor.2 h) (roundEven_bounds q).1

theorem roundEven_le (q : ℚ) (z : Int) (h : q ≤ (z : ℚ)) : roundEven q ≤ z := by
  have hf : ⌊q⌋ ≤ z := by
    exact_mod_cast (Int.floor_le q).trans h
  rcases lt_or_eq_of_le hf with h1 | h1
  · have := (roundEven_bounds q).2
    omega
  · have hq : q = (z : ℚ) := by
      have := Int.floor_le q
      rw [h1] at this
      exact le_antisymm h this
    rw [hq, roundEven_intCast]

theorem roundEven_mono (q1 q2 : ℚ) (h : q1 ≤ q2) : roundEven q1 ≤ roundEven q2 := by
  have hf : ⌊q1⌋ ≤ ⌊q2⌋ := Int.floor_mono h
  rcases lt_or_eq_of_le hf with h1 | h1
  · have := (roundEven_bounds q1).2
    have := (roundEven_bounds q2).1
    omega
  · unfold roundEven
    rw [← h1]
    have hr : q1 - (⌊q1⌋ : ℚ) ≤ q2 - (⌊q1⌋ : ℚ) := by linarith
    by_cases a1 : q1 - (⌊q1⌋ : ℚ) < 1 / 2
    · rw [if_pos a1]
      split
      · exact le_refl _
      · split
        · omega
        · split <;> omega
    · rw [if_neg a1]
      by_cases a2 : 1 / 2 < q1 - (⌊q1⌋ : ℚ)
      · have b1 : ¬ q2 - (⌊q1⌋ : ℚ) < 1 / 2 := by linarith
        have b2 : 1 / 2 < q2 - (⌊q1⌋ : ℚ) := by linarith
        rw [if_pos a2, if_neg b1, if_pos b2]
      · rw [if_neg a2]
        have b1 : ¬ q2 - (⌊q1⌋ : ℚ) < 1 / 2 := by linarith
        rw [if_neg b1]
        by_cases b2 : 1 / 2 < q2 - (⌊q1⌋ : ℚ)
        · rw [if_pos b2]
          split <;> omega
        · rw [if_neg b2]

theorem flPos_quot (p : Nat) (hp : 1 ≤ p) (x : ℚ) (hx : 0 < x) :
    (((2 ^ (p - 1) : Nat) : Int) : ℚ) ≤ x / pow2 (expo x - ((p : Int) - 1)) ∧
    x / pow2 (expo x - ((p : Int) - 1)) < (((2 ^ p : Nat) : Int) : ℚ) := by
  obtain ⟨s1, s2⟩ := expo_spec x hx
  have hu := pow2_pos (expo x - ((p : Int) - 1))
  have e1 : pow2 (expo x) = ((2 ^ (p - 1) : Nat) : ℚ) * pow2 (expo x - ((p : Int) - 1)) := by
    rw [← pow2_natCast, ← pow2_add]
    congr 1
    have : ((p - 1 : Nat) : Int) = (p : Int) - 1 := by omega
    rw [this]; ring
  have e2 : pow2 (expo x + 1) = ((2 ^ p : Nat) : ℚ) * pow2 (expo x - ((p : Int) - 1)) := by
    rw [← pow2_natCast, ← pow2_add]
    congr 1
    ring
  constructor
  · rw [le_div_iff₀ hu]
    push_cast
    push_cast at e1
    rw [← e1]
    exact s1
  · rw [div_lt_iff₀ hu]
    push_cast
    push_cast at e2
    rw [← e2]
    exact s2

theorem flPos_bounds (p : Nat) (hp : 1 ≤ p) (x : ℚ) (hx : 0 < x) :
    pow2 (expo x) ≤ flPos p x ∧ flPos p x ≤ pow2 (expo x + 1) := by
  obtain ⟨q1, q2⟩ := flPos_quot p hp x hx
  have hu := pow2_pos (expo x - ((p : Int) - 1))
  have e1 : pow2 (expo x) = ((2 ^ (p - 1) : Nat) : ℚ) * pow2 (expo x - ((p : Int) - 1)) := by
    rw [← pow2_natCast, ← pow2_add]
    congr 1
    have : ((p - 1 : Nat) : Int) = (p : Int) - 1 := by omega
    rw [this]; ring
  have e2 : pow2 (expo x + 1) = ((2 ^ p : Nat) : ℚ) * pow2 (expo x - ((p : Int) - 1)) := by
    rw [← pow2_natCast, ← pow2_add]
    congr 1
    ring
  have r1 := le_roundEven _ _ q1
  have r2 := roundEven_le _ _ (le_of_lt q2)
  have r1q : ((2 ^ (p - 1) : Nat) : ℚ) ≤
      (roundEven (x / pow2 (expo x - ((p : Int) - 1))) : ℚ) := by exact_mod_cast r1
  have r2q : (roundEven (x / pow2 (expo x - ((p : Int) - 1))) : ℚ) ≤
      ((2 ^ p : Nat) : ℚ) := by exact_mod_cast r2
  unfold flPos
  rw [e1, e2]
  constructor
  · exact mul_le_mul_of_nonneg_right r1q (le_of_lt hu)
  · exact mul_le_mul_of_nonneg_right r2q (le_of_lt hu)

theorem flPos_pos (p : Nat) (hp : 1 ≤ p) (x : ℚ) (hx : 0 < x) : 0 < flPos p x :=
  lt_of_lt_of_le (pow2_pos _) (flPos_bounds p hp x hx).1

theorem flPos_mono (p : Nat) (hp : 1 ≤ p) (x y : ℚ) (hx : 0 < x) (hxy : x ≤ y) :
    flPos p x ≤ flPos p y := by
  have hy : 0 < y := lt_of_lt_of_le hx hxy
  rcases lt_or_eq_of_le (expo_mono x y hx hxy) with h | h
  · have b1 := (flPos_bounds p hp x hx).2
    have b2 := (flPos_bounds p hp y hy).1
    have := pow2_le (expo x + 1) (expo y) (by omega)
    linarith
  · unfold flPos
    rw [← h]
    have hu := pow2_pos (expo x - ((p : Int) - 1))
    have hq : x / pow2 (expo x - ((p : Int) - 1)) ≤ y / pow2 (expo x - ((p : Int) - 1)) :=
      div_le_div_of_nonneg_right hxy (le_of_lt hu)
    have := roundEven_mono _ _ hq
    have hq2 : (roundEven (x / pow2 (expo x - ((p : Int) - 1))) : ℚ) ≤
        (roundEven (y / pow2 (expo x - ((p : Int) - 1))) : ℚ) := by exact_mod_cast this
    exact mul_le_mul_of_nonneg_right hq2 (le_of_lt hu)

theorem flPos_exact (p : Nat) (x : ℚ) (z : Int)
    (h : x = (z : ℚ) * pow2 (expo x - ((p : Int) - 1))) : flPos p x = x := by
  have hu := pow2_pos (expo x - ((p : Int) - 1))
  have hq : x / pow2 (expo x - ((p : Int) - 1)) = (z : ℚ) := by
    rw [div_eq_iff (ne_of_gt hu)]
    exact h
  unfold flPos
  rw [hq, roundEven_intCast]
  exact h.symm

theorem flPos_idem (p : Nat) (hp : 1 ≤ p) (x : ℚ) (hx : 0 < x) :
    flPos p (flPos p x) = flPos p x := by
  obtain ⟨b1, b2⟩ := flPos_bounds p hp x hx
  rcases lt_or_eq_of_le b2 with h | h
  · have he : expo (flPos p x) = expo x := expo_unique _ _ b1 h
    refine flPos_exact p _ (roundEven (x / pow2 (expo x - ((p : Int) - 1)))) ?_
    rw [he]
    rfl
  · have he : expo (flPos p x) = expo x + 1 :=
      expo_unique _ _ (le_of_eq h.symm) (by rw [h]; exact pow2_lt _ _ (by omega))
    refine flPos_exact p _ ((2 ^ (p - 1) : Nat) : Int) ?_
    rw [he, h]
    have e : ((((2 ^ (p - 1) : Nat) : Int)) : ℚ) = pow2 ((p - 1 : Nat) : Int) := by
      rw [pow2_natCast]; norm_cast
    rw [e, ← pow2_add]
    congr 1
    have : ((p - 1 : Nat) : Int) = (p : Int) - 1 := by omega
    rw [this]; ring

theorem fl_zero (p : Nat) : fl p 0 = 0 := by
  simp [fl]

theorem fl_of_pos (p : Nat) (x : ℚ) (hx : 0 < x) : fl p x = flPos p x := by
  unfold fl
  rw [if_neg (ne_of_gt hx), if_pos hx]

theorem fl_of_neg (p : Nat) (x : ℚ) (hx : x < 0) : fl p x = - flPos p (-x) := by
  unfold fl
  rw [if_neg (ne_of_lt hx), if_neg (not_lt.2 (le_of_lt hx))]

theorem fl_pos (p : Nat) (hp : 1 ≤ p) (x : ℚ) (hx : 0 < x) : 0 < fl p x := by
  rw [fl_of_pos p x hx]; exact flPos_pos p hp x hx

theorem fl_neg_lt (p : Nat) (hp : 1 ≤ p) (x : ℚ) (hx : x < 0) : fl p x < 0 := by
  rw [fl_of_neg p x hx]
  have := flPos_pos p hp (-x) (by linarith)
  linarith

theorem fl_mono (p : Nat) (hp : 1 ≤ p) (x y : ℚ) (hxy : x ≤ y) : fl p x ≤ fl p y := by
  rcases lt_trichotomy x 0 with hx | hx | hx
  · rcases lt_trichotomy y 0 with hy | hy | hy
    · rw [fl_of_neg p x hx, fl_of_neg p y hy]
      have := flPos_mono p hp (-y) (-x) (by linarith) (by linarith)
      linarith
    · rw [hy, fl_zero]
      exact le_of_lt (fl_neg_lt p hp x hx)
    · exact le_of_lt (lt_trans (fl_neg_lt p hp x hx) (fl_pos p hp y hy))
  · rw [hx, fl_zero]
    rcases lt_or_eq_of_le (hx ▸ hxy) with hy | hy
    · exact le_of_lt (fl_pos p hp y hy)
    · rw [← hy, fl_zero]
  · have hy : 0 < y := lt_of_lt_of_le hx hxy
    rw [fl_of_pos p x hx, fl_of_pos p y hy]
    exact flPos_mono p hp x y hx hxy

theorem fl_idem (p : Nat) (hp : 1 ≤ p) (x : ℚ) : fl p (fl p x) = fl p x := by
  rcases lt_trichotomy x 0 with hx | hx | hx
  · have h1 := fl_neg_lt p hp x hx
    rw [fl_of_neg p _ h1]
    rw [fl_of_neg p x hx, neg_neg, flPos_idem p hp (-x) (by linarith)]
  · rw [hx, fl_zero, fl_zero]
  · have h1 := fl_pos p hp x hx
    rw [fl_of_pos p _ h1, fl_of_pos p x hx, flPos_idem p hp x hx]

theorem fl_natCast (p : Nat) (hp : 1 ≤ p) (n : Nat) (hn : n ≤ 2 ^ p) : fl p (n : ℚ) = (n : ℚ) := by
  rcases Nat.eq_zero_or_pos n with h0 | h0
  · rw [h0]; simp [fl_zero]
  have hx : (0 : ℚ) < (n : ℚ) := by exact_mod_cast h0
  rw [fl_of_pos p _ hx]
  obtain ⟨s1, s2⟩ := expo_spec (n : ℚ) hx
  have he0 : 0 ≤ expo (n : ℚ) := by
    by_contra hcon
    have := pow2_le (expo (n : ℚ) + 1) 0 (by omega)
    have h1 : pow2 0 = 1 := by simp [pow2]
    have h2 : (1 : ℚ) ≤ (n : ℚ) := by exact_mod_cast h0
    linarith
  have hep : expo (n : ℚ) ≤ (p : Int) := by
    by_contra hcon
    have := pow2_le ((p : Int) + 1) (expo (n : ℚ)) (by omega)
    have h1 := pow2_lt (p : Int) ((p : Int) + 1) (by omega)
    rw [pow2_natCast] at h1
    have h2 : (n : ℚ) ≤ ((2 ^ p : Nat) : ℚ) := by exact_mod_cast hn
    linarith
  rcases lt_or_eq_of_le hep with h | h
  · obtain ⟨k, hk⟩ : ∃ k : Nat, (p : Int) - 1 - expo (n : ℚ) = k :=
      Int.eq_ofNat_of_zero_le (by omega)
    refine flPos_exact p _ (((n * 2 ^ k : Nat) : Int)) ?_
    have e1 : expo (n : ℚ) - ((p : Int) - 1) = -(k : Int) := by omega
    rw [e1]
    have e2 : pow2 (-(k : Int)) * pow2 (k : Int) = 1 := by
      rw [← pow2_add]; simp [pow2]
    rw [pow2_natCast] at e2
    push_cast
    push_cast at e2
    rw [mul_assoc, mul_comm ((2 : ℚ) ^ k), e2, mul_one]
  · have hn2 : (n : ℚ) = ((2 ^ p : Nat) : ℚ) := by
      have h2 : (n : ℚ) ≤ ((2 ^ p : Nat) : ℚ) := by exact_mod_cast hn
      rw [h, pow2_natCast] at s1
      exact le_antisymm h2 s1
    refine flPos_exact p _ (((2 ^ (p - 1) : Nat) : Int)) ?_
    rw [h]
    have e1 : (p : Int) - ((p : Int) - 1) = ((1 : Nat) : Int) := by simp
    rw [e1, pow2_natCast, hn2]
    have : p = (p - 1) + 1 := by omega
    conv_lhs => rw [this, Nat.pow_succ]
    push_cast
    ring

theorem roundEven_near (q : ℚ) :
    q - 1 / 2 ≤ (roundEven q : ℚ) ∧ (roundEven q : ℚ) ≤ q + 1 / 2 := by
  have h1 := Int.floor_le q
  have h2 := Int.lt_floor_add_one q
  unfold roundEven
  split
  · constructor <;> linarith
  · split
    · constructor <;> push_cast <;> linarith
    · split
      · constructor <;> linarith
      · constructor <;> push_cast <;> linarith

/-- The relative error of a rounding to `p` significant bits is at most `2^-p`. -/
theorem fl_err (p : Nat) (hp : 1 ≤ p) (x : ℚ) (hx : 0 < x) :
    x * (1 - 1 / ((2 ^ p : Nat) : ℚ)) ≤ fl p x ∧ fl p x ≤ x * (1 + 1 / ((2 ^ p : Nat) : ℚ)) := by
  rw [fl_of_pos p x hx]
  obtain ⟨s1, _⟩ := expo_spec x hx
  have hu := pow2_pos (expo x - ((p : Int) - 1))
  have e1 : pow2 (expo x) = ((2 ^ (p - 1) : Nat) : ℚ) * pow2 (expo x - ((p : Int) - 1)) := by
    rw [← pow2_natCast, ← pow2_add]
    congr 1
    have : ((p - 1 : Nat) : Int) = (p : Int) - 1 := by omega
    rw [this]; ring
  obtain ⟨n1, n2⟩ := roundEven_near (x / pow2 (expo x - ((p : Int) - 1)))
  have hpp : ((2 ^ p : Nat) : ℚ) = 2 * ((2 ^ (p - 1) : Nat) : ℚ) := by
    obtain ⟨k, rfl⟩ : ∃ k, p = k + 1 := ⟨p - 1, by omega⟩
    simp only [Nat.add_sub_cancel]
    push_cast
    ring
  have hk : (0 : ℚ) < ((2 ^ (p - 1) : Nat) : ℚ) := by
    exact_mod_cast Nat.two_pow_pos (p - 1)
  have hxu : x / pow2 (expo x - ((p : Int) - 1)) * pow2 (expo x - ((p : Int) - 1)) = x :=
    div_mul_cancel₀ x (ne_of_gt hu)
  -- half a unit in the last place is at most x / 2^p
  have hulp : pow2 (expo x - ((p : Int) - 1)) / 2 ≤ x * (1 / ((2 ^ p : Nat) : ℚ)) := by
    rw [hpp, mul_one_div, le_div_iff₀ (by linarith)]
    rw [e1] at s1
    linarith
  unfold flPos
  constructor
  · have := mul_le_mul_of_nonneg_right n1 (le_of_lt hu)
    rw [sub_mul, hxu] at this
    linarith
  · have := mul_le_mul_of_nonneg_right n2 (le_of_lt hu)
    rw [add_mul, hxu] at this
    linarith

theorem fl32_err (x : ℚ) (hx : 0 < x) :
    x * (1 - 1 / 16777216) ≤ fl32 x ∧ fl32 x ≤ x * (1 + 1 / 16777216) := by
  have := fl_err 24 (by decide) x hx
  norm_num at this
  unfold fl32
  constructor <;> linarith [this.1, this.2]

theorem fl64_err (x : ℚ) (hx : 0 < x) :
    x * (1 - 1 / 9007199254740992) ≤ fl64 x ∧ fl64 x ≤ x * (1 + 1 / 9007199254740992) := by
  have := fl_err 53 (by decide) x hx
  norm_num at this
  unfold fl64
  constructor <;> linarith [this.1, this.2]

/-- The value `forecast` truncates is within a relative error of `2^-22` of the exact
quotient `n * 7.42 * _rate / _baud`. -/
theorem forecastValue_err (d : rtty_decode_ff) (hr : 0 < d._rate) (hb : 0 < d._baud)
    (n : Int) (hn : 0 ≤ n) :
    (n : ℚ) * (742 / 100) * d._rate / d._baud * (1 - 1 / 4194304) ≤ forecastValue d n ∧
    forecastValue d n ≤ (n : ℚ) * (742 / 100) * d._rate / d._baud * (1 + 1 / 4194304) := by
  rcases eq_or_lt_of_le hn with h0 | hpos
  · subst h0
    have : forecastValue d 0 = 0 := by
      unfold forecastValue fl64
      simp [fl_zero]
    rw [this]
    simp
  have hnq : (0 : ℚ) < (n : ℚ) := by exact_mod_cast hpos
  have hx : 0 < d._baud / d._rate := div_pos hb hr
  obtain ⟨a1, a2⟩ := fl32_err _ hx
  have hq1 : 0 < fl32 (d._baud / d._rate) := fl_pos 24 (by decide) _ hx
  obtain ⟨c1, c2⟩ := fl64_err (742 / 100) (by norm_num)
  have hc : (0 : ℚ) < fl64 (742 / 100) := fl_pos 53 (by decide) _ (by norm_num)
  have hy : 0 < fl32 (d._baud / d._rate) / fl64 (742 / 100) := div_pos hq1 hc
  obtain ⟨d1, d2⟩ := fl64_err _ hy
  have hD : 0 < fl64 (fl32 (d._baud / d._rate) / fl64 (742 / 100)) := fl_pos 53 (by decide) _ hy
  have hz : 0 < (n : ℚ) / fl64 (fl32 (d._baud / d._rate) / fl64 (742 / 100)) := div_pos hnq hD
  obtain ⟨v1, v2⟩ := fl64_err _ hz
  unfold forecastValue
  generalize fl64 ((n : ℚ) / fl64 (fl32 (d._baud / d._rate) / fl64 (742 / 100))) = V at v1 v2 ⊢
  generalize fl64 (fl32 (d._baud / d._rate) / fl64 (742 / 100)) = D at d1 d2 hD hz v1 v2
  generalize fl64 (742 / 100) = c at c1 c2 hc hy d1 d2
  generalize fl32 (d._baud / d._rate) = q at a1 a2 hq1 hy d1 d2
  -- all that is left is arithmetic on V, D, c, q
  have hE : (n : ℚ) * (742 / 100) * d._rate / d._baud = (n : ℚ) * (742 / 100) / (d._baud / d._rate) := by
    field_simp
  rw [hE]
  generalize d._baud / d._rate = x at hx a1 a2 ⊢
  generalize (n : ℚ) = m at hnq v1 v2 hz ⊢
  -- bounds on q / c
  have y1 : x * (1 - 1 / 16777216) / ((742 / 100) * (1 + 1 / 9007199254740992)) ≤ q / c :=
    div_le_div₀ (le_of_lt hq1) a1 hc c2
  have y2 : q / c ≤ x * (1 + 1 / 16777216) / ((742 / 100) * (1 - 1 / 9007199254740992)) :=
    div_le_div₀ (by positivity) a2 (by norm_num) c1
  have hlo : 0 < x * (1 - 1 / 16777216) / ((742 / 100) * (1 + 1 / 9007199254740992)) *
      (1 - 1 / 9007199254740992) := by
    have : (0 : ℚ) < x * (1 - 1 / 16777216) := mul_pos hx (by norm_num)
    positivity
  have D1 : x * (1 - 1 / 16777216) / ((742 / 100) * (1 + 1 / 9007199254740992)) *
      (1 - 1 / 9007199254740992) ≤ D :=
    le_trans (mul_le_mul_of_nonneg_right y1 (by norm_num)) d1
  have D2 : D ≤ x * (1 + 1 / 16777216) / ((742 / 100) * (1 - 1 / 9007199254740992)) *
      (1 + 1 / 9007199254740992) :=
    le_trans d2 (mul_le_mul_of_nonneg_right y2 (by norm_num))
  have z1 : m / (x * (1 + 1 / 16777216) / ((742 / 100) * (1 - 1 / 9007199254740992)) *
      (1 + 1 / 9007199254740992)) ≤ m / D :=
    div_le_div_of_nonneg_left (le_of_lt hnq) hD D2
  have z2 : m / D ≤ m / (x * (1 - 1 / 16777216) / ((742 / 100) * (1 + 1 / 9007199254740992)) *
      (1 - 1 / 9007199254740992)) :=
    div_le_div_of_nonneg_left (le_of_lt hnq) hlo D1
  have hEpos : 0 < m * (742 / 100) / x := by positivity
  constructor
  · have e : m / (x * (1 + 1 / 16777216) / ((742 / 100) * (1 - 1 / 9007199254740992)) *
        (1 + 1 / 9007199254740992)) * (1 - 1 / 9007199254740992) =
        m * (742 / 100) / x * ((1 - 1 / 9007199254740992) * (1 - 1 / 9007199254740992) /
          ((1 + 1 / 16777216) * (1 + 1 / 9007199254740992))) := by
      field_simp
      ring
    have f : (1 - 1 / 4194304 : ℚ) ≤ (1 - 1 / 9007199254740992) * (1 - 1 / 9007199254740992) /
        ((1 + 1 / 16777216) * (1 + 1 / 9007199254740992)) := by norm_num
    calc m * (742 / 100) / x * (1 - 1 / 4194304)
        ≤ m * (742 / 100) / x * ((1 - 1 / 9007199254740992) * (1 - 1 / 9007199254740992) /
          ((1 + 1 / 16777216) * (1 + 1 / 9007199254740992))) :=
          mul_le_mul_of_nonneg_left f (le_of_lt hEpos)
      _ = m / (x * (1 + 1 / 16777216) / ((742 / 100) * (1 - 1 / 9007199254740992)) *
        (1 + 1 / 9007199254740992)) * (1 - 1 / 9007199254740992) := e.symm
      _ ≤ m / D * (1 - 1 / 9007199254740992) :=
          mul_le_mul_of_nonneg_right z1 (by norm_num)
      _ ≤ V := v1
  · have e : m / (x * (1 - 1 / 16777216) / ((742 / 100) * (1 + 1 / 9007199254740992)) *
        (1 - 1 / 9007199254740992)) * (1 + 1 / 9007199254740992) =
        m * (742 / 100) / x * ((1 + 1 / 9007199254740992) * (1 + 1 / 9007199254740992) /
          ((1 - 1 / 16777216) * (1 - 1 / 9007199254740992))) := by
      field_simp
      ring
    have f : (1 + 1 / 9007199254740992) * (1 + 1 / 9007199254740992) /
        ((1 - 1 / 16777216) * (1 - 1 / 9007199254740992)) ≤ (1 + 1 / 4194304 : ℚ) := by
      norm_num
    calc V ≤ m / D * (1 + 1 / 9007199254740992) := v2
      _ ≤ m / (x * (1 - 1 / 16777216) / ((742 / 100) * (1 + 1 / 9007199254740992)) *
        (1 - 1 / 9007199254740992)) * (1 + 1 / 9007199254740992) :=
          mul_le_mul_of_nonneg_right z2 (by norm_num)
      _ = m * (742 / 100) / x * ((1 + 1 / 9007199254740992) * (1 + 1 / 9007199254740992) /
          ((1 - 1 / 16777216) * (1 - 1 / 9007199254740992))) := e
      _ ≤ m * (742 / 100) / x * (1 + 1 / 4194304) :=
          mul_le_mul_of_nonneg_left f (le_of_lt hEpos)

/-! ## The loop -/

theorem loop_exit (input : List ℚ) (nout : Int) (f : Nat) (w : Work)
    (h : loopCond input nout w = false) : loop input nout f w = Outcome.done w := by
  cases f <;> simp [loop, h]

theorem loop_pass (input : List ℚ) (nout : Int) (f : Nat) (w w1 : Work)
    (h : loopCond input nout w = true) (hb : body input w = some w1) :
    loop input nout (f + 1) w = loop input nout f w1 := by
  simp [loop, h, hb]

theorem loop_mono (input : List ℚ) (nout : Int) (f : Nat) :
    ∀ (w r : Work), loop input nout f w = Outcome.done r →
      ∀ g, f ≤ g → loop input nout g w = Outcome.done r := by
  induction f with
  | zero =>
    intro w r h g _
    by_cases hc : loopCond input nout w = true
    · simp [loop, hc] at h
    · simp only [Bool.not_eq_true] at hc
      rw [loop_exit input nout g w hc]
      rw [loop_exit input nout 0 w hc] at h
      exact h
  | succ f ih =>
    intro w r h g hg
    by_cases hc : loopCond input nout w = true
    · obtain ⟨g, rfl⟩ : ∃ g1, g = g1 + 1 := ⟨g - 1, by omega⟩
      cases hb : body input w with
      | none => simp [loop, hc, hb] at h
      | some w1 =>
        rw [loop_pass input nout f w w1 hc hb] at h
        rw [loop_pass input nout g w w1 hc hb]
        exact ih w1 r h g (by omega)
    · simp only [Bool.not_eq_true] at hc
      rw [loop_exit input nout g w hc]
      rw [loop_exit input nout (f + 1) w hc] at h
      exact h

theorem Returns.exit {input : List ℚ} {nout : Int} {w : Work}
    (h : loopCond input nout w = false) : Returns input nout w w :=
  ⟨0, fun f _ => loop_exit input nout f w h⟩

theorem Returns.pass {input : List ℚ} {nout : Int} {w w1 r : Work}
    (h : loopCond input nout w = true) (hb : body input w = some w1)
    (hr : Returns input nout w1 r) : Returns input nout w r := by
  obtain ⟨f0, hf⟩ := hr
  refine ⟨f0 + 1, fun f hle => ?_⟩
  obtain ⟨g, rfl⟩ : ∃ g, f = g + 1 := ⟨f - 1, by omega⟩
  rw [loop_pass input nout g w w1 h hb]
  exact hf g (by omega)

/-! ## The alphabet tables -/

theorem tables_null_iff :
    letters.length = 32 ∧ figures.length = 32 ∧
    ∀ a, a < 32 → ((letters[a]? = some '\x00' ↔ (a = 0 ∨ a = 27 ∨ a = 31)) ∧
      (figures[a]? = some '\x00' ↔ (a = 0 ∨ a = 27 ∨ a = 31))) := by
  decide

theorem lookup_some (t : Charset) (a : Nat) (ha : a < 32) : ∃ c, lookup t a = some c := by
  have hl : a < letters.length := by simpa [letters] using ha
  have hf : a < figures.length := by simpa [figures] using ha
  unfold lookup
  split
  · exact ⟨letters[a], List.getElem?_eq_getElem hl⟩
  · exact ⟨figures[a], List.getElem?_eq_getElem hf⟩

theorem body_stop_match (input : List ℚ) (w : Work) (x : ℚ) (c : Char)
    (hst : w.blk.state = State.LOOKING_FOR_STOP)
    (hread : readSample input w.inp = some x) (hmark : positive x = w.blk.mark)
    (hc : lookup (shift w.blk.charset w.outchar) w.outchar = some c) :
    body input w = some { w with
      blk := { w.blk with charset := shift w.blk.charset w.outchar, state := State.WAITING_FOR_START }
      out := w.out ++ [c]
      outchar := 0 } := by
  simp [body, hst, hread, hmark, hc]

/-! ## Single passes through the loop body -/

theorem body_wait_idle (input : List ℚ) (w : Work) (x : ℚ)
    (hst : w.blk.state = State.WAITING_FOR_START)
    (hread : readSample input w.inp = some x) (hx : positive x ≠ w.blk.space) :
    body input w = some { w with inp := w.inp + 1 } := by
  simp [body, hst, hread, hx]

theorem body_wait_start (input : List ℚ) (w : Work) (x : ℚ)
    (hst : w.blk.state = State.WAITING_FOR_START)
    (hread : readSample input w.inp = some x) (hx : positive x = w.blk.space) :
    body input w = some { w with
      blk := { w.blk with state := State.DATA, datapos := 0 }
      inp := w.inp + toInt (w.blk._spb * (3 / 2)) } := by
  simp [body, hst, hread, hx]

theorem body_data_bit (input : List ℚ) (w : Work) (x : ℚ)
    (hst : w.blk.state = State.DATA) (hpos : w.blk.datapos ≤ 4)
    (hread : readSample input w.inp = some x) :
    body input w = some { w with
      blk := { w.blk with datapos := w.blk.datapos + 1 }
      outchar := if positive x = w.blk.mark then w.outchar + (1 <<< w.blk.datapos) else w.outchar
      inp := w.inp + toInt w.blk._spb } := by
  have : ¬ w.blk.datapos > 4 := by omega
  simp [body, hst, hread, this]

theorem body_data_end (input : List ℚ) (w : Work)
    (hst : w.blk.state = State.DATA) (hpos : 4 < w.blk.datapos) :
    body input w = some { w with blk := { w.blk with state := State.LOOKING_FOR_STOP } } := by
  simp [body, hst, hpos]

theorem body_stop_miss (input : List ℚ) (w : Work) (x : ℚ)
    (hst : w.blk.state = State.LOOKING_FOR_STOP)
    (hread : readSample input w.inp = some x) (hx : positive x ≠ w.blk.mark) :
    body input w = some { w with
      blk := { w.blk with state := State.WAITING_FOR_START }, outchar := 0 } := by
  simp [body, hst, hread, hx]

/-- What one pass through the loop body can do. -/
theorem body_cases (input : List ℚ) (w w1 : Work) (h : body input w = some w1) :
    (w.blk.state = State.WAITING_FOR_START ∧ ∃ x, readSample input w.inp = some x ∧
        positive x ≠ w.blk.space ∧ w1 = { w with inp := w.inp + 1 }) ∨
    (w.blk.state = State.WAITING_FOR_START ∧ ∃ x, readSample input w.inp = some x ∧
        positive x = w.blk.space ∧ w1 = { w with
          blk := { w.blk with state := State.DATA, datapos := 0 }
          inp := w.inp + toInt (w.blk._spb * (3 / 2)) }) ∨
    (w.blk.state = State.DATA ∧ 4 < w.blk.datapos ∧
        w1 = { w with blk := { w.blk with state := State.LOOKING_FOR_STOP } }) ∨
    (w.blk.state = State.DATA ∧ w.blk.datapos ≤ 4 ∧ ∃ x, readSample input w.inp = some x ∧
        w1 = { w with
          blk := { w.blk with datapos := w.blk.datapos + 1 }
          outchar :=
            if positive x = w.blk.mark then w.outchar + (1 <<< w.blk.datapos) else w.outchar
          inp := w.inp + toInt w.blk._spb }) ∨
    (w.blk.state = State.LOOKING_FOR_STOP ∧ ∃ x c, readSample input w.inp = some x ∧
        positive x = w.blk.mark ∧ lookup (shift w.blk.charset w.outchar) w.outchar = some c ∧
        w1 = { w with
          blk := { w.blk with
            charset := shift w.blk.charset w.outchar, state := State.WAITING_FOR_START }
          out := w.out ++ [c]
          outchar := 0 }) ∨
    (w.blk.state = State.LOOKING_FOR_STOP ∧ ∃ x, readSample input w.inp = some x ∧
        positive x ≠ w.blk.mark ∧
        w1 = { w with blk := { w.blk with state := State.WAITING_FOR_START }, outchar := 0 }) := by
  cases hst : w.blk.state with
  | WAITING_FOR_START =>
    cases hread : readSample input w.inp with
    | none => simp [body, hst, hread] at h
    | some x =>
      by_cases hx : positive x = w.blk.space
      · rw [body_wait_start input w x hst hread hx] at h
        right; left
        exact ⟨rfl, x, rfl, hx, (Option.some.inj h).symm⟩
      · rw [body_wait_idle input w x hst hread hx] at h
        left
        exact ⟨rfl, x, rfl, hx, (Option.some.inj h).symm⟩
  | DATA =>
    by_cases hpos : 4 < w.blk.datapos
    · rw [body_data_end input w hst hpos] at h
      right; right; left
      exact ⟨rfl, hpos, (Option.some.inj h).symm⟩
    · cases hread : readSample input w.inp with
      | none => simp [body, hst, hread, hpos] at h
      | some x =>
        rw [body_data_bit input w x hst (by omega) hread] at h
        right; right; right; left
        exact ⟨rfl, by omega, x, rfl, (Option.some.inj h).symm⟩
  | LOOKING_FOR_STOP =>
    cases hread : readSample input w.inp with
    | none => simp [body, hst, hread] at h
    | some x =>
      by_cases hx : positive x = w.blk.mark
      · cases hl : lookup (shift w.blk.charset w.outchar) w.outchar with
        | none => simp [body, hst, hread, hx, hl] at h
        | some c =>
          rw [body_stop_match input w x c hst hread hx hl] at h
          right; right; right; right; left
          exact ⟨rfl, x, c, rfl, hx, rfl, (Option.some.inj h).symm⟩
      · rw [body_stop_miss input w x hst hread hx] at h
        right; right; right; right; right
        exact ⟨rfl, x, rfl, hx, (Option.some.inj h).symm⟩

theorem body_out (input : List ℚ) (w w1 : Work) (h : body input w = some w1) :
    w1.out = w.out ∨ ∃ c, w1.out = w.out ++ [c] := by
  rcases body_cases input w w1 h with ⟨_, _, _, _, rfl⟩ | ⟨_, _, _, _, rfl⟩ | ⟨_, _, rfl⟩ |
    ⟨_, _, _, _, rfl⟩ | ⟨_, _, c, _, _, _, rfl⟩ | ⟨_, _, _, _, rfl⟩
  · left; rfl
  · left; rfl
  · left; rfl
  · left; rfl
  · right; exact ⟨c, rfl⟩
  · left; rfl

theorem body_config (input : List ℚ) (w w1 : Work) (h : body input w = some w1) :
    w1.blk._spb = w.blk._spb ∧ w1.blk.mark = w.blk.mark ∧ w1.blk.space = w.blk.space ∧
      w1.blk._rate = w.blk._rate ∧ w1.blk._baud = w.blk._baud := by
  rcases body_cases input w w1 h with ⟨_, _, _, _, rfl⟩ | ⟨_, _, _, _, rfl⟩ | ⟨_, _, rfl⟩ |
    ⟨_, _, _, _, rfl⟩ | ⟨_, _, c, _, _, _, rfl⟩ | ⟨_, _, _, _, rfl⟩ <;>
  exact ⟨rfl, rfl, rfl, rfl, rfl⟩

theorem toInt_nonneg (x : ℚ) (hx : 0 ≤ x) : 0 ≤ toInt x := by
  unfold toInt
  rw [if_pos hx]
  exact Int.floor_nonneg.2 hx

theorem toInt_mono (x y : ℚ) (hx : 0 ≤ x) (hxy : x ≤ y) : toInt x ≤ toInt y := by
  unfold toInt
  rw [if_pos hx, if_pos (le_trans hx hxy)]
  exact Int.floor_mono hxy

theorem toInt_eq_floor (x : ℚ) (hx : 0 ≤ x) : toInt x = ⌊x⌋ := by
  unfold toInt
  rw [if_pos hx]

theorem toInt_natCast (s : Nat) : toInt (s : ℚ) = (s : Int) := by
  unfold toInt
  rw [if_pos (by positivity)]
  exact_mod_cast Int.floor_natCast (α := ℚ) s

theorem toInt_center (s : Nat) : toInt ((s : ℚ) * (3 / 2)) = ((s + s / 2 : Nat) : Int) := by
  unfold toInt
  rw [if_pos (by positivity)]
  rw [Int.floor_eq_iff]
  obtain ⟨m, hm⟩ : ∃ m, s / 2 = m := ⟨_, rfl⟩
  have h1 : m * 2 ≤ s := by omega
  have h2 : s < (m + 1) * 2 := by omega
  have h1q : (m : ℚ) * 2 ≤ (s : ℚ) := by exact_mod_cast h1
  have h2q : (s : ℚ) < ((m : ℚ) + 1) * 2 := by exact_mod_cast h2
  rw [hm]
  push_cast
  constructor <;> linarith

/-- One pass moves the cursor by 0, by 1, by `int(_spb)` or by `int(_spb*1.5)`. -/
theorem body_advance (input : List ℚ) (w w1 : Work) (h : body input w = some w1) :
    w1.inp = w.inp ∨ w1.inp = w.inp + 1 ∨ w1.inp = w.inp + toInt w.blk._spb ∨
      w1.inp = w.inp + toInt (w.blk._spb * (3 / 2)) := by
  rcases body_cases input w w1 h with ⟨_, _, _, _, rfl⟩ | ⟨_, _, _, _, rfl⟩ | ⟨_, _, rfl⟩ |
    ⟨_, _, _, _, rfl⟩ | ⟨_, _, c, _, _, _, rfl⟩ | ⟨_, _, _, _, rfl⟩
  · right; left; rfl
  · right; right; right; rfl
  · left; rfl
  · right; right; left; rfl
  · left; rfl
  · left; rfl

theorem body_advance_le (input : List ℚ) (w w1 : Work) (hspb : 0 ≤ w.blk._spb)
    (h : body input w = some w1) :
    w.inp ≤ w1.inp ∧ w1.inp ≤ w.inp + max 1 (toInt (w.blk._spb * (3 / 2))) := by
  have h0 : 0 ≤ toInt w.blk._spb := toInt_nonneg _ hspb
  have h1 : toInt w.blk._spb ≤ toInt (w.blk._spb * (3 / 2)) :=
    toInt_mono _ _ hspb (by linarith)
  have h2 : (1 : Int) ≤ max 1 (toInt (w.blk._spb * (3 / 2))) := le_max_left _ _
  have h3 : toInt (w.blk._spb * (3 / 2)) ≤ max 1 (toInt (w.blk._spb * (3 / 2))) :=
    le_max_right _ _
  rcases body_advance input w w1 h with e | e | e | e <;> rw [e] <;> constructor <;> omega

theorem readSample_natCast (input : List ℚ) (i : Nat) :
    readSample input (i : Int) = input[i]? := by
  simp [readSample]

theorem readSample_mem (input : List ℚ) (i : Int) (x : ℚ) (h : readSample input i = some x) :
    x ∈ input := by
  unfold readSample at h
  split at h
  · exact List.getElem?_mem h
  · exact Option.noConfusion h

theorem body_acc (input : List ℚ) (w w1 : Work) (hacc : w.outchar < 2 ^ accBits w)
    (h : body input w = some w1) : w1.outchar < 2 ^ accBits w1 := by
  rcases body_cases input w w1 h with ⟨hst, _, _, _, rfl⟩ | ⟨hst, _, _, _, rfl⟩ |
    ⟨hst, hpos, rfl⟩ | ⟨hst, hpos, x, _, rfl⟩ | ⟨hst, _, c, _, _, _, rfl⟩ | ⟨hst, _, _, _, rfl⟩
  · simpa [accBits, hst] using hacc
  · simpa [accBits, hst] using hacc
  · have h5 : min w.blk.datapos 5 = 5 := by omega
    simpa [accBits, hst, h5] using hacc
  · have hk : min w.blk.datapos 5 = w.blk.datapos := by omega
    have hk1 : min (w.blk.datapos + 1) 5 = w.blk.datapos + 1 := by omega
    simp only [accBits, hst, hk] at hacc
    simp only [accBits, hst, hk1, Nat.one_shiftLeft]
    rw [Nat.pow_succ]
    split <;> omega
  · simp [accBits]
  · simp [accBits]

theorem stopMatched_iff (input : List ℚ) (w : Work) :
    stopMatched input w = true ↔ (w.blk.state = State.LOOKING_FOR_STOP ∧
      ∃ x, readSample input w.inp = some x ∧ positive x = w.blk.mark) := by
  unfold stopMatched
  cases hread : readSample input w.inp with
  | none => simp
  | some x => simp

theorem shift_figures (a : Nat) (h : a ≠ 31) : shift Charset.FIGURES a = Charset.FIGURES := by
  unfold shift
  by_cases h27 : a = 27 <;> simp [h, h27]

theorem body_keeps_figures (input : List ℚ) (w w1 : Work)
    (hF : w.blk.charset = Charset.FIGURES)
    (hno : ¬ (stopMatched input w = true ∧ w.outchar = 31)) (h : body input w = some w1) :
    w1.blk.charset = Charset.FIGURES := by
  rcases body_cases input w w1 h with ⟨hst, _, _, _, rfl⟩ | ⟨hst, _, _, _, rfl⟩ |
    ⟨hst, hpos, rfl⟩ | ⟨hst, hpos, x, _, rfl⟩ | ⟨hst, x, c, hx, hm, _, rfl⟩ | ⟨hst, _, _, _, rfl⟩
  · exact hF
  · exact hF
  · exact hF
  · exact hF
  · have h31 : w.outchar ≠ 31 := fun e =>
      hno ⟨(stopMatched_iff input w).2 ⟨hst, x, hx, hm⟩, e⟩
    show shift w.blk.charset w.outchar = Charset.FIGURES
    rw [hF]
    exact shift_figures _ h31
  · exact hF

theorem body_silent (input : List ℚ) (w w1 : Work) (hsp : w.blk.space = !w.blk.mark)
    (hall : ∀ x ∈ input, positive x = w.blk.space) (hb : body input w = some w1) :
    w1.out = w.out ∧ w1.blk.charset = w.blk.charset := by
  rcases body_cases input w w1 hb with ⟨_, _, _, _, rfl⟩ | ⟨_, _, _, _, rfl⟩ | ⟨_, _, rfl⟩ |
    ⟨_, _, _, _, rfl⟩ | ⟨_, x, _, hx, hm, _, _⟩ | ⟨_, _, _, _, rfl⟩
  · exact ⟨rfl, rfl⟩
  · exact ⟨rfl, rfl⟩
  · exact ⟨rfl, rfl⟩
  · exact ⟨rfl, rfl⟩
  · exfalso
    have h1 := hall x (readSample_mem input _ x hx)
    rw [hm, hsp] at h1
    revert h1
    cases w.blk.mark <;> simp
  · exact ⟨rfl, rfl⟩

theorem body_frameInv (input : List ℚ) (w w1 : Work) (hinv : FrameInv w.blk)
    (hb : body input w = some w1) : FrameInv w1.blk := by
  obtain ⟨hD, hS⟩ := hinv
  rcases body_cases input w w1 hb with ⟨hst, _, _, _, rfl⟩ | ⟨hst, _, _, _, rfl⟩ |
    ⟨hst, hpos, rfl⟩ | ⟨hst, hpos, _, _, rfl⟩ | ⟨hst, _, _, _, _, _, rfl⟩ | ⟨hst, _, _, _, rfl⟩
  · exact ⟨hD, hS⟩
  · exact ⟨fun _ => Nat.zero_le _, fun h => State.noConfusion h⟩
  · refine ⟨fun h => State.noConfusion h, fun _ => ?_⟩
    have := hD hst
    show w.blk.datapos = 5
    omega
  · refine ⟨fun _ => ?_, fun h => ?_⟩
    · show w.blk.datapos + 1 ≤ 5
      omega
    · have h2 : w.blk.state = State.LOOKING_FOR_STOP := h
      rw [hst] at h2
      exact State.noConfusion h2
  · exact ⟨fun h => State.noConfusion h, fun h => State.noConfusion h⟩
  · exact ⟨fun h => State.noConfusion h, fun h => State.noConfusion h⟩

theorem body_datapos_le (input : List ℚ) (w w1 : Work) (h5 : w.blk.datapos ≤ 5)
    (hb : body input w = some w1) : w1.blk.datapos ≤ 5 := by
  rcases body_cases input w w1 hb with ⟨hst, _, _, _, rfl⟩ | ⟨hst, _, _, _, rfl⟩ |
    ⟨hst, hpos, rfl⟩ | ⟨hst, hpos, _, _, rfl⟩ | ⟨hst, _, _, _, _, _, rfl⟩ | ⟨hst, _, _, _, rfl⟩
  · exact h5
  · exact Nat.zero_le _
  · exact h5
  · show w.blk.datapos + 1 ≤ 5
    omega
  · exact h5
  · exact h5

theorem markAt_read (input : List ℚ) (mark : Bool) (i : Int) (x : ℚ)
    (h : readSample input i = some x) : markAt input mark i = decide (positive x = mark) := by
  simp [markAt, h]

theorem sampledCode_lt (input : List ℚ) (mark : Bool) (base step : Int) (k : Nat) :
    sampledCode input mark base step k < 2 ^ k := by
  induction k with
  | zero => simp [sampledCode]
  | succ k ih =>
    simp only [sampledCode]
    rw [Nat.pow_succ]
    split <;> omega

theorem testBit_accumulate :
    ∀ c, c < 32 → ∀ k, k < 5 →
      c % 2 ^ (k + 1) = if c.testBit k then c % 2 ^ k + (1 <<< k) else c % 2 ^ k := by
  decide

/-! ## The loop condition in binary32 -/

theorem fl32_mono (x y : ℚ) (h : x ≤ y) : fl32 x ≤ fl32 y :=
  fl_mono 24 (by decide) x y h

theorem fl32_idem (x : ℚ) : fl32 (fl32 x) = fl32 x :=
  fl_idem 24 (by decide) x

theorem fl32_zero : fl32 0 = 0 :=
  fl_zero 24

theorem fl32_natCast (n : Nat) (hn : n ≤ 16777216) : fl32 (n : ℚ) = (n : ℚ) :=
  fl_natCast 24 (by decide) n (by simpa using hn)

theorem fl32_intCast (z : Int) (h0 : 0 ≤ z) (hz : z ≤ 16777216) : fl32 (z : ℚ) = (z : ℚ) := by
  obtain ⟨n, rfl⟩ := Int.eq_ofNat_of_zero_le h0
  have := fl32_natCast n (by omega)
  simpa using this

theorem fl32_nonneg (x : ℚ) (h : 0 ≤ x) : 0 ≤ fl32 x := by
  have := fl32_mono 0 x h
  rwa [fl32_zero] at this

theorem fl32_neg_lt (x : ℚ) (h : x < 0) : fl32 x < 0 :=
  fl_neg_lt 24 (by decide) x h

theorem guardAt_iff (n : Nat) (spb : ℚ) (c : Int) :
    guardAt n spb c = true ↔ fl32 (c : ℚ) < fl32 (fl32 (n : ℚ) - fl32 (spb * 8)) := by
  simp [guardAt]

theorem guardAt_mono (n : Nat) (spb : ℚ) (c c1 : Int) (h : c ≤ c1)
    (hg : guardAt n spb c1 = true) : guardAt n spb c = true := by
  rw [guardAt_iff] at hg ⊢
  have hq : (c : ℚ) ≤ (c1 : ℚ) := by exact_mod_cast h
  exact lt_of_le_of_lt (fl32_mono _ _ hq) hg

/-- A cursor that passes the test is inside the window, whatever the roundings. -/
theorem guardAt_lt_length (n : Nat) (spb : ℚ) (c : Int) (hspb : 0 ≤ spb)
    (hg : guardAt n spb c = true) : c < (n : Int) := by
  rw [guardAt_iff] at hg
  by_contra hcon
  have hcn : ((n : Int) : ℚ) ≤ (c : ℚ) := by exact_mod_cast not_lt.1 hcon
  have h1 : fl32 (n : ℚ) ≤ fl32 (c : ℚ) := by
    have := fl32_mono _ _ hcn
    simpa using this
  have hP : 0 ≤ fl32 (spb * 8) := fl32_nonneg _ (by linarith)
  have h2 : fl32 (fl32 (n : ℚ) - fl32 (spb * 8)) ≤ fl32 (fl32 (n : ℚ)) :=
    fl32_mono _ _ (by linarith)
  rw [fl32_idem] at h2
  linarith

/-- For a window of at most `2^24` samples the test, when it passes, agrees with the exact
comparison `c < n - 8*_spb`. -/
theorem guardAt_exact (n : Nat) (spb : ℚ) (c : Int) (hn : n ≤ 16777216) (hspb : 0 ≤ spb)
    (hc : 0 ≤ c) (hg : guardAt n spb c = true) : (c : ℚ) < (n : ℚ) - spb * 8 := by
  have hlt := guardAt_lt_length n spb c hspb hg
  rw [guardAt_iff] at hg
  rw [fl32_natCast n hn, fl32_intCast c hc (by omega)] at hg
  by_contra hcon
  have hj : (((n : Int) - c : Int) : ℚ) ≤ spb * 8 := by
    push_cast
    linarith [not_lt.1 hcon]
  have hj2 := fl32_mono _ _ hj
  rw [fl32_intCast ((n : Int) - c) (by omega) (by omega)] at hj2
  have h3 : (n : ℚ) - fl32 (spb * 8) ≤ (c : ℚ) := by
    push_cast at hj2
    linarith
  have h4 := fl32_mono _ _ h3
  rw [fl32_intCast c hc (by omega)] at h4
  linarith

theorem guardAt_nat (n s : Nat) (c : Int) (hn : n ≤ 16777216) (hs : 8 * s ≤ n) :
    guardAt n (s : ℚ) c = true ↔ c < (n : Int) - 8 * (s : Int) := by
  constructor
  · intro hg
    rcases lt_or_le c 0 with hc | hc
    · omega
    · have := guardAt_exact n (s : ℚ) c hn (by positivity) hc hg
      have h2 : (c : ℚ) < (((n : Int) - 8 * (s : Int) : Int) : ℚ) := by
        push_cast; linarith
      exact_mod_cast h2
  · intro hlt
    rw [guardAt_iff]
    have e1 : (s : ℚ) * 8 = ((8 * s : Nat) : ℚ) := by push_cast; ring
    have e2 : (n : ℚ) - ((8 * s : Nat) : ℚ) = ((n - 8 * s : Nat) : ℚ) := by
      rw [Nat.cast_sub hs]
    rw [e1, fl32_natCast n hn, fl32_natCast (8 * s) (by omega), e2,
      fl32_natCast (n - 8 * s) (by omega)]
    rcases lt_or_le c 0 with hc | hc
    · have h1 : fl32 (c : ℚ) < 0 := fl32_neg_lt _ (by exact_mod_cast hc)
      have h2 : (0 : ℚ) ≤ ((n - 8 * s : Nat) : ℚ) := by positivity
      linarith
    · rw [fl32_intCast c hc (by omega)]
      have : c < ((n - 8 * s : Nat) : Int) := by omega
      exact_mod_cast this

/-- The cursors that pass the test form an initial segment: two evaluations locate its end. -/
theorem guardAt_threshold (n : Nat) (spb : ℚ) (G : Int) (h1 : guardAt n spb (G - 1) = true)
    (h2 : guardAt n spb G = false) : ∀ c : Int, guardAt n spb c = true ↔ c < G := by
  intro c
  constructor
  · intro hg
    by_contra hcon
    have := guardAt_mono n spb G c (by omega) hg
    rw [h2] at this
    exact Bool.noConfusion this
  · intro hlt
    exact guardAt_mono n spb c (G - 1) (by omega) h1

theorem loopCond_iff (input : List ℚ) (nout : Int) (w : Work) :
    loopCond input nout w = true ↔
      ((w.out.length : Int) < nout ∧ guardAt input.length w.blk._spb w.inp = true) := by
  simp [loopCond]

theorem loopCond_thr (input : List ℚ) (nout : Int) (w : Work) (spb : ℚ) (G : Int)
    (hG : ∀ c : Int, guardAt input.length spb c = true ↔ c < G) (hs : w.blk._spb = spb) :
    loopCond input nout w = true ↔ ((w.out.length : Int) < nout ∧ w.inp < G) := by
  rw [loopCond_iff, hs, hG]

theorem cond_lt_length (input : List ℚ) (nout : Int) (w : Work) (hspb : 0 ≤ w.blk._spb)
    (h : loopCond input nout w = true) : w.inp < (input.length : Int) :=
  guardAt_lt_length _ _ _ hspb ((loopCond_iff input nout w).1 h).2

theorem cond_of_le (input : List ℚ) (nout : Int) (w : Work) (c : Int)
    (hout : (w.out.length : Int) < nout) (hle : w.inp ≤ c)
    (hc : guardAt input.length w.blk._spb c = true) : loopCond input nout w = true :=
  (loopCond_iff input nout w).2 ⟨hout, guardAt_mono _ _ _ _ hle hc⟩

theorem read_of_le (input : List ℚ) (i c : Int) (spb : ℚ) (hspb : 0 ≤ spb) (h0 : 0 ≤ i)
    (hle : i ≤ c) (hc : guardAt input.length spb c = true) :
    ∃ x, readSample input i = some x := by
  have h2 : c < (input.length : Int) := guardAt_lt_length _ _ _ hspb hc
  unfold readSample
  rw [if_pos h0]
  exact ⟨_, List.getElem?_eq_getElem (by omega)⟩

/-! ## Passes of a call -/

theorem loop_out_bound (input : List ℚ) (nout : Int) (f : Nat) :
    ∀ (w r : Work), loop input nout f w = Outcome.done r →
      (w.out.length : Int) ≤ max 0 nout → (r.out.length : Int) ≤ max 0 nout := by
  induction f with
  | zero =>
    intro w r h hw
    by_cases hc : loopCond input nout w = true
    · simp [loop, hc] at h
    · simp only [Bool.not_eq_true] at hc
      rw [loop_exit input nout 0 w hc] at h
      cases h
      exact hw
  | succ f ih =>
    intro w r h hw
    by_cases hc : loopCond input nout w = true
    · cases hb : body input w with
      | none => simp [loop, hc, hb] at h
      | some w1 =>
        rw [loop_pass input nout f w w1 hc hb] at h
        refine ih w1 r h ?_
        have hlt : (w.out.length : Int) < nout := ((loopCond_iff input nout w).1 hc).1
        have hmax : nout ≤ max 0 nout := le_max_right _ _
        rcases body_out input w w1 hb with ho | ⟨c, ho⟩
        · rw [ho]; omega
        · rw [ho]; simp only [List.length_append, List.length_cons, List.length_nil]
          push_cast; omega
    · simp only [Bool.not_eq_true] at hc
      rw [loop_exit input nout (f + 1) w hc] at h
      cases h
      exact hw

theorem loop_of_iter (input : List ℚ) (nout : Int) (k : Nat) :
    ∀ (w r : Work), iter input nout k w = some r → loopCond input nout r = false →
      ∀ f, k ≤ f → loop input nout f w = Outcome.done r := by
  induction k with
  | zero =>
    intro w r h hc f _
    simp only [iter, Option.some.injEq] at h
    subst h
    exact loop_exit input nout f w hc
  | succ k ih =>
    intro w r h hc f hf
    obtain ⟨g, rfl⟩ : ∃ g, f = g + 1 := ⟨f - 1, by omega⟩
    by_cases hw : loopCond input nout w = true
    · cases hb : body input w with
      | none => simp [iter, hw, hb] at h
      | some w1 =>
        simp only [iter, hw, hb, if_true] at h
        rw [loop_pass input nout g w w1 hw hb]
        exact ih w1 r h hc g (by omega)
    · simp [iter, hw] at h

theorem iter_of_loop (input : List ℚ) (nout : Int) (f : Nat) :
    ∀ (w r : Work), loop input nout f w = Outcome.done r →
      ∃ k, iter input nout k w = some r ∧ loopCond input nout r = false := by
  induction f with
  | zero =>
    intro w r h
    by_cases hc : loopCond input nout w = true
    · simp [loop, hc] at h
    · simp only [Bool.not_eq_true] at hc
      rw [loop_exit input nout 0 w hc] at h
      cases h
      exact ⟨0, rfl, hc⟩
  | succ f ih =>
    intro w r h
    by_cases hc : loopCond input nout w = true
    · cases hb : body input w with
      | none => simp [loop, hc, hb] at h
      | some w1 =>
        rw [loop_pass input nout f w w1 hc hb] at h
        obtain ⟨k, hk, hr⟩ := ih w1 r h
        exact ⟨k + 1, by simp [iter, hc, hb, hk], hr⟩
    · simp only [Bool.not_eq_true] at hc
      rw [loop_exit input nout (f + 1) w hc] at h
      cases h
      exact ⟨0, rfl, hc⟩

theorem iter_succ (input : List ℚ) (nout : Int) (k : Nat) (w r : Work)
    (h : iter input nout (k + 1) w = some r) :
    loopCond input nout w = true ∧ ∃ w1, body input w = some w1 ∧
      iter input nout k w1 = some r := by
  by_cases hw : loopCond input nout w = true
  · cases hb : body input w with
    | none => simp [iter, hw, hb] at h
    | some w1 =>
      simp only [iter, hw, hb, if_true] at h
      exact ⟨hw, w1, rfl, h⟩
  · simp [iter, hw] at h

theorem iter_add (input : List ℚ) (nout : Int) (a b : Nat) :
    ∀ (w : Work), iter input nout (a + b) w = (iter input nout a w).bind (iter input nout b) := by
  induction a with
  | zero => intro w; simp [iter]
  | succ a ih =>
    intro w
    rw [Nat.add_right_comm]
    by_cases hc : loopCond input nout w = true
    · cases hb : body input w with
      | none => simp [iter, hc, hb]
      | some w1 => simp [iter, hc, hb, ih w1]
    · simp [iter, hc]

theorem iter_snoc (input : List ℚ) (nout : Int) (k : Nat) (w wk w1 : Work)
    (hk : iter input nout k w = some wk) (hc : loopCond input nout wk = true)
    (hb : body input wk = some w1) : iter input nout (k + 1) w = some w1 := by
  rw [iter_add, hk]
  simp [iter, hc, hb]

theorem iter_config (input : List ℚ) (nout : Int) (k : Nat) :
    ∀ (w wk : Work), iter input nout k w = some wk →
      wk.blk._spb = w.blk._spb ∧ wk.blk.mark = w.blk.mark ∧ wk.blk.space = w.blk.space := by
  induction k with
  | zero =>
    intro w wk h
    simp only [iter, Option.some.injEq] at h
    subst h
    exact ⟨rfl, rfl, rfl⟩
  | succ k ih =>
    intro w wk h
    obtain ⟨_, w1, hb, hk⟩ := iter_succ input nout k w wk h
    obtain ⟨h1, h2, h3, _, _⟩ := body_config input w w1 hb
    obtain ⟨g1, g2, g3⟩ := ih w1 wk hk
    exact ⟨g1.trans h1, g2.trans h2, g3.trans h3⟩

theorem iter_idle (input : List ℚ) (nout : Int) (k : Nat) :
    ∀ (w0 w : Work), w0.blk.state = State.WAITING_FOR_START → w0.blk.space = !w0.blk.mark →
      (∀ x ∈ input, positive x = w0.blk.mark) → iter input nout k w0 = some w →
      w.blk = w0.blk ∧ w.out = w0.out := by
  induction k with
  | zero =>
    intro w0 w _ _ _ h
    simp only [iter, Option.some.injEq] at h
    subst h
    exact ⟨rfl, rfl⟩
  | succ k ih =>
    intro w0 w hst hsp hidle h
    obtain ⟨_, w1, hb, hk⟩ := iter_succ input nout k w0 w h
    have hne : ∀ x, readSample input w0.inp = some x → positive x ≠ w0.blk.space := by
      intro x hx
      rw [hidle x (readSample_mem input _ x hx), hsp]
      cases w0.blk.mark <;> simp
    rcases body_cases input w0 w1 hb with ⟨_, _, _, _, e⟩ | ⟨_, x, hx, hxs, _⟩ | ⟨h1, _⟩ |
      ⟨h1, _⟩ | ⟨h1, _⟩ | ⟨h1, _⟩
    · subst e
      exact ih { w0 with inp := w0.inp + 1 } w hst hsp hidle hk
    · exact absurd hxs (hne x hx)
    · rw [hst] at h1; exact State.noConfusion h1
    · rw [hst] at h1; exact State.noConfusion h1
    · rw [hst] at h1; exact State.noConfusion h1
    · rw [hst] at h1; exact State.noConfusion h1

theorem iter_acc (input : List ℚ) (nout : Int) (k : Nat) :
    ∀ (w wk : Work), w.outchar < 2 ^ accBits w → iter input nout k w = some wk →
      wk.outchar < 2 ^ accBits wk := by
  induction k with
  | zero =>
    intro w wk hacc h
    simp only [iter, Option.some.injEq] at h
    subst h
    exact hacc
  | succ k ih =>
    intro w wk hacc h
    obtain ⟨_, w1, hb, hk⟩ := iter_succ input nout k w wk h
    exact ih w1 wk (body_acc input w w1 hacc hb) hk

theorem iter_keeps_figures (input : List ℚ) (nout : Int) (k : Nat) :
    ∀ (w wk : Work), w.blk.charset = Charset.FIGURES → iter input nout k w = some wk →
      (∀ j, j < k → ∀ wj ∈ iter input nout j w,
        ¬ (stopMatched input wj = true ∧ wj.outchar = 31)) →
      wk.blk.charset = Charset.FIGURES := by
  induction k with
  | zero =>
    intro w wk hF h _
    simp only [iter, Option.some.injEq] at h
    subst h
    exact hF
  | succ k ih =>
    intro w wk hF h hno
    obtain ⟨hc, w1, hb, hk⟩ := iter_succ input nout k w wk h
    have hF1 := body_keeps_figures input w w1 hF (hno 0 (by omega) w (by simp [iter])) hb
    refine ih w1 wk hF1 hk (fun j hj wj hwj => hno (j + 1) (by omega) wj ?_)
    simpa [iter, hc, hb] using hwj

theorem iter_silent (input : List ℚ) (nout : Int) (k : Nat) :
    ∀ (w wk : Work), w.blk.space = !w.blk.mark → (∀ x ∈ input, positive x = w.blk.space) →
      iter input nout k w = some wk → wk.out = w.out ∧ wk.blk.charset = w.blk.charset := by
  induction k with
  | zero =>
    intro w wk _ _ h
    simp only [iter, Option.some.injEq] at h
    subst h
    exact ⟨rfl, rfl⟩
  | succ k ih =>
    intro w wk hsp hall h
    obtain ⟨_, w1, hb, hk⟩ := iter_succ input nout k w wk h
    obtain ⟨_, hm, hs, _, _⟩ := body_config input w w1 hb
    obtain ⟨h1, h2⟩ := body_silent input w w1 hsp hall hb
    obtain ⟨g1, g2⟩ := ih w1 wk (by rw [hs, hm]; exact hsp) (by rw [hs]; exact hall) hk
    exact ⟨g1.trans h1, g2.trans h2⟩

theorem iter_frameInv (input : List ℚ) (nout : Int) (k : Nat) :
    ∀ (w wk : Work), iter input nout k w = some wk →
      (FrameInv w.blk → FrameInv wk.blk) ∧ (w.blk.datapos ≤ 5 → wk.blk.datapos ≤ 5) := by
  induction k with
  | zero =>
    intro w wk h
    simp only [iter, Option.some.injEq] at h
    subst h
    exact ⟨id, id⟩
  | succ k ih =>
    intro w wk h
    obtain ⟨_, w1, hb, hk⟩ := iter_succ input nout k w wk h
    obtain ⟨g1, g2⟩ := ih w1 wk hk
    exact ⟨fun hi => g1 (body_frameInv input w w1 hi hb),
      fun h5 => g2 (body_datapos_le input w w1 h5 hb)⟩

theorem afterCalls_frameInv (calls : List (Nat × Int × List ℚ)) :
    ∀ (d e : rtty_decode_ff), afterCalls d calls = some e →
      (FrameInv d → FrameInv e) ∧ (d.datapos ≤ 5 → e.datapos ≤ 5) := by
  induction calls with
  | nil =>
    intro d e h
    simp only [afterCalls, Option.some.injEq] at h
    subst h
    exact ⟨id, id⟩
  | cons c calls ih =>
    intro d e h
    obtain ⟨fuel, nout, input⟩ := c
    cases hg : general_work fuel d nout input with
    | done r =>
      simp only [afterCalls, hg] at h
      obtain ⟨k, hk, _⟩ := iter_of_loop input nout fuel (entry d) r hg
      obtain ⟨g1, g2⟩ := iter_frameInv input nout k (entry d) r hk
      obtain ⟨i1, i2⟩ := ih r.blk e h
      exact ⟨fun hi => i1 (g1 hi), fun h5 => i2 (g2 h5)⟩
    | fault => simp [afterCalls, hg] at h
    | timeout => simp [afterCalls, hg] at h

/-! ## Invariant and progress -/

theorem inv_entry (d : rtty_decode_ff) : WorkInv (entry d) := by
  constructor
  · exact le_refl _
  · exact Nat.two_pow_pos _

theorem body_inv (input : List ℚ) (w w1 : Work) (hspb : 0 ≤ w.blk._spb) (hinv : WorkInv w)
    (h : body input w = some w1) : WorkInv w1 :=
  ⟨le_trans hinv.1 (body_advance_le input w w1 hspb h).1, body_acc input w w1 hinv.2 h⟩

theorem body_total (input : List ℚ) (nout : Int) (w : Work) (hspb : 0 ≤ w.blk._spb)
    (hinv : WorkInv w) (hc : loopCond input nout w = true) : ∃ w1, body input w = some w1 := by
  obtain ⟨h0, hacc⟩ := hinv
  have hlt := cond_lt_length input nout w hspb hc
  have hread : ∃ x, readSample input w.inp = some x := by
    unfold readSample
    rw [if_pos h0]
    exact ⟨_, List.getElem?_eq_getElem (by omega)⟩
  obtain ⟨x, hx⟩ := hread
  cases hst : w.blk.state with
  | WAITING_FOR_START =>
    by_cases hxs : positive x = w.blk.space
    · exact ⟨_, body_wait_start input w x hst hx hxs⟩
    · exact ⟨_, body_wait_idle input w x hst hx hxs⟩
  | DATA =>
    by_cases hpos : 4 < w.blk.datapos
    · exact ⟨_, body_data_end input w hst hpos⟩
    · exact ⟨_, body_data_bit input w x hst (by omega) hx⟩
  | LOOKING_FOR_STOP =>
    by_cases hxm : positive x = w.blk.mark
    · have h32 : w.outchar < 32 := by simpa [accBits, hst] using hacc
      obtain ⟨c, hc⟩ := lookup_some (shift w.blk.charset w.outchar) w.outchar h32
      exact ⟨_, body_stop_match input w x c hst hx hxm hc⟩
    · exact ⟨_, body_stop_miss input w x hst hx hxm⟩

theorem iter_inv (input : List ℚ) (nout : Int) (k : Nat) :
    ∀ (w wk : Work), 0 ≤ w.blk._spb → WorkInv w → iter input nout k w = some wk →
      WorkInv wk := by
  induction k with
  | zero =>
    intro w wk _ hinv h
    simp only [iter, Option.some.injEq] at h
    subst h
    exact hinv
  | succ k ih =>
    intro w wk hspb hinv h
    obtain ⟨_, w1, hb, hk⟩ := iter_succ input nout k w wk h
    have hcfg := (body_config input w w1 hb).1
    exact ih w1 wk (by rw [hcfg]; exact hspb) (body_inv input w w1 hspb hinv hb) hk

theorem loop_no_fault (input : List ℚ) (nout : Int) (f : Nat) :
    ∀ (w : Work), 0 ≤ w.blk._spb → WorkInv w → loop input nout f w ≠ Outcome.fault := by
  induction f with
  | zero =>
    intro w _ _
    unfold loop
    split <;> exact fun h => Outcome.noConfusion h
  | succ f ih =>
    intro w hspb hinv
    by_cases hc : loopCond input nout w = true
    · obtain ⟨w1, hb⟩ := body_total input nout w hspb hinv hc
      rw [loop_pass input nout f w w1 hc hb]
      have hcfg := (body_config input w w1 hb).1
      exact ih w1 (by rw [hcfg]; exact hspb) (body_inv input w w1 hspb hinv hb)
    · simp only [Bool.not_eq_true] at hc
      rw [loop_exit input nout (f + 1) w hc]
      exact fun h => Outcome.noConfusion h

theorem body_passBound (input : List ℚ) (nout : Int) (w w1 : Work)
    (hspb : 2 / 3 ≤ w.blk._spb) (hc : loopCond input nout w = true)
    (h : body input w = some w1) : passBound input w1 < passBound input w := by
  have hlt := cond_lt_length input nout w (by linarith) hc
  have ha : 1 ≤ toInt (w.blk._spb * (3 / 2)) := by
    unfold toInt
    rw [if_pos (by linarith)]
    exact Int.le_floor.2 (by push_cast; linarith)
  have hb : 0 ≤ toInt w.blk._spb := toInt_nonneg _ (by linarith)
  rcases body_cases input w w1 h with ⟨hst, _, _, _, rfl⟩ | ⟨hst, _, _, _, rfl⟩ |
    ⟨hst, hpos, rfl⟩ | ⟨hst, hpos, x, _, rfl⟩ | ⟨hst, _, c, _, _, _, rfl⟩ | ⟨hst, _, _, _, rfl⟩
  · simp only [passBound, frameRank, hst]
    omega
  · simp only [passBound, frameRank, hst]
    omega
  · simp only [passBound, frameRank, hst]
    omega
  · simp only [passBound, frameRank, hst]
    omega
  · simp only [passBound, frameRank, hst]
    omega
  · simp only [passBound, frameRank, hst]
    omega

theorem loop_terminates_aux (input : List ℚ) (nout : Int) (m : Nat) :
    ∀ (w : Work), 2 / 3 ≤ w.blk._spb → WorkInv w → passBound input w ≤ m →
      ∃ r, ∀ f, m ≤ f → loop input nout f w = Outcome.done r := by
  induction m with
  | zero =>
    intro w hspb hinv hm
    by_cases hc : loopCond input nout w = true
    · obtain ⟨w1, hb⟩ := body_total input nout w (by linarith) hinv hc
      have := body_passBound input nout w w1 hspb hc hb
      omega
    · simp only [Bool.not_eq_true] at hc
      exact ⟨w, fun f _ => loop_exit input nout f w hc⟩
  | succ m ih =>
    intro w hspb hinv hm
    by_cases hc : loopCond input nout w = true
    · obtain ⟨w1, hb⟩ := body_total input nout w (by linarith) hinv hc
      have hlt := body_passBound input nout w w1 hspb hc hb
      have hcfg := (body_config input w w1 hb).1
      obtain ⟨r, hr⟩ := ih w1 (by rw [hcfg]; exact hspb)
        (body_inv input w w1 (by linarith) hinv hb) (by omega)
      refine ⟨r, fun f hf => ?_⟩
      obtain ⟨g, rfl⟩ : ∃ g, f = g + 1 := ⟨f - 1, by omega⟩
      rw [loop_pass input nout g w w1 hc hb]
      exact hr g (by omega)
    · simp only [Bool.not_eq_true] at hc
      exact ⟨w, fun f _ => loop_exit input nout f w hc⟩

/-! ## Runs of passes on an encoded stream -/

theorem levels_get (mark : Bool) (input : List ℚ) (i : Nat) (b : Bool)
    (h : (levels mark input)[i]? = some b) :
    ∃ x, readSample input (i : Int) = some x ∧ (positive x == mark) = b := by
  rw [readSample_natCast]
  unfold levels at h
  rw [List.getElem?_map] at h
  cases hx : input[i]? with
  | none => simp [hx] at h
  | some x => exact ⟨x, rfl, by simpa [hx] using h⟩

theorem hold_length (s : Nat) (bs : List Bool) : (hold s bs).length = s * bs.length := by
  induction bs with
  | nil => simp [hold]
  | cons b bs ih => simp [hold, ih, Nat.mul_succ, Nat.add_comm]

theorem hold_append (s : Nat) (as bs : List Bool) :
    hold s (as ++ bs) = hold s as ++ hold s bs := by
  induction as with
  | nil => simp [hold]
  | cons a as ih => simp [hold, ih]

theorem hold_get (s : Nat) (tl : List Bool) :
    ∀ (bs : List Bool) (k j : Nat), k < bs.length → j < s →
      (hold s bs ++ tl)[s * k + j]? = bs[k]? := by
  intro bs
  induction bs with
  | nil => intro k j hk; simp at hk
  | cons b bs ih =>
    intro k j hk hj
    cases k with
    | zero =>
      simp only [hold, Nat.mul_zero, Nat.zero_add, List.append_assoc]
      rw [List.getElem?_append_left (by simpa using hj)]
      simp [hj]
    | succ k =>
      simp only [hold, List.append_assoc]
      rw [List.getElem?_append_right (by simp [Nat.mul_succ]; omega)]
      have : s * (k + 1) + j - (List.replicate s b).length = s * k + j := by
        simp [Nat.mul_succ]; omega
      rw [this, ih k j (by simpa using hk) hj]
      simp

theorem idle_returns (input : List ℚ) (nout : Int) :
    ∀ (g : Nat) (w : Work) (q : Nat), w.blk.state = State.WAITING_FOR_START →
      0 ≤ w.blk._spb → w.blk.space = !w.blk.mark → w.inp = (q : Int) →
      input.length ≤ q + g →
      (∀ i x, q ≤ i → input[i]? = some x → positive x = w.blk.mark) →
      ∃ r, Returns input nout w r ∧ r.out = w.out ∧ r.blk = w.blk ∧ w.inp ≤ r.inp := by
  intro g
  induction g with
  | zero =>
    intro w q hst hspb hsp hq hlen hidle
    have hc : loopCond input nout w = false := by
      by_contra hc
      simp only [Bool.not_eq_false] at hc
      have := cond_lt_length input nout w hspb hc
      omega
    exact ⟨w, Returns.exit hc, rfl, rfl, le_refl _⟩
  | succ g ih =>
    intro w q hst hspb hsp hq hlen hidle
    by_cases hc : loopCond input nout w = true
    · have hlt := cond_lt_length input nout w hspb hc
      have hqn : q < input.length := by omega
      have hread : readSample input w.inp = some input[q] := by
        rw [hq, readSample_natCast]
        exact List.getElem?_eq_getElem hqn
      have hx : positive input[q] = w.blk.mark :=
        hidle q _ (le_refl _) (List.getElem?_eq_getElem hqn)
      have hne : positive input[q] ≠ w.blk.space := by
        rw [hx, hsp]; cases w.blk.mark <;> simp
      have hb := body_wait_idle input w _ hst hread hne
      obtain ⟨r, hr, ho, hblk, hinp⟩ := ih { w with inp := w.inp + 1 } (q + 1) hst hspb hsp
        (by simp [hq]) (by omega) (fun i x hi => hidle i x (by omega))
      exact ⟨r, Returns.pass hc hb hr, ho, hblk, by simp at hinp; omega⟩
    · simp only [Bool.not_eq_true] at hc
      exact ⟨w, Returns.exit hc, rfl, rfl, le_refl _⟩

theorem scan_returns (input : List ℚ) (nout : Int) (spb : ℚ) (G : Int)
    (hG : ∀ c : Int, guardAt input.length spb c = true ↔ c < G) :
    ∀ (g : Nat) (w : Work) (q : Nat), w.blk.state = State.WAITING_FOR_START →
      w.blk._spb = spb → w.blk.space = !w.blk.mark → w.inp = (q : Int) →
      (w.out.length : Int) < nout → ((q + g : Nat) : Int) ≤ G →
      (∀ i, q ≤ i → i < q + g → (levels w.blk.mark input)[i]? = some true) →
      ∀ r, Returns input nout { w with inp := ((q + g : Nat) : Int) } r →
        Returns input nout w r := by
  intro g
  induction g with
  | zero =>
    intro w q hst hspb hsp hq hout hlen hidle r hr
    have : { w with inp := ((q + 0 : Nat) : Int) } = w := by
      cases w; simp_all
    rw [this] at hr
    exact hr
  | succ g ih =>
    intro w q hst hspb hsp hq hout hlen hidle r hr
    have hc : loopCond input nout w = true :=
      (loopCond_thr input nout w spb G hG hspb).2 ⟨hout, by omega⟩
    obtain ⟨x, hread, hx⟩ := levels_get _ _ _ _ (hidle q (le_refl _) (by omega))
    have hne : positive x ≠ w.blk.space := by
      have : positive x = w.blk.mark := by simpa using hx
      rw [this, hsp]; cases w.blk.mark <;> simp
    rw [← hq] at hread
    have hb := body_wait_idle input w _ hst hread hne
    refine Returns.pass hc hb ?_
    refine ih { w with inp := w.inp + 1 } (q + 1) hst hspb hsp (by simp [hq]) hout (by omega)
      (fun i h1 h2 => hidle i (by omega) (by omega)) r ?_
    have : ((q + 1 + g : Nat) : Int) = ((q + (g + 1) : Nat) : Int) := by push_cast; ring
    simpa [this] using hr

theorem data_returns (input : List ℚ) (nout : Int) (s c base K : Nat) (G : Int)
    (hG : ∀ c : Int, guardAt input.length (s : ℚ) c = true ↔ c < G)
    (hc : c < 32) (hK : K ≤ 5) (hlen : ∀ j, j < K → ((base + j * s : Nat) : Int) < G) :
    ∀ (m k : Nat) (w : Work), k + m = K → w.blk.state = State.DATA → w.blk.datapos = k →
      w.blk._spb = (s : ℚ) → w.inp = ((base + k * s : Nat) : Int) → w.outchar = c % 2 ^ k →
      (w.out.length : Int) < nout →
      (∀ j, j < K → (levels w.blk.mark input)[base + j * s]? = some (c.testBit j)) →
      ∀ r, Returns input nout { w with
          blk := { w.blk with datapos := K }
          inp := ((base + K * s : Nat) : Int)
          outchar := c % 2 ^ K } r →
        Returns input nout w r := by
  intro m
  induction m with
  | zero =>
    intro k w hk hst hpos hspb hq hacc hout hbits r hr
    have hkK : k = K := by omega
    subst hkK
    have : ({ w with
          blk := { w.blk with datapos := k }
          inp := ((base + k * s : Nat) : Int)
          outchar := c % 2 ^ k } : Work) = w := by
      cases w with
      | mk blk inp outchar out =>
        cases blk
        simp_all
    rw [this] at hr
    exact hr
  | succ m ih =>
    intro k w hk hst hpos hspb hq hacc hout hbits r hr
    have hkK : k < K := by omega
    have hk4 : k < 5 := by omega
    have hcond : loopCond input nout w = true :=
      (loopCond_thr input nout w (s : ℚ) G hG hspb).2 ⟨hout, by rw [hq]; exact hlen k hkK⟩
    obtain ⟨x, hread, hx⟩ := levels_get _ _ _ _ (hbits k hkK)
    rw [← hq] at hread
    have hb := body_data_bit input w x hst (by omega) hread
    refine Returns.pass hcond hb ?_
    refine ih (k + 1) { w with
        blk := { w.blk with datapos := w.blk.datapos + 1 }
        outchar := if positive x = w.blk.mark then w.outchar + (1 <<< w.blk.datapos) else w.outchar
        inp := w.inp + toInt w.blk._spb } (by omega) hst (by simp [hpos]) hspb ?_ ?_ hout hbits r hr
    · simp only [hq, hspb, toInt_natCast]
      push_cast; ring
    · have hacc2 := testBit_accumulate c hc k hk4
      rw [hacc2]
      simp only [hpos, hacc]
      by_cases hm : positive x = w.blk.mark
      · have : c.testBit k = true := by rw [← hx]; simp [hm]
        simp [hm, this]
      · have : c.testBit k = false := by rw [← hx]; simp [hm]
        simp [hm, this]

theorem frame_returns (input : List ℚ) (nout : Int) (s c p : Nat) (G : Int) (ch : Char)
    (w : Work) (hG : ∀ c : Int, guardAt input.length (s : ℚ) c = true ↔ c < G)
    (hc : c < 32) (hst : w.blk.state = State.WAITING_FOR_START) (hspb : w.blk._spb = (s : ℚ))
    (hsp : w.blk.space = !w.blk.mark) (hq : w.inp = (p : Int)) (hacc : w.outchar = 0)
    (hout : (w.out.length : Int) < nout)
    (hlen : ((p + (s + s / 2) + 5 * s : Nat) : Int) < G)
    (hstart : (levels w.blk.mark input)[p]? = some false)
    (hbits : ∀ j, j < 5 →
      (levels w.blk.mark input)[p + (s + s / 2) + j * s]? = some (c.testBit j))
    (hstop : (levels w.blk.mark input)[p + (s + s / 2) + 5 * s]? = some true)
    (hch : lookup (shift w.blk.charset c) c = some ch) :
    ∀ r, Returns input nout { w with
        blk := { w.blk with
          state := State.WAITING_FOR_START, datapos := 5, charset := shift w.blk.charset c }
        inp := ((p + (s + s / 2) + 5 * s : Nat) : Int)
        outchar := 0
        out := w.out ++ [ch] } r →
      Returns input nout w r := by
  intro r hr
  -- the start edge
  have hc1 : loopCond input nout w = true :=
    (loopCond_thr input nout w (s : ℚ) G hG hspb).2 ⟨hout, by omega⟩
  obtain ⟨x, hread, hx⟩ := levels_get _ _ _ _ hstart
  have hxs : positive x = w.blk.space := by
    rw [hsp]
    revert hx
    cases positive x <;> cases w.blk.mark <;> simp
  rw [← hq] at hread
  refine Returns.pass hc1 (body_wait_start input w x hst hread hxs) ?_
  -- the five data bits
  have hjs : ∀ j, j < 5 → ((p + (s + s / 2) + j * s : Nat) : Int) < G := by
    intro j hj
    have : j * s ≤ 5 * s := Nat.mul_le_mul_right s (by omega)
    omega
  refine data_returns input nout s c (p + (s + s / 2)) 5 G hG hc (le_refl _) hjs 5 0 { w with
      blk := { w.blk with state := State.DATA, datapos := 0 }
      inp := w.inp + toInt (w.blk._spb * (3 / 2)) } (by omega) rfl rfl hspb
    ?_ ?_ hout hbits r ?_
  · simp only [hq, hspb, toInt_center]
    push_cast; ring
  · simp [hacc, Nat.mod_one]
  -- the end of the data bits, then the stop test
  have hc3 : ∀ W : Work, W.blk._spb = (s : ℚ) → W.out = w.out →
      W.inp = ((p + (s + s / 2) + 5 * s : Nat) : Int) → loopCond input nout W = true := by
    intro W h1 h2 h3
    refine (loopCond_thr input nout W (s : ℚ) G hG h1).2 ⟨by rw [h2]; exact hout, ?_⟩
    rw [h3]
    exact hlen
  have hc32 : c % 2 ^ 5 = c := Nat.mod_eq_of_lt (by simpa using hc)
  refine Returns.pass (hc3 _ hspb rfl rfl) (body_data_end input _ rfl (by show 4 < 5; decide)) ?_
  obtain ⟨y, hready, hy⟩ := levels_get _ _ _ _ hstop
  have hym : positive y = w.blk.mark := by simpa using hy
  have hch2 : lookup (shift w.blk.charset (c % 2 ^ 5)) (c % 2 ^ 5) = some ch := by
    rw [hc32]; exact hch
  refine Returns.pass (hc3 _ hspb rfl rfl)
    (body_stop_match input _ y ch rfl hready hym hch2) ?_
  rw [hc32]
  exact hr

theorem frameBits_get (c : Nat) :
    (frameBits c)[0]? = some false ∧ (frameBits c)[6]? = some true ∧
      ∀ j, j < 5 → (frameBits c)[j + 1]? = some (c.testBit j) := by
  refine ⟨rfl, rfl, ?_⟩
  intro j hj
  interval_cases j <;> rfl

theorem frame_tail (s c : Nat) (rest : List Bool) :
    (hold s (frameBits c) ++ rest).drop (6 * s + s / 2) =
      List.replicate (s - s / 2) true ++ rest := by
  have h1 : hold s (frameBits c) =
      hold s [false, c.testBit 0, c.testBit 1, c.testBit 2, c.testBit 3, c.testBit 4] ++
        List.replicate s true := by
    simp [frameBits, hold]
  have h2 : 6 * s + s / 2 =
      (hold s [false, c.testBit 0, c.testBit 1, c.testBit 2, c.testBit 3, c.testBit 4]).length
        + s / 2 := by
    rw [hold_length]; simp; ring
  rw [h1, h2, List.append_assoc, List.drop_append]
  rw [List.drop_append_of_le_length (by simp; omega), List.drop_replicate]

theorem expected_cons (t : Charset) (c : Nat) (cs : List Nat) (ch : Char)
    (h : lookup (shift t c) c = some ch) :
    expected t (c :: cs) = ch :: expected (shift t c) cs := by
  have hs : (if c = 27 then Charset.FIGURES else if c = 31 then Charset.LETTERS else t)
      = shift t c := by
    unfold shift
    by_cases h27 : c = 27
    · subst h27; simp
    · by_cases h31 : c = 31 <;> simp [h27, h31]
  simp only [expected, hs]
  congr 1
  unfold lookup at h
  split at h
  · rename_i hL
    simp [hL, List.getD_eq_getElem?_getD, h]
  · rename_i hL
    simp [hL, List.getD_eq_getElem?_getD, h]

theorem expected_length (t : Charset) (cs : List Nat) : (expected t cs).length = cs.length := by
  induction cs generalizing t with
  | nil => rfl
  | cons c cs ih => simp [expected, ih]

theorem encodeBits_length (l : List Nat) : (encodeBits l).length = 7 * l.length := by
  induction l with
  | nil => rfl
  | cons a l ihl =>
    have hfb : (frameBits a).length = 7 := rfl
    simp [encodeBits, ihl, hfb]; ring

theorem decode_frames (input : List ℚ) (nout : Int) (s : Nat) (hs : 1 ≤ s) (G : Int)
    (hG : ∀ c : Int, guardAt input.length (s : ℚ) c = true ↔ c < G) (rest : List Bool) :
    ∀ (cs : List Nat) (w : Work) (q g : Nat), (∀ c ∈ cs, c < 32) →
      w.blk.state = State.WAITING_FOR_START → w.blk._spb = (s : ℚ) →
      w.blk.space = !w.blk.mark → w.inp = (q : Int) → w.outchar = 0 →
      (w.out.length : Int) + (cs.length : Int) ≤ nout →
      (levels w.blk.mark input).drop q =
        List.replicate g true ++ (hold s (encodeBits cs) ++ rest) →
      (cs ≠ [] → ((q + g + 7 * s * cs.length : Nat) : Int) < G + ((s - s / 2 : Nat) : Int)) →
      ∃ (w1 : Work) (q1 g1 : Nat),
        (∀ r, Returns input nout w1 r → Returns input nout w r) ∧
        w1.blk.state = State.WAITING_FOR_START ∧ w1.blk._spb = (s : ℚ) ∧
        w1.blk.mark = w.blk.mark ∧ w1.blk.space = w.blk.space ∧ w1.inp = (q1 : Int) ∧
        w1.outchar = 0 ∧ w1.out = w.out ++ expected w.blk.charset cs ∧
        q1 + g1 = q + g + 7 * s * cs.length ∧
        (levels w.blk.mark input).drop q1 = List.replicate g1 true ++ rest ∧
        (cs ≠ [] → g1 = s - s / 2 ∧ w1.blk.datapos = 5) ∧ (cs = [] → w1 = w) := by
  intro cs
  induction cs with
  | nil =>
    intro w q g _ hst hspb hsp hq hacc hout hpat _
    refine ⟨w, q, g, fun r h => h, hst, hspb, rfl, rfl, hq, hacc, by simp [expected], by simp,
      ?_, fun h => absurd rfl h, fun _ => rfl⟩
    simpa [encodeBits, hold] using hpat
  | cons c cs ih =>
    intro w q g hcs hst hspb hsp hq hacc hout hpat hfit
    have hc : c < 32 := hcs c (List.mem_cons_self _ _)
    obtain ⟨ch, hch⟩ := lookup_some (shift w.blk.charset c) c hc
    have hL : (levels w.blk.mark input).length = input.length := by simp [levels]
    have hpat2 : (levels w.blk.mark input).drop q = List.replicate g true ++
        (hold s (frameBits c) ++ (hold s (encodeBits cs) ++ rest)) := by
      rw [hpat]; simp [encodeBits, hold_append]
    have hget : ∀ i, (levels w.blk.mark input)[q + g + i]? =
        (hold s (frameBits c) ++ (hold s (encodeBits cs) ++ rest))[i]? := by
      intro i
      have h1 : ((levels w.blk.mark input).drop q)[g + i]? =
          (levels w.blk.mark input)[q + g + i]? := by
        rw [List.getElem?_drop]; congr 1; omega
      rw [← h1, hpat2, List.getElem?_append_right (by simp)]
      congr 1
      rw [List.length_replicate]
      omega
    have hgap : ∀ i, q ≤ i → i < q + g → (levels w.blk.mark input)[i]? = some true := by
      intro i h1 h2
      have h3 : ((levels w.blk.mark input).drop q)[i - q]? = (levels w.blk.mark input)[i]? := by
        rw [List.getElem?_drop]; congr 1; omega
      rw [← h3, hpat2, List.getElem?_append_left (by simp; omega)]
      rw [List.getElem?_replicate]
      have : i - q < g := by omega
      simp [this]
    obtain ⟨hb0, hb6, hbj⟩ := frameBits_get c
    have hfl : (frameBits c).length = 7 := rfl
    have hhalf : s / 2 < s := by omega
    have hout1 : (w.out.length : Int) < nout := by
      simp only [List.length_cons] at hout; push_cast at hout; omega
    have hstart : (levels w.blk.mark input)[q + g]? = some false := by
      have := hget 0
      rw [Nat.add_zero] at this
      rw [this, ← hb0]
      have := hold_get s (hold s (encodeBits cs) ++ rest) (frameBits c) 0 0
        (by omega) (by omega)
      simpa using this
    have hbits : ∀ j, j < 5 →
        (levels w.blk.mark input)[q + g + (s + s / 2) + j * s]? = some (c.testBit j) := by
      intro j hj
      rw [Nat.add_assoc (q + g), hget, ← hbj j hj]
      have := hold_get s (hold s (encodeBits cs) ++ rest) (frameBits c) (j + 1)
        (s / 2) (by omega) hhalf
      rw [← this]
      congr 1
      ring
    have hstop : (levels w.blk.mark input)[q + g + (s + s / 2) + 5 * s]? = some true := by
      rw [Nat.add_assoc (q + g), hget, ← hb6]
      have := hold_get s (hold s (encodeBits cs) ++ rest) (frameBits c) 6
        (s / 2) (by omega) hhalf
      rw [← this]
      congr 1
      ring
    have h7 : 7 * s * (c :: cs).length = 7 * s * cs.length + 7 * s := by
      simp only [List.length_cons]; ring
    have hfit1 := hfit (List.cons_ne_nil _ _)
    rw [h7] at hfit1
    have hstopG : ((q + g + (s + s / 2) + 5 * s : Nat) : Int) < G := by
      have : 0 ≤ 7 * s * cs.length := Nat.zero_le _
      omega
    obtain ⟨w1, q1, g1, htr, h1, h2, h3, h4, h5, h6, h7o, h8, h9, h10, h11⟩ := ih { w with
        blk := { w.blk with
          state := State.WAITING_FOR_START, datapos := 5, charset := shift w.blk.charset c }
        inp := ((q + g + (s + s / 2) + 5 * s : Nat) : Int)
        outchar := 0
        out := w.out ++ [ch] } (q + g + (s + s / 2) + 5 * s) (s - s / 2)
      (fun a ha => hcs a (List.mem_cons_of_mem _ ha)) rfl hspb hsp rfl rfl
      (by simp only [List.length_append, List.length_cons, List.length_nil] at hout ⊢
          push_cast at hout ⊢; omega)
      (by
        show (levels w.blk.mark input).drop (q + g + (s + s / 2) + 5 * s) = _
        have h1 : q + g + (s + s / 2) + 5 * s = q + (g + (6 * s + s / 2)) := by ring
        rw [h1, ← List.drop_drop, hpat2, ← List.drop_drop]
        rw [List.drop_append_of_le_length (by simp), List.drop_replicate]
        simp only [Nat.sub_self, List.replicate_zero, List.nil_append]
        exact frame_tail s c _)
      (by
        intro _
        have : q + g + (s + s / 2) + 5 * s + (s - s / 2) + 7 * s * cs.length =
            q + g + (7 * s * cs.length + 7 * s) := by omega
        rw [this]
        exact hfit1)
    refine ⟨w1, q1, g1, ?_, h1, h2, h3, h4, h5, h6, ?_, ?_, h9, ?_, ?_⟩
    · intro r hr
      refine scan_returns input nout (s : ℚ) G hG g w q hst hspb hsp hq hout1 (by omega) hgap r ?_
      refine frame_returns input nout s c (q + g) G ch { w with inp := ((q + g : Nat) : Int) }
        hG hc hst hspb hsp rfl hacc hout1 hstopG hstart hbits hstop hch r ?_
      exact htr r hr
    · rw [h7o, expected_cons _ c cs ch hch]
      simp
    · rw [h8, h7]; omega
    · intro _
      by_cases hcs0 : cs = []
      · have := h11 hcs0
        subst hcs0
        have hq1 : q1 = q + g + (s + s / 2) + 5 * s := by
          rw [this] at h5
          have h5b : ((q + g + (s + s / 2) + 5 * s : Nat) : Int) = (q1 : Int) := h5
          exact_mod_cast h5b.symm
        rw [this]
        refine ⟨?_, rfl⟩
        simp only [List.length_nil, Nat.mul_zero, Nat.add_zero] at h8
        omega
      · exact h10 hcs0
    · intro h
      exact absurd h (List.cons_ne_nil _ _)

theorem marks_returns (input : List ℚ) (nout : Int) (w : Work) (q g : Nat)
    (hst : w.blk.state = State.WAITING_FOR_START) (hspb : 0 ≤ w.blk._spb)
    (hsp : w.blk.space = !w.blk.mark) (hq : w.inp = (q : Int))
    (hpat : ∃ t, (levels w.blk.mark input).drop q = List.replicate g true ++ List.replicate t true) :
    ∃ r, Returns input nout w r ∧ r.out = w.out ∧ r.blk = w.blk := by
  obtain ⟨t, hpat⟩ := hpat
  have hL : (levels w.blk.mark input).length = input.length := by simp [levels]
  have hidle : ∀ i x, q ≤ i → input[i]? = some x → positive x = w.blk.mark := by
    intro i x hqi hx
    have h1 : (levels w.blk.mark input)[i]? = some (positive x == w.blk.mark) := by
      simp [levels, hx]
    have h2 : ((levels w.blk.mark input).drop q)[i - q]? = (levels w.blk.mark input)[i]? := by
      rw [List.getElem?_drop]; congr 1; omega
    rw [hpat, h1] at h2
    have h3 : (positive x == w.blk.mark) ∈ List.replicate g true ++ List.replicate t true :=
      List.getElem?_mem h2
    simp only [List.mem_append, List.mem_replicate] at h3
    have h4 : (positive x == w.blk.mark) = true := by
      rcases h3 with h3 | h3 <;> exact h3.2
    simpa using h4
  obtain ⟨r, hr, ho, hb, _⟩ := idle_returns input nout (input.length - q) w q hst
    hspb hsp hq (by omega) hidle
  exact ⟨r, hr, ho, hb⟩
theorem frame_head_returns (input : List ℚ) (nout : Int) (s c p K : Nat) (G : Int)
    (w : Work) (hG : ∀ c : Int, guardAt input.length (s : ℚ) c = true ↔ c < G)
    (hc : c < 32) (hK : K ≤ 5) (hst : w.blk.state = State.WAITING_FOR_START)
    (hspb : w.blk._spb = (s : ℚ)) (hsp : w.blk.space = !w.blk.mark) (hq : w.inp = (p : Int))
    (hacc : w.outchar = 0) (hout : (w.out.length : Int) < nout) (hp : (p : Int) < G)
    (hlen : ∀ j, j < K → ((p + (s + s / 2) + j * s : Nat) : Int) < G)
    (hstart : (levels w.blk.mark input)[p]? = some false)
    (hbits : ∀ j, j < K →
      (levels w.blk.mark input)[p + (s + s / 2) + j * s]? = some (c.testBit j)) :
    ∀ r, Returns input nout { w with
        blk := { w.blk with state := State.DATA, datapos := K }
        inp := ((p + (s + s / 2) + K * s : Nat) : Int)
        outchar := c % 2 ^ K } r →
      Returns input nout w r := by
  intro r hr
  have hc1 : loopCond input nout w = true :=
    (loopCond_thr input nout w (s : ℚ) G hG hspb).2 ⟨hout, by omega⟩
  obtain ⟨x, hread, hx⟩ := levels_get _ _ _ _ hstart
  have hxs : positive x = w.blk.space := by
    rw [hsp]
    revert hx
    cases positive x <;> cases w.blk.mark <;> simp
  rw [← hq] at hread
  refine Returns.pass hc1 (body_wait_start input w x hst hread hxs) ?_
  refine data_returns input nout s c (p + (s + s / 2)) K G hG hc hK hlen K 0 { w with
      blk := { w.blk with state := State.DATA, datapos := 0 }
      inp := w.inp + toInt (w.blk._spb * (3 / 2)) } (by omega) rfl rfl hspb
    ?_ ?_ hout hbits r hr
  · simp only [hq, hspb, toInt_center]
    push_cast; ring
  · simp [hacc, Nat.mod_one]

theorem positive_toSample (b : Bool) : positive (toSample b) = b := by
  cases b <;> simp [toSample, positive]

theorem levels_toSample (L : List Bool) : levels true (L.map toSample) = L := by
  induction L with
  | nil => rfl
  | cons b L ih =>
    simp only [levels, List.map_cons, List.map_map] at ih ⊢
    rw [ih]
    simp [positive_toSample]

theorem encodeBits_append (a b : List Nat) :
    encodeBits (a ++ b) = encodeBits a ++ encodeBits b := by
  induction a with
  | nil => rfl
  | cons c a ih => simp [encodeBits, ih]

/-- A stream of `m + 1` frames of code 3 at one sample per bit followed by eight marks, in a
window whose loop condition holds exactly below `7 * m + 5`: the call decodes `m` frames and
stops in the last one after four data bits. -/
theorem frames_cut (m : Nat) (hm : 1 ≤ m) (nout : Int) (hn : (m : Int) < nout)
    (input : List ℚ)
    (hin : levels true input =
      hold 1 (encodeBits (List.replicate m 3 ++ [3])) ++ List.replicate 8 true)
    (hG : ∀ c : Int, guardAt input.length ((1 : Nat) : ℚ) c = true ↔
      c < ((7 * m + 5 : Nat) : Int)) :
    ∃ r, Returns input nout (entry (rtty_make_decode_ff 1 1 true)) r ∧
      r.inp = ((7 * m + 5 : Nat) : Int) ∧ r.blk.state = State.DATA ∧ r.blk.datapos = 4 ∧
      r.out.length = m := by
  have hspb : (rtty_make_decode_ff 1 1 true)._spb = ((1 : Nat) : ℚ) := by decide!
  have hcs : ∀ c ∈ List.replicate m 3, c < 32 := by
    intro c hc
    rw [List.eq_of_mem_replicate hc]
    decide
  have hne : List.replicate m 3 ≠ [] := by
    intro h
    have := congrArg List.length h
    simp at this
    omega
  obtain ⟨w1, q1, g1, htr, h1, h2, h3, h4, h5, h6, h7, h8, h9, h10, _⟩ :=
    decode_frames input nout 1 (le_refl _) _ hG
      (hold 1 (frameBits 3) ++ List.replicate 8 true) (List.replicate m 3)
      (entry (rtty_make_decode_ff 1 1 true)) 0 0 hcs rfl hspb rfl rfl rfl
      (by simp [entry]; omega)
      (by
        show (levels true input).drop 0 = _
        rw [hin, encodeBits_append, hold_append]
        simp [encodeBits, hold])
      (by intro _; simp only [List.length_replicate]; omega)
  obtain ⟨hg1, _⟩ := h10 hne
  have hm1 : (w1.blk.mark) = true := h3
  simp only [List.length_replicate, Nat.zero_add] at h8
  have h9 : (levels true input).drop q1 =
      List.replicate g1 true ++ (hold 1 (frameBits 3) ++ List.replicate 8 true) := h9
  have h7 : w1.out = [] ++ expected Charset.LETTERS (List.replicate m 3) := h7
  have hg11 : g1 = 1 := by omega
  subst hg11
  have hq1 : q1 + 1 = 7 * m := by omega
  have hpat : ∀ i, (levels w1.blk.mark input)[q1 + 1 + i]? =
      (hold 1 (frameBits 3) ++ List.replicate 8 true)[i]? := by
    intro i
    rw [hm1]
    have e : ((levels true input).drop q1)[1 + i]? = (levels true input)[q1 + 1 + i]? := by
      rw [List.getElem?_drop]; congr 1; omega
    rw [← e, h9, List.getElem?_append_right (by simp)]
    simp
  have hout1 : (w1.out.length : Int) < nout := by
    rw [h7]
    simp [entry, expected_length]
    omega
  have hsp1 : w1.blk.space = !w1.blk.mark := by rw [h4, h3]; rfl
  refine ⟨{ w1 with
      blk := { w1.blk with state := State.DATA, datapos := 4 }
      inp := ((q1 + 1 + (1 + 1 / 2) + 4 * 1 : Nat) : Int)
      outchar := 3 % 2 ^ 4 }, htr _ ?_, ?_⟩
  · refine scan_returns input nout ((1 : Nat) : ℚ) _ hG 1 w1 q1 h1 h2 hsp1 h5
      hout1 (by omega) ?_ _ ?_
    · intro i hi1 hi2
      have : i = q1 := by omega
      subst this
      rw [hm1]
      have e : ((levels true input).drop i)[0]? = (levels true input)[i]? := by
        rw [List.getElem?_drop]; congr 1
      rw [← e, h9]
      rfl
    · refine frame_head_returns input nout 1 3 (q1 + 1) 4 _
        { w1 with inp := ((q1 + 1 : Nat) : Int) }
        hG (by decide) (by decide) h1 h2 hsp1 rfl h6 hout1 (by omega) ?_ ?_ ?_
        _ (Returns.exit ?_)
      · intro j hj
        omega
      · have := hpat 0
        rw [Nat.add_zero] at this
        rw [this]
        rfl
      · intro j hj
        show (levels w1.blk.mark input)[q1 + 1 + (1 + 1 / 2) + j * 1]? = _
        have e : q1 + 1 + (1 + 1 / 2) + j * 1 = q1 + 1 + (j + 1) := by omega
        rw [e, hpat]
        have : j = 0 ∨ j = 1 ∨ j = 2 ∨ j = 3 := by omega
        rcases this with rfl | rfl | rfl | rfl <;> rfl
      · rw [Bool.eq_false_iff]
        intro hcon
        have := ((loopCond_thr input nout { w1 with
            blk := { w1.blk with state := State.DATA, datapos := 4 }
            inp := ((q1 + 1 + (1 + 1 / 2) + 4 * 1 : Nat) : Int)
            outchar := 3 % 2 ^ 4 } ((1 : Nat) : ℚ) _ hG h2).1 hcon).2
        simp only at this
        omega
  · refine ⟨?_, rfl, rfl, ?_⟩
    · show ((q1 + 1 + (1 + 1 / 2) + 4 * 1 : Nat) : Int) = _
      congr 1
      omega
    · show w1.out.length = m
      rw [h7]
      simp [entry, expected_length]
theorem cond_exact (input : List ℚ) (nout : Int) (w : Work) (hwin : input.length ≤ 16777216)
    (hspb : 0 ≤ w.blk._spb) (h0 : 0 ≤ w.inp) (h : loopCond input nout w = true) :
    (w.inp : ℚ) < (input.length : ℚ) - w.blk._spb * 8 :=
  guardAt_exact _ _ _ hwin hspb h0 ((loopCond_iff input nout w).1 h).2

theorem loop_inp_bound (input : List ℚ) (nout : Int) (hwin : input.length ≤ 16777216)
    (f : Nat) :
    ∀ (w r : Work), 0 ≤ w.blk._spb → 0 ≤ w.inp → loop input nout f w = Outcome.done r →
      r.inp = w.inp ∨ (r.inp : ℚ) < (input.length : ℚ) - w.blk._spb * 8 +
        ((max 1 (toInt (w.blk._spb * (3 / 2))) : Int) : ℚ) := by
  induction f with
  | zero =>
    intro w r _ _ h
    by_cases hc : loopCond input nout w = true
    · simp [loop, hc] at h
    · simp only [Bool.not_eq_true] at hc
      rw [loop_exit input nout 0 w hc] at h
      cases h
      left; rfl
  | succ f ih =>
    intro w r hspb h0 h
    by_cases hc : loopCond input nout w = true
    · cases hb : body input w with
      | none => simp [loop, hc, hb] at h
      | some w1 =>
        rw [loop_pass input nout f w w1 hc hb] at h
        have hcfg := (body_config input w w1 hb).1
        have hadv := (body_advance_le input w w1 hspb hb).2
        have hadv0 := (body_advance_le input w w1 hspb hb).1
        have hadvq : (w1.inp : ℚ) ≤ (w.inp : ℚ) +
            ((max 1 (toInt (w.blk._spb * (3 / 2))) : Int) : ℚ) := by exact_mod_cast hadv
        have hlt := cond_exact input nout w hwin hspb h0 hc
        right
        rcases ih w1 r (by rw [hcfg]; exact hspb) (by omega) h with e | e
        · rw [e]; linarith
        · rw [hcfg] at e; exact e
    · simp only [Bool.not_eq_true] at hc
      rw [loop_exit input nout (f + 1) w hc] at h
      cases h
      left; rfl

theorem body_inp_le_length (input : List ℚ) (nout : Int) (w w1 : Work)
    (hwin : input.length ≤ 16777216) (hspb : 0 ≤ w.blk._spb) (h0 : 0 ≤ w.inp)
    (hc : loopCond input nout w = true)
    (hb : body input w = some w1) : w1.inp ≤ (input.length : Int) := by
  have hlt := cond_exact input nout w hwin hspb h0 hc
  have hltn := cond_lt_length input nout w hspb hc
  have hadv := (body_advance_le input w w1 hspb hb).2
  have ha : ((toInt (w.blk._spb * (3 / 2)) : Int) : ℚ) ≤ w.blk._spb * (3 / 2) := by
    rw [toInt_eq_floor _ (by linarith)]
    exact Int.floor_le _
  have h2 : ((w.inp + toInt (w.blk._spb * (3 / 2)) : Int) : ℚ) < ((input.length : Int) : ℚ) := by
    push_cast
    linarith
  have h3 : w.inp + toInt (w.blk._spb * (3 / 2)) < (input.length : Int) := by
    exact_mod_cast h2
  rcases le_total (1 : Int) (toInt (w.blk._spb * (3 / 2))) with h | h
  · rw [max_eq_right h] at hadv; omega
  · rw [max_eq_left h] at hadv; omega

theorem loop_inp_nonneg (input : List ℚ) (nout : Int) (f : Nat) :
    ∀ (w r : Work), 0 ≤ w.blk._spb → 0 ≤ w.inp →
      loop input nout f w = Outcome.done r → 0 ≤ r.inp := by
  induction f with
  | zero =>
    intro w r _ h0 h
    by_cases hc : loopCond input nout w = true
    · simp [loop, hc] at h
    · simp only [Bool.not_eq_true] at hc
      rw [loop_exit input nout 0 w hc] at h
      cases h
      exact h0
  | succ f ih =>
    intro w r hspb h0 h
    by_cases hc : loopCond input nout w = true
    · cases hb : body input w with
      | none => simp [loop, hc, hb] at h
      | some w1 =>
        rw [loop_pass input nout f w w1 hc hb] at h
        have hcfg := (body_config input w w1 hb).1
        exact ih w1 r (by rw [hcfg]; exact hspb)
          (le_trans h0 (body_advance_le input w w1 hspb hb).1) h
    · simp only [Bool.not_eq_true] at hc
      rw [loop_exit input nout (f + 1) w hc] at h
      cases h
      exact h0

theorem loop_inp_range (input : List ℚ) (nout : Int) (hwin : input.length ≤ 16777216)
    (f : Nat) :
    ∀ (w r : Work), 0 ≤ w.blk._spb → 0 ≤ w.inp → w.inp ≤ (input.length : Int) →
      loop input nout f w = Outcome.done r → 0 ≤ r.inp ∧ r.inp ≤ (input.length : Int) := by
  induction f with
  | zero =>
    intro w r _ h0 h1 h
    by_cases hc : loopCond input nout w = true
    · simp [loop, hc] at h
    · simp only [Bool.not_eq_true] at hc
      rw [loop_exit input nout 0 w hc] at h
      cases h
      exact ⟨h0, h1⟩
  | succ f ih =>
    intro w r hspb h0 h1 h
    by_cases hc : loopCond input nout w = true
    · cases hb : body input w with
      | none => simp [loop, hc, hb] at h
      | some w1 =>
        rw [loop_pass input nout f w w1 hc hb] at h
        have hcfg := (body_config input w w1 hb).1
        exact ih w1 r (by rw [hcfg]; exact hspb)
          (le_trans h0 (body_advance_le input w w1 hspb hb).1)
          (body_inp_le_length input nout w w1 hwin hspb h0 hc hb) h
    · simp only [Bool.not_eq_true] at hc
      rw [loop_exit input nout (f + 1) w hc] at h
      cases h
      exact ⟨h0, h1⟩

/-- A call entered in `WAITING_FOR_START` on a window that starts with `G` mark samples,
where the loop condition holds exactly below `G`, returns at cursor `G` with the members
unchanged and nothing written. -/
theorem marks_cut (d : rtty_decode_ff) (hsp : d.space = !d.mark)
    (hst : d.state = State.WAITING_FOR_START) (input : List ℚ) (nout : Int) (hn : 1 ≤ nout)
    (G : Nat) (hG : ∀ c : Int, guardAt input.length d._spb c = true ↔ c < (G : Int))
    (hidle : ∀ i, i < G → (levels d.mark input)[i]? = some true) :
    Returns input nout (entry d) { blk := d, inp := (G : Int), outchar := 0, out := [] } := by
  have hexit : loopCond input nout { entry d with inp := ((0 + G : Nat) : Int) } = false := by
    rw [Bool.eq_false_iff]
    intro hc
    have := ((loopCond_thr input nout { entry d with inp := ((0 + G : Nat) : Int) }
      d._spb (G : Int) hG rfl).1 hc).2
    simp only [Nat.zero_add] at this
    omega
  have := scan_returns input nout d._spb (G : Int) hG G (entry d) 0 hst rfl hsp rfl
    (by simpa [entry] using hn) (by simp) (fun i _ hi => hidle i (by omega)) _
    (Returns.exit hexit)
  simpa [entry] using this

theorem levels_replicate_append (mark : Bool) (N : Nat) (x : ℚ) (hx : positive x = mark)
    (rest : List ℚ) (i : Nat) (hi : i < N) :
    (levels mark (List.replicate N x ++ rest))[i]? = some true := by
  have : (List.replicate N x ++ rest)[i]? = some x := by
    rw [List.getElem?_append_left (by simpa using hi), List.getElem?_replicate]
    simp [hi]
  simp only [levels, List.getElem?_map, this, Option.map_some', hx]
  simp

/-- At two samples per bit, a window of `N` marks followed by twelve spaces in which the
loop condition holds exactly below `N + 12` (the window length): the call scans the marks,
takes the start edge at `N`, reads five data bits and returns at cursor `N + 13`. -/
theorem overrun_run (N : Nat) (nout : Int) (hn : 1 ≤ nout) (input : List ℚ)
    (hin : levels true input = List.replicate N true ++ List.replicate 12 false)
    (hG : ∀ c : Int, guardAt input.length ((2 : Nat) : ℚ) c = true ↔
      c < ((N + 12 : Nat) : Int)) :
    Returns input nout (entry (rtty_make_decode_ff 2 1 true))
      { blk := { rtty_make_decode_ff 2 1 true with state := State.DATA, datapos := 5 }
        inp := ((N + 13 : Nat) : Int), outchar := 0, out := [] } := by
  have hspb : (rtty_make_decode_ff 2 1 true)._spb = ((2 : Nat) : ℚ) := by decide!
  have hmark : ∀ i, i < N → (levels true input)[i]? = some true := by
    intro i hi
    rw [hin, List.getElem?_append_left (by simpa using hi), List.getElem?_replicate]
    simp [hi]
  have hspace : ∀ i, i < 12 → (levels true input)[N + i]? = some false := by
    intro i hi
    rw [hin, List.getElem?_append_right (by simp), List.getElem?_replicate]
    simp [hi]
  have hexit : loopCond input nout
      { blk := { rtty_make_decode_ff 2 1 true with state := State.DATA, datapos := 5 }
        inp := ((N + 13 : Nat) : Int), outchar := 0, out := [] } = false := by
    rw [Bool.eq_false_iff]
    intro hc
    have := ((loopCond_thr input nout
      { blk := { rtty_make_decode_ff 2 1 true with state := State.DATA, datapos := 5 }
        inp := ((N + 13 : Nat) : Int), outchar := 0, out := [] }
      ((2 : Nat) : ℚ) _ hG hspb).1 hc).2
    simp only at this
    omega
  refine scan_returns input nout ((2 : Nat) : ℚ) _ hG N (entry (rtty_make_decode_ff 2 1 true))
    0 rfl hspb rfl rfl (by simpa [entry] using hn) (by omega)
    (fun i _ hi => hmark i (by omega)) _ ?_
  refine frame_head_returns input nout 2 0 (0 + N) 5 _
    { entry (rtty_make_decode_ff 2 1 true) with inp := ((0 + N : Nat) : Int) }
    hG (by decide) (by decide) rfl hspb rfl rfl rfl (by simpa [entry] using hn) (by omega)
    ?_ ?_ ?_ _ ?_
  · intro j hj
    omega
  · have := hspace 0 (by decide)
    simpa using this
  · intro j hj
    have := hspace (3 + j * 2) (by omega)
    have e : 0 + N + (2 + 2 / 2) + j * 2 = N + (3 + j * 2) := by omega
    show (levels true input)[0 + N + (2 + 2 / 2) + j * 2]? = _
    rw [e, this]
    simp
  · have e : ((0 + N + (2 + 2 / 2) + 5 * 2 : Nat) : Int) = ((N + 13 : Nat) : Int) := by
      congr 1
      omega
    simp only [e]
    exact Returns.exit hexit
/-! ## The claims -/

/-- C1 (as amended): round trip for windows of at most `2^24 = 16777216` samples. When the
stored `_spb` is the whole number `s ≥ 1`, for either polarity and codes `0..31`, a stream
that holds start (space), the five data bits LSB first and stop (mark) for `s` samples each,
followed by at least `8*s` mark samples, is decoded by one call of a freshly constructed
decoder with `noutput_items ≥ m` into exactly the `m` bytes of the codes under the shift state
started at LETTERS; `[27, 16, 31, 3]` gives `\0 '5' \0 'A'`. -/
theorem round_trip (s : Nat) (hs : 1 ≤ s) (rate baud : ℚ) (polarity : Bool)
    (hspb : (rtty_make_decode_ff rate baud polarity)._spb = (s : ℚ))
    (codes : List Nat) (hcodes : ∀ c ∈ codes, c < 32)
    (t : Nat) (ht : 8 * s ≤ t) (input : List ℚ) (hwin : input.length ≤ 16777216)
    (hin : levels (rtty_make_decode_ff rate baud polarity).mark input =
      hold s (encodeBits codes) ++ List.replicate t true)
    (nout : Int) (hn : (codes.length : Int) ≤ nout) :
    (∃ r f0,
      (∀ f, f0 ≤ f →
        general_work f (rtty_make_decode_ff rate baud polarity) nout input = Outcome.done r) ∧
      r.out = expected Charset.LETTERS codes ∧ r.out.length = codes.length) ∧
    expected Charset.LETTERS [27, 16, 31, 3] = ['\x00', '5', '\x00', 'A'] := by
  refine ⟨?_, by decide⟩
  have hlen : input.length = 7 * s * codes.length + t := by
    have := congrArg List.length hin
    simp only [levels, List.length_map, List.length_append, hold_length, encodeBits_length,
      List.length_replicate] at this
    rw [this]; ring
  have hsp : (entry (rtty_make_decode_ff rate baud polarity)).blk.space =
      !(entry (rtty_make_decode_ff rate baud polarity)).blk.mark := by
    cases polarity <;> rfl
  have h8 : 8 * s ≤ input.length := by
    have : 0 ≤ 7 * s * codes.length := Nat.zero_le _
    omega
  obtain ⟨w1, q1, g1, htr, h1, h2, h3, h4, h5, h6, h7, h8, h9, _, _⟩ :=
    decode_frames input nout s hs ((input.length : Int) - 8 * (s : Int))
      (fun c => guardAt_nat input.length s c hwin h8) (List.replicate t true) codes
      (entry (rtty_make_decode_ff rate baud polarity)) 0 0 hcodes rfl hspb hsp rfl rfl
      (by simpa [entry] using hn) (by simpa using hin)
      (by
        intro _
        have : 0 ≤ 7 * s * codes.length := Nat.zero_le _
        omega)
  obtain ⟨r, hr, hro, _⟩ := marks_returns input nout w1 q1 g1 h1 (by rw [h2]; positivity)
    (by rw [h4, h3]; exact hsp) h5 ⟨t, by rw [h3]; exact h9⟩
  obtain ⟨f0, hf⟩ := htr r hr
  have hout : r.out = expected Charset.LETTERS codes := by
    rw [hro, h7]
    simp [entry, rtty_make_decode_ff]
  exact ⟨r, f0, hf, hout, by rw [hout, expected_length]⟩

theorem round_trip_witness :
    ∃ r f0,
      (∀ f, f0 ≤ f → general_work f (rtty_make_decode_ff 1 1 true) 4
        [-1, 1, 1, -1, 1, 1, 1, -1, -1, -1, -1, -1, 1, 1, -1, 1, 1, 1, 1, 1, 1,
         -1, 1, 1, -1, -1, -1, 1, 1, 1, 1, 1, 1, 1, 1, 1] = Outcome.done r) ∧
      r.out = ['\x00', '5', '\x00', 'A'] := by
  obtain ⟨⟨r, f0, h1, h2, _⟩, h3⟩ := round_trip 1 (by decide) 1 1 true (by decide!)
    [27, 16, 31, 3] (by decide) 8 (by decide)
    [-1, 1, 1, -1, 1, 1, 1, -1, -1, -1, -1, -1, 1, 1, -1, 1, 1, 1, 1, 1, 1,
     -1, 1, 1, -1, -1, -1, 1, 1, 1, 1, 1, 1, 1, 1, 1] (by decide) (by decide) 4 (by decide)
  exact ⟨r, f0, h1, h2.trans h3⟩

/-- C1 as stated fails on long windows, where the loop condition is evaluated in `float`:
2396747 frames of code 3 at one sample per bit followed by 8 mark samples make a window of
16777237 samples; `float(16777237)` is 16777236, the bound is 16777228, and the cursor
16777227 converts to 16777228, so the loop exits at cursor 16777227 in state `DATA`, inside
the last frame, with 2396746 bytes written instead of 2396747. -/
theorem round_trip_large_window :
    (∀ c ∈ List.replicate 2396746 3 ++ [3], c < 32) ∧
    (List.replicate 2396746 3 ++ [3]).length = 2396747 ∧
    (rtty_make_decode_ff 1 1 true)._spb = 1 ∧
    levels (rtty_make_decode_ff 1 1 true).mark
        ((hold 1 (encodeBits (List.replicate 2396746 3 ++ [3])) ++
          List.replicate 8 true).map toSample) =
      hold 1 (encodeBits (List.replicate 2396746 3 ++ [3])) ++ List.replicate 8 true ∧
    ∃ r f0,
      (∀ f, f0 ≤ f → general_work f (rtty_make_decode_ff 1 1 true) 2396747
        ((hold 1 (encodeBits (List.replicate 2396746 3 ++ [3])) ++
          List.replicate 8 true).map toSample) = Outcome.done r) ∧
      r.inp = 16777227 ∧ r.blk.state = State.DATA ∧ r.out.length = 2396746 := by
  have hlen : ((hold 1 (encodeBits (List.replicate 2396746 3 ++ [3])) ++
      List.replicate 8 true).map toSample).length = 16777237 := by
    rw [List.length_map, List.length_append, hold_length, encodeBits_length,
      List.length_append, List.length_replicate, List.length_replicate]
    rfl
  have hlev : levels true
      ((hold 1 (encodeBits (List.replicate 2396746 3 ++ [3])) ++
        List.replicate 8 true).map toSample) =
      hold 1 (encodeBits (List.replicate 2396746 3 ++ [3])) ++ List.replicate 8 true :=
    levels_toSample _
  refine ⟨?_, ?_, by decide!, hlev, ?_⟩
  · intro c hc
    rcases List.mem_append.1 hc with h | h
    · rw [List.eq_of_mem_replicate h]; decide
    · rw [List.mem_singleton.1 h]; decide
  · rw [List.length_append, List.length_replicate]
    rfl
  · obtain ⟨r, ⟨f0, hf⟩, h1, h2, _, h4⟩ := frames_cut 2396746 (by decide) 2396747
      (by decide) _ hlev (by
        rw [hlen]
        exact guardAt_threshold 16777237 ((1 : Nat) : ℚ) ((7 * 2396746 + 5 : Nat) : Int)
          (by decide!) (by decide!))
    exact ⟨r, f0, hf, h1, h2, h4⟩
/-- C2: alphabet mapper rule. In state `LOOKING_FOR_STOP` with accumulator `a` in `0..31` and
a sample at mark level, the pass sets the active table to FIGURES if `a = 27`, to LETTERS if
`a = 31`, leaves it otherwise, and appends exactly one byte: the entry for `a` in the table
that is active after that shift. -/
theorem alphabet_mapper_rule (input : List ℚ) (w : Work) (x : ℚ) (a : Nat) (ha : a < 32)
    (hst : w.blk.state = State.LOOKING_FOR_STOP) (hacc : w.outchar = a)
    (hread : readSample input w.inp = some x) (hmark : positive x = w.blk.mark) :
    ∃ w1 c, body input w = some w1 ∧
      w1.blk.charset = (if a = 27 then Charset.FIGURES
        else if a = 31 then Charset.LETTERS else w.blk.charset) ∧
      w1.out = w.out ++ [c] ∧
      (w1.blk.charset = Charset.LETTERS → letters[a]? = some c) ∧
      (w1.blk.charset = Charset.FIGURES → figures[a]? = some c) := by
  obtain ⟨c, hc⟩ := lookup_some (shift w.blk.charset w.outchar) w.outchar (by omega)
  refine ⟨_, c, body_stop_match input w x c hst hread hmark hc, ?_, rfl, ?_, ?_⟩
  · subst hacc
    show shift w.blk.charset w.outchar = _
    unfold shift
    by_cases h27 : w.outchar = 27
    · simp [h27]
    · by_cases h31 : w.outchar = 31 <;> simp [h27, h31]
  · intro hL
    have hL1 : shift w.blk.charset w.outchar = Charset.LETTERS := hL
    rw [hL1] at hc
    subst hacc
    simpa [lookup] using hc
  · intro hF
    have hF1 : shift w.blk.charset w.outchar = Charset.FIGURES := hF
    rw [hF1] at hc
    subst hacc
    simpa [lookup] using hc

theorem alphabet_mapper_rule_witness :
    ∃ w1 c, body [1, 1] ⟨{ rtty_make_decode_ff 1 1 true with
          state := State.LOOKING_FOR_STOP, datapos := 5 }, 1, 27, ['E']⟩ = some w1 ∧
      w1.blk.charset = Charset.FIGURES ∧ w1.out = ['E'] ++ [c] ∧
      (w1.blk.charset = Charset.LETTERS → letters[27]? = some c) ∧
      (w1.blk.charset = Charset.FIGURES → figures[27]? = some c) :=
  alphabet_mapper_rule [1, 1] ⟨{ rtty_make_decode_ff 1 1 true with
      state := State.LOOKING_FOR_STOP, datapos := 5 }, 1, 27, ['E']⟩ 1 27 (by decide) rfl rfl
    (by decide) (by decide)

/-- C3: both tables have 32 entries; in either table the entry of a code `0..31` is the null
byte exactly for the codes 0, 27 and 31; so a stop-matched frame with code 27 or 31 appends
exactly one null byte whatever table was active, and a stop-matched frame with any other code
except 0 appends a non-null byte. -/
theorem tables_null_entries :
    letters.length = 32 ∧ figures.length = 32 ∧
    (∀ a, a < 32 → ((letters[a]? = some '\x00' ↔ (a = 0 ∨ a = 27 ∨ a = 31)) ∧
      (figures[a]? = some '\x00' ↔ (a = 0 ∨ a = 27 ∨ a = 31)))) ∧
    (∀ (input : List ℚ) (w : Work) (x : ℚ), w.blk.state = State.LOOKING_FOR_STOP →
      readSample input w.inp = some x → positive x = w.blk.mark →
      (w.outchar = 27 ∨ w.outchar = 31) →
      ∃ w1, body input w = some w1 ∧ w1.out = w.out ++ ['\x00']) ∧
    (∀ (input : List ℚ) (w : Work) (x : ℚ), w.blk.state = State.LOOKING_FOR_STOP →
      readSample input w.inp = some x → positive x = w.blk.mark →
      w.outchar < 32 → w.outchar ≠ 0 → w.outchar ≠ 27 → w.outchar ≠ 31 →
      ∃ w1 c, body input w = some w1 ∧ w1.out = w.out ++ [c] ∧ c ≠ '\x00') := by
  obtain ⟨h1, h2, h3⟩ := tables_null_iff
  refine ⟨h1, h2, h3, ?_, ?_⟩
  · intro input w x hst hread hmark ha
    have ha32 : w.outchar < 32 := by omega
    obtain ⟨c, hc⟩ := lookup_some (shift w.blk.charset w.outchar) w.outchar ha32
    refine ⟨_, body_stop_match input w x c hst hread hmark hc, ?_⟩
    have hc0 : c = '\x00' := by
      unfold lookup at hc
      split at hc
      · exact Option.some.inj (hc.symm.trans ((h3 _ ha32).1.2 (by omega)))
      · exact Option.some.inj (hc.symm.trans ((h3 _ ha32).2.2 (by omega)))
    rw [hc0]
  · intro input w x hst hread hmark ha32 h0 h27 h31
    obtain ⟨c, hc⟩ := lookup_some (shift w.blk.charset w.outchar) w.outchar ha32
    refine ⟨_, c, body_stop_match input w x c hst hread hmark hc, rfl, ?_⟩
    intro hc0
    rw [hc0] at hc
    unfold lookup at hc
    split at hc
    · have := (h3 _ ha32).1.1 hc; omega
    · have := (h3 _ ha32).2.1 hc; omega

theorem tables_null_entries_witness :
    (∃ w1, body [1, 1] ⟨{ rtty_make_decode_ff 1 1 true with
          state := State.LOOKING_FOR_STOP, datapos := 5 }, 1, 31, ['3']⟩ = some w1 ∧
        w1.out = ['3'] ++ ['\x00']) ∧
    (∃ w1 c, body [1, 1] ⟨{ rtty_make_decode_ff 1 1 true with
          state := State.LOOKING_FOR_STOP, datapos := 5 }, 1, 3, []⟩ = some w1 ∧
        w1.out = [] ++ [c] ∧ c ≠ '\x00') :=
  ⟨tables_null_entries.2.2.2.1 [1, 1] ⟨{ rtty_make_decode_ff 1 1 true with
      state := State.LOOKING_FOR_STOP, datapos := 5 }, 1, 31, ['3']⟩ 1 rfl (by decide)
      (by decide) (Or.inr rfl),
   tables_null_entries.2.2.2.2 [1, 1] ⟨{ rtty_make_decode_ff 1 1 true with
      state := State.LOOKING_FOR_STOP, datapos := 5 }, 1, 3, []⟩ 1 rfl (by decide)
      (by decide) (by decide) (by decide) (by decide) (by decide)⟩

/-- C4: a call that returns has written at most `max(0, noutput_items)` bytes; with
`noutput_items ≤ 0` the call returns at once, having written nothing, consumed 0 samples and
left every member as it was. -/
theorem output_capacity (fuel : Nat) (d : rtty_decode_ff) (nout : Int) (input : List ℚ) :
    (∀ r, general_work fuel d nout input = Outcome.done r →
      (r.out.length : Int) ≤ max 0 nout) ∧
    (nout ≤ 0 → general_work fuel d nout input =
      Outcome.done { blk := d, inp := 0, outchar := 0, out := [] }) := by
  constructor
  · intro r h
    exact loop_out_bound input nout fuel (entry d) r h (by simp [entry])
  · intro hn
    have hc : loopCond input nout (entry d) = false := by
      unfold loopCond
      have : ¬ ((entry d).out.length : Int) < nout := by simp [entry]; omega
      simp [this]
    exact loop_exit input nout fuel (entry d) hc

theorem output_capacity_witness :
    ((['A'] : List Char).length : Int) ≤ max 0 1 ∧
    general_work 0 (rtty_make_decode_ff 1 1 true) (-3) [-1, 1, 1] =
      Outcome.done { blk := rtty_make_decode_ff 1 1 true, inp := 0, outchar := 0, out := [] } :=
  ⟨(output_capacity 100 (rtty_make_decode_ff 1 1 true) 1
      [-1, 1, 1, -1, -1, -1, 1, 1, 1, 1, 1, 1, 1, 1, 1, 1]).1
      ⟨{ rtty_make_decode_ff 1 1 true with datapos := 5 }, 6, 0, ['A']⟩ (by decide!),
   (output_capacity 0 (rtty_make_decode_ff 1 1 true) (-3) [-1, 1, 1]).2 (by decide)⟩

/-- C5 (as amended): for `_spb > 0` and a window of at most `2^24 = 16777216` samples, a call
that returns has consumed either nothing, or fewer than
`(n - 8*_spb) + max(1, int(_spb*1.5))` samples; every pass starts with the cursor more than
`8*_spb` before the end of the window, and the last pass may carry it across that boundary
by one advance. -/
theorem consumed_bound (d : rtty_decode_ff) (hspb : 0 < d._spb) (nout : Int)
    (input : List ℚ) (hwin : input.length ≤ 16777216) :
    (∀ fuel r, general_work fuel d nout input = Outcome.done r →
      r.inp = 0 ∨ (r.inp : ℚ) < (input.length : ℚ) - d._spb * 8 +
        ((max 1 (toInt (d._spb * (3 / 2))) : Int) : ℚ)) ∧
    (∀ k w w1, iter input nout k (entry d) = some w →
      iter input nout (k + 1) (entry d) = some w1 →
      (w.inp : ℚ) < (input.length : ℚ) - d._spb * 8) := by
  constructor
  · intro fuel r h
    exact loop_inp_bound input nout hwin fuel (entry d) r (le_of_lt hspb) (le_refl _) h
  · intro k w w1 hk hk1
    rw [iter_add, hk] at hk1
    obtain ⟨hc, _⟩ := iter_succ input nout 0 w w1 hk1
    have hcfg := (iter_config input nout k (entry d) w hk).1
    have hinv := iter_inv input nout k (entry d) w (le_of_lt hspb) (inv_entry d) hk
    have := cond_exact input nout w hwin (by rw [hcfg]; exact le_of_lt hspb) hinv.1 hc
    rw [hcfg] at this
    exact this

theorem consumed_bound_witness :
    (6 : Int) = 0 ∨ (((6 : Int) : ℚ)) <
      (([1, 1, 1, -1, 1, 1, 1, 1, 1, 1, 1, 1, 1, 1, 1, 1, 1, 1, 1, 1] : List ℚ).length : ℚ)
        - (rtty_make_decode_ff 2 1 true)._spb * 8 +
        ((max 1 (toInt ((rtty_make_decode_ff 2 1 true)._spb * (3 / 2))) : Int) : ℚ) :=
  (consumed_bound (rtty_make_decode_ff 2 1 true) (by decide!) 1
    [1, 1, 1, -1, 1, 1, 1, 1, 1, 1, 1, 1, 1, 1, 1, 1, 1, 1, 1, 1] (by decide)).1 10
    ⟨{ rtty_make_decode_ff 2 1 true with state := State.DATA, datapos := 0 }, 6, 0, []⟩
    (by decide!)

/-- C5 as stated fails: with 2 samples per bit and a window of 20 samples whose start edge
is at index 3, the call returns having consumed 6 samples, more than `n - 8*_spb = 4`; its
last pass was the start-edge advance (the state left is `DATA`), and no byte was written. -/
theorem consumed_crosses_boundary :
    ∃ r, general_work 10 (rtty_make_decode_ff 2 1 true) 1
        [1, 1, 1, -1, 1, 1, 1, 1, 1, 1, 1, 1, 1, 1, 1, 1, 1, 1, 1, 1] = Outcome.done r ∧
      r.blk.state = State.DATA ∧ r.out = [] ∧ r.inp = 6 ∧
      ¬ ((r.inp : ℚ) ≤ max 0 ((20 : ℚ) - (rtty_make_decode_ff 2 1 true)._spb * 8)) := by
  refine ⟨⟨{ rtty_make_decode_ff 2 1 true with state := State.DATA, datapos := 0 }, 6, 0, []⟩,
    by decide!, rfl, rfl, rfl, by decide!⟩

/-- C6 (as amended): boundary, for windows of at most `2^24 = 16777216` samples. With
`_spb` a whole number `s ≥ 1`, a window made of `p` mark samples, a space sample at index `p`
and exactly `8*s - 1` further samples, decoded from state `WAITING_FOR_START` with
`noutput_items ≥ 1`, yields no byte, consumes `p` samples and leaves the members (state
`WAITING_FOR_START` included) as they were. -/
theorem boundary_defers (s : Nat) (hs : 1 ≤ s) (d : rtty_decode_ff) (hspb : d._spb = (s : ℚ))
    (hsp : d.space = !d.mark) (hst : d.state = State.WAITING_FOR_START)
    (pre rest : List ℚ) (x : ℚ) (hpre : ∀ y ∈ pre, positive y = d.mark)
    (_hx : positive x = d.space) (hrest : rest.length = 8 * s - 1)
    (hwin : (pre ++ x :: rest).length ≤ 16777216)
    (nout : Int) (hn : 1 ≤ nout) :
    ∃ f0, ∀ f, f0 ≤ f → general_work f d nout (pre ++ x :: rest) =
      Outcome.done { blk := d, inp := (pre.length : Int), outchar := 0, out := [] } := by
  have hlen : (pre ++ x :: rest).length = pre.length + 8 * s := by
    simp [hrest]; omega
  have hgap : ∀ i, i < pre.length →
      (levels d.mark (pre ++ x :: rest))[i]? = some true := by
    intro i hi2
    have : (pre ++ x :: rest)[i]? = some pre[i] := by
      rw [List.getElem?_append_left hi2]
      exact List.getElem?_eq_getElem hi2
    simp only [levels, List.getElem?_map, this, Option.map_some']
    rw [hpre _ (List.getElem_mem _)]
    simp
  have hG : ∀ c : Int, guardAt (pre ++ x :: rest).length d._spb c = true ↔
      c < (pre.length : Int) := by
    intro c
    rw [hspb, guardAt_nat _ s c hwin (by omega), hlen]
    push_cast
    omega
  exact marks_cut d hsp hst (pre ++ x :: rest) nout hn pre.length hG hgap

theorem boundary_defers_witness :
    ∃ f0, ∀ f, f0 ≤ f → general_work f (rtty_make_decode_ff 2 1 false) 3
        ([-1, -1, 0] ++ 5 :: [1, -1, 1, 1, -1, -1, 1, 1, 1, -1, 1, 1, -1, -1, 1]) =
      Outcome.done { blk := rtty_make_decode_ff 2 1 false, inp := 3, outchar := 0, out := [] } :=
  boundary_defers 2 (by decide) (rtty_make_decode_ff 2 1 false) (by decide!) rfl rfl
    [-1, -1, 0] [1, -1, 1, 1, -1, -1, 1, 1, 1, -1, 1, 1, -1, -1, 1] 5 (by decide) (by decide)
    (by decide) (by decide) 3 (by decide)

/-- C6 as stated fails on long windows, where the loop condition is evaluated in `float`:
with one sample per bit, 16777217 mark samples, a space sample and 7 further samples make a
window of 16777225 samples; `float(16777225)` is 16777224, the bound is 16777216, and the
call returns at cursor 16777216, one sample before the start edge at 16777217. -/
theorem boundary_large_window :
    (rtty_make_decode_ff 1 1 true)._spb = 1 ∧
    (∀ y ∈ List.replicate 16777217 (1 : ℚ), positive y = (rtty_make_decode_ff 1 1 true).mark) ∧
    positive (-1) = (rtty_make_decode_ff 1 1 true).space ∧
    (List.replicate 7 (1 : ℚ)).length = 8 * 1 - 1 ∧
    (List.replicate 16777217 (1 : ℚ)).length = 16777217 ∧
    ∃ f0, ∀ f, f0 ≤ f → general_work f (rtty_make_decode_ff 1 1 true) 1
        (List.replicate 16777217 1 ++ (-1) :: List.replicate 7 1) =
      Outcome.done
        { blk := rtty_make_decode_ff 1 1 true, inp := 16777216, outchar := 0, out := [] } := by
  have hlen : (List.replicate 16777217 (1 : ℚ) ++ (-1) :: List.replicate 7 1).length =
      16777225 := by
    rw [List.length_append, List.length_cons, List.length_replicate, List.length_replicate]
  refine ⟨by decide!, ?_, by decide!, List.length_replicate _ _, List.length_replicate _ _, ?_⟩
  · intro y hy
    rw [List.eq_of_mem_replicate hy]
    decide!
  · refine marks_cut (rtty_make_decode_ff 1 1 true) rfl rfl _ 1 (le_refl _) 16777216 ?_ ?_
    · rw [hlen]
      have e : (rtty_make_decode_ff 1 1 true)._spb = 1 := by decide!
      rw [e]
      exact guardAt_threshold 16777225 1 ((16777216 : Nat) : Int) (by decide!) (by decide!)
    · intro i hi
      exact levels_replicate_append _ 16777217 1 (by decide!) _ i (by omega)

/-- C7 fails on the code: the accumulator `outchar` is a local of `general_work`, set to 0 at
every call, while `state` and `datapos` are members. Code 3 (`A`) framed at one sample per
bit is decoded as `A` by a single call over the 16 samples; a first call over the first 10
samples stops in state `DATA` with `datapos = 1` after consuming 2 samples (bit 0 read), and
the second call over the samples from index 2 on then emits code 2 (line feed). -/
theorem resume_midframe_drops_bits :
    general_work 100 (rtty_make_decode_ff 1 1 true) 10
        [-1, 1, 1, -1, -1, -1, 1, 1, 1, 1, 1, 1, 1, 1, 1, 1] =
      Outcome.done ⟨{ rtty_make_decode_ff 1 1 true with datapos := 5 }, 8, 0, ['A']⟩ ∧
    general_work 100 (rtty_make_decode_ff 1 1 true) 10
        ([-1, 1, 1, -1, -1, -1, 1, 1, 1, 1, 1, 1, 1, 1, 1, 1].take 10) =
      Outcome.done ⟨{ rtty_make_decode_ff 1 1 true with state := State.DATA, datapos := 1 },
        2, 1, []⟩ ∧
    general_work 100 { rtty_make_decode_ff 1 1 true with state := State.DATA, datapos := 1 } 10
        ([-1, 1, 1, -1, -1, -1, 1, 1, 1, 1, 1, 1, 1, 1, 1, 1].drop 2) =
      Outcome.done ⟨{ rtty_make_decode_ff 1 1 true with datapos := 5 }, 6, 0, ['\n']⟩ := by
  decide!

/-- C8 (as amended): shift persistence. The table is a member: the variables at the entry of
the next call carry the `charset` the previous call left. If call N (returning after `K`
passes) had a stop-matched pass with code 27 and no later stop-matched pass with code 31, it
leaves `charset = FIGURES`; then in call N+1, provided no stop-matched pass with code 31 has
occurred earlier in that call, a stop-matched pass with a code `c` other than 27 and 31
appends `figures[c]`. -/
theorem shift_persistence (d : rtty_decode_ff) (in1 in2 : List ℚ) (n1 n2 : Int)
    (K i : Nat) (wi r1 : Work)
    (hK : iter in1 n1 K (entry d) = some r1) (hexit : loopCond in1 n1 r1 = false)
    (hi : i < K) (hwi : iter in1 n1 i (entry d) = some wi)
    (h27 : stopMatched in1 wi = true) (hcode : wi.outchar = 27)
    (hno1 : ∀ j, j < K → i < j → ∀ wj ∈ iter in1 n1 j (entry d),
      ¬ (stopMatched in1 wj = true ∧ wj.outchar = 31))
    (k : Nat) (w : Work) (c : Nat)
    (hk : iter in2 n2 k (entry r1.blk) = some w)
    (hno2 : ∀ j, j < k → ∀ wj ∈ iter in2 n2 j (entry r1.blk),
      ¬ (stopMatched in2 wj = true ∧ wj.outchar = 31))
    (hcond : loopCond in2 n2 w = true) (hm : stopMatched in2 w = true)
    (hc : w.outchar = c) (hc27 : c ≠ 27) (hc31 : c ≠ 31) :
    general_work K d n1 in1 = Outcome.done r1 ∧
    r1.blk.charset = Charset.FIGURES ∧
    (entry r1.blk).blk.charset = r1.blk.charset ∧
    ∃ w1 ch, iter in2 n2 (k + 1) (entry r1.blk) = some w1 ∧ body in2 w = some w1 ∧
      w1.out = w.out ++ [ch] ∧ figures[c]? = some ch ∧
      w1.blk.charset = Charset.FIGURES := by
  -- call N leaves FIGURES
  obtain ⟨m, rfl⟩ : ∃ m, K = i + (m + 1) := ⟨K - i - 1, by omega⟩
  have hsplit := iter_add in1 n1 i (m + 1) (entry d)
  rw [hK, hwi] at hsplit
  obtain ⟨hci, wi1, hbi, hrest⟩ := iter_succ in1 n1 m wi r1 hsplit.symm
  obtain ⟨hsti, xi, hxi, hmi⟩ := (stopMatched_iff in1 wi).1 h27
  have hF1 : wi1.blk.charset = Charset.FIGURES := by
    obtain ⟨ci, hci2⟩ := lookup_some (shift wi.blk.charset wi.outchar) wi.outchar (by omega)
    have := body_stop_match in1 wi xi ci hsti hxi hmi hci2
    rw [this] at hbi
    cases hbi
    show shift wi.blk.charset wi.outchar = Charset.FIGURES
    rw [hcode]
    unfold shift
    simp
  have hstep : iter in1 n1 (i + 1) (entry d) = some wi1 := by
    rw [iter_add, hwi]
    simp [iter, hci, hbi]
  have hFr : r1.blk.charset = Charset.FIGURES := by
    refine iter_keeps_figures in1 n1 m wi1 r1 hF1 hrest (fun j hj wj hwj => ?_)
    refine hno1 (i + 1 + j) (by omega) (by omega) wj ?_
    rw [iter_add, hstep]
    exact hwj
  -- call N+1 reads it
  have hFw : w.blk.charset = Charset.FIGURES :=
    iter_keeps_figures in2 n2 k (entry r1.blk) w hFr hk hno2
  obtain ⟨hst, x, hx, hxm⟩ := (stopMatched_iff in2 w).1 hm
  have hacc : w.outchar < 2 ^ accBits w :=
    iter_acc in2 n2 k (entry r1.blk) w (inv_entry r1.blk).2 hk
  have h32 : w.outchar < 32 := by simpa [accBits, hst] using hacc
  obtain ⟨ch, hch⟩ := lookup_some (shift w.blk.charset w.outchar) w.outchar h32
  have hsh : shift w.blk.charset w.outchar = Charset.FIGURES := by
    rw [hFw]; exact shift_figures _ (by omega)
  have hb := body_stop_match in2 w x ch hst hx hxm hch
  refine ⟨loop_of_iter in1 n1 _ (entry d) r1 hK hexit _ (le_refl _), hFr, rfl, _, ch, ?_, hb,
    rfl, ?_, hsh⟩
  · rw [iter_add, hk]
    simp [iter, hcond, hb]
  · rw [hsh] at hch
    subst hc
    simpa [lookup] using hch

theorem shift_persistence_witness :
    general_work 9 (rtty_make_decode_ff 1 1 true) 4
        [-1, 1, 1, -1, 1, 1, 1, 1, 1, 1, 1, 1, 1, 1, 1] =
      Outcome.done ⟨{ rtty_make_decode_ff 1 1 true with
        datapos := 5, charset := Charset.FIGURES }, 7, 0, ['\x00']⟩ ∧
    ∃ w1 ch, iter [-1, -1, -1, -1, -1, 1, 1, 1, 1, 1, 1, 1, 1, 1, 1] 4 (7 + 1)
        (entry { rtty_make_decode_ff 1 1 true with
          datapos := 5, charset := Charset.FIGURES }) = some w1 ∧
      w1.out = [] ++ [ch] ∧ figures[16]? = some ch ∧ ch = '5' := by
  obtain ⟨h1, _, _, w1, ch, h2, _, h3, h4, _⟩ :=
    shift_persistence (rtty_make_decode_ff 1 1 true)
      [-1, 1, 1, -1, 1, 1, 1, 1, 1, 1, 1, 1, 1, 1, 1]
      [-1, -1, -1, -1, -1, 1, 1, 1, 1, 1, 1, 1, 1, 1, 1] 4 4 9 7
      ⟨{ rtty_make_decode_ff 1 1 true with
        state := State.LOOKING_FOR_STOP, datapos := 5 }, 6, 27, []⟩
      ⟨{ rtty_make_decode_ff 1 1 true with
        datapos := 5, charset := Charset.FIGURES }, 7, 0, ['\x00']⟩
      (by decide!) (by decide!) (by decide) (by decide!) (by decide!) rfl (by decide!)
      7 ⟨{ rtty_make_decode_ff 1 1 true with
        state := State.LOOKING_FOR_STOP, datapos := 5, charset := Charset.FIGURES }, 6, 16, []⟩
      16 (by decide!) (by decide!) (by decide!) (by decide!) rfl (by decide) (by decide)
  refine ⟨h1, w1, ch, h2, h3, h4, ?_⟩
  have h5 : figures[16]? = some '5' := by decide
  exact Option.some.inj (h4.symm.trans h5)

/-- C8 as stated fails: call N decodes a frame of code 27 and returns in state
`WAITING_FOR_START` with `charset = FIGURES`. In call N+1 the window holds a frame of code 31
and then a frame of code 16: the frame of code 16 is the first stop-matched frame with a code
other than 27 and 31 (the only earlier stop-matched pass has code 31), and it appends `T`,
which is `letters[16]`, not `figures[16]` (the digit 5). -/
theorem shift_lost_in_next_call :
    general_work 9 (rtty_make_decode_ff 1 1 true) 4
        [-1, 1, 1, -1, 1, 1, 1, 1, 1, 1, 1, 1, 1, 1, 1] =
      Outcome.done ⟨{ rtty_make_decode_ff 1 1 true with
        datapos := 5, charset := Charset.FIGURES }, 7, 0, ['\x00']⟩ ∧
    (∃ w, iter [-1, 1, 1, -1, 1, 1, 1, 1, 1, 1, 1, 1, 1, 1, 1] 4 7
        (entry (rtty_make_decode_ff 1 1 true)) = some w ∧
      stopMatched [-1, 1, 1, -1, 1, 1, 1, 1, 1, 1, 1, 1, 1, 1, 1] w = true ∧ w.outchar = 27) ∧
    (∃ w w1, iter [-1, 1, 1, 1, 1, 1, 1, -1, -1, -1, -1, -1, 1, 1, 1, 1, 1, 1, 1, 1, 1, 1, 1] 4 16
        (entry { rtty_make_decode_ff 1 1 true with
          datapos := 5, charset := Charset.FIGURES }) = some w ∧
      stopMatched [-1, 1, 1, 1, 1, 1, 1, -1, -1, -1, -1, -1, 1, 1, 1, 1, 1, 1, 1, 1, 1, 1, 1] w =
        true ∧
      w.outchar = 16 ∧
      body [-1, 1, 1, 1, 1, 1, 1, -1, -1, -1, -1, -1, 1, 1, 1, 1, 1, 1, 1, 1, 1, 1, 1] w =
        some w1 ∧
      w1.out = w.out ++ ['T']) ∧
    (∀ k, k < 16 → ∀ w ∈ iter
        [-1, 1, 1, 1, 1, 1, 1, -1, -1, -1, -1, -1, 1, 1, 1, 1, 1, 1, 1, 1, 1, 1, 1] 4 k
        (entry { rtty_make_decode_ff 1 1 true with
          datapos := 5, charset := Charset.FIGURES }),
      stopMatched [-1, 1, 1, 1, 1, 1, 1, -1, -1, -1, -1, -1, 1, 1, 1, 1, 1, 1, 1, 1, 1, 1, 1] w =
        true → w.outchar = 31) ∧
    general_work 30 { rtty_make_decode_ff 1 1 true with
        datapos := 5, charset := Charset.FIGURES } 4
        [-1, 1, 1, 1, 1, 1, 1, -1, -1, -1, -1, -1, 1, 1, 1, 1, 1, 1, 1, 1, 1, 1, 1] =
      Outcome.done ⟨{ rtty_make_decode_ff 1 1 true with datapos := 5 }, 15, 0, ['\x00', 'T']⟩ ∧
    letters[16]? = some 'T' ∧ figures[16]? = some '5' := by
  refine ⟨by decide!, ⟨⟨{ rtty_make_decode_ff 1 1 true with
      state := State.LOOKING_FOR_STOP, datapos := 5 }, 6, 27, []⟩, by decide!, by decide!, rfl⟩,
    ⟨⟨{ rtty_make_decode_ff 1 1 true with
        state := State.LOOKING_FOR_STOP, datapos := 5 }, 13, 16, ['\x00']⟩,
      ⟨{ rtty_make_decode_ff 1 1 true with datapos := 5 }, 13, 0, ['\x00', 'T']⟩,
      by decide!, by decide!, rfl, by decide!, rfl⟩, by decide!, by decide!, by decide, by decide⟩

/-- C9: idle stability. For `_spb > 0` and either polarity, a call entered in state
`WAITING_FOR_START` on a window whose samples are all at mark level (the idle line) is in
state `WAITING_FOR_START` with nothing written after every number of passes, and it returns
with the members unchanged and no byte written, whatever `noutput_items` and the window
length. -/
theorem idle_stability (d : rtty_decode_ff) (hspb : 0 < d._spb) (hsp : d.space = !d.mark)
    (hst : d.state = State.WAITING_FOR_START) (input : List ℚ)
    (hidle : ∀ x ∈ input, positive x = d.mark) (nout : Int) :
    (∀ k w, iter input nout k (entry d) = some w →
      w.blk.state = State.WAITING_FOR_START ∧ w.out = []) ∧
    (∃ r f0, (∀ f, f0 ≤ f → general_work f d nout input = Outcome.done r) ∧
      r.blk = d ∧ r.out = []) := by
  constructor
  · intro k w h
    obtain ⟨h1, h2⟩ := iter_idle input nout k (entry d) w hst hsp hidle h
    exact ⟨by rw [h1]; exact hst, by rw [h2]; rfl⟩
  · obtain ⟨r, ⟨f0, hf⟩, ho, hblk, _⟩ := idle_returns input nout input.length (entry d) 0 hst
      (le_of_lt hspb) hsp rfl (by omega)
      (fun i x _ hx => hidle x (List.getElem?_mem hx))
    exact ⟨r, f0, hf, hblk, ho⟩

theorem idle_stability_witness :
    (iter (List.replicate 30 (-1)) 2 5 (entry (rtty_make_decode_ff 2 1 false)) =
      some ⟨rtty_make_decode_ff 2 1 false, 5, 0, []⟩) ∧
    ((⟨rtty_make_decode_ff 2 1 false, 5, 0, []⟩ : Work).blk.state = State.WAITING_FOR_START ∧
      (⟨rtty_make_decode_ff 2 1 false, 5, 0, []⟩ : Work).out = []) ∧
    (∃ r f0, (∀ f, f0 ≤ f → general_work f (rtty_make_decode_ff 2 1 false) 2
        (List.replicate 30 (-1)) = Outcome.done r) ∧
      r.blk = rtty_make_decode_ff 2 1 false ∧ r.out = []) ∧
    general_work 14 (rtty_make_decode_ff 2 1 false) 2 (List.replicate 30 (-1)) =
      Outcome.done ⟨rtty_make_decode_ff 2 1 false, 14, 0, []⟩ :=
  ⟨by decide!,
   (idle_stability (rtty_make_decode_ff 2 1 false) (by decide!) rfl rfl
      (List.replicate 30 (-1)) (by decide!) 2).1 5 ⟨rtty_make_decode_ff 2 1 false, 5, 0, []⟩
      (by decide!),
   (idle_stability (rtty_make_decode_ff 2 1 false) (by decide!) rfl rfl
      (List.replicate 30 (-1)) (by decide!) 2).2,
   by decide!⟩

/-- C10 (as amended): when `_spb ≥ 2/3`, so that the start-edge advance `int(_spb*1.5)` is at
least one sample, the loop exits after finitely many passes for every member state, window
and `noutput_items`, and no pass moves the cursor backwards. -/
theorem loop_terminates (d : rtty_decode_ff) (hspb : 2 / 3 ≤ d._spb) (nout : Int)
    (input : List ℚ) :
    (∃ r f0, ∀ f, f0 ≤ f → general_work f d nout input = Outcome.done r) ∧
    (∀ w w1, w.blk._spb = d._spb → body input w = some w1 → w.inp ≤ w1.inp) := by
  constructor
  · obtain ⟨r, hr⟩ := loop_terminates_aux input nout (passBound input (entry d)) (entry d)
      hspb (inv_entry d) (le_refl _)
    exact ⟨r, _, hr⟩
  · intro w w1 hw hb
    exact (body_advance_le input w w1 (by rw [hw]; linarith) hb).1

theorem loop_terminates_witness :
    (∃ r f0, ∀ f, f0 ≤ f → general_work f
        { rtty_make_decode_ff 2 3 false with state := State.DATA, datapos := 3 } 5
        [1, -1, -1, 1, -1, 1, 1, -1, -1, -1, 1, 1] = Outcome.done r) ∧
    (∀ w w1, w.blk._spb =
        ({ rtty_make_decode_ff 2 3 false with state := State.DATA, datapos := 3 } :
          rtty_decode_ff)._spb →
      body [1, -1, -1, 1, -1, 1, 1, -1, -1, -1, 1, 1] w = some w1 → w.inp ≤ w1.inp) :=
  loop_terminates { rtty_make_decode_ff 2 3 false with state := State.DATA, datapos := 3 }
    (by decide!) 5 [1, -1, -1, 1, -1, 1, 1, -1, -1, -1, 1, 1]

/-- C10 as stated fails: with `sample_rate = 1` and `baud_rate = 2` (half a sample per bit)
both advances `int(_spb*1.5)` and `int(_spb)` are 0, and on a window of five space samples
the loop goes round start edge, five data bits and failed stop test at cursor 0 for ever: no
amount of fuel makes the call return. -/
theorem loop_never_exits :
    ¬ ∃ fuel r, general_work fuel (rtty_make_decode_ff 1 2 true) 1 [-1, -1, -1, -1, -1] =
      Outcome.done r := by
  have key : ∀ w ∈ (List.range 9).filterMap
        (fun k => iter [-1, -1, -1, -1, -1] 1 k (entry (rtty_make_decode_ff 1 2 true))),
      loopCond [-1, -1, -1, -1, -1] 1 w = true ∧
      ∃ w1 ∈ (List.range 9).filterMap
        (fun k => iter [-1, -1, -1, -1, -1] 1 k (entry (rtty_make_decode_ff 1 2 true))),
        body [-1, -1, -1, -1, -1] w = some w1 := by
    decide!
  have hmem : entry (rtty_make_decode_ff 1 2 true) ∈ (List.range 9).filterMap
      (fun k => iter [-1, -1, -1, -1, -1] 1 k (entry (rtty_make_decode_ff 1 2 true))) := by
    decide!
  have hall : ∀ f, ∀ w ∈ (List.range 9).filterMap
        (fun k => iter [-1, -1, -1, -1, -1] 1 k (entry (rtty_make_decode_ff 1 2 true))),
      loop [-1, -1, -1, -1, -1] 1 f w = Outcome.timeout := by
    intro f
    induction f with
    | zero =>
      intro w hw
      simp [loop, (key w hw).1]
    | succ f ih =>
      intro w hw
      obtain ⟨hc, w1, hw1, hb⟩ := key w hw
      rw [loop_pass _ _ f w w1 hc hb]
      exact ih w1 hw1
  rintro ⟨fuel, r, h⟩
  have := hall fuel _ hmem
  unfold general_work at h
  rw [this] at h
  exact Outcome.noConfusion h

theorem fl_neg (p : Nat) (x : ℚ) : fl p (-x) = - fl p x := by
  rcases lt_trichotomy x 0 with hx | hx | hx
  · rw [fl_of_pos p (-x) (by linarith), fl_of_neg p x hx, neg_neg]
  · subst hx
    simp [fl_zero]
  · rw [fl_of_neg p (-x) (by linarith), fl_of_pos p x hx, neg_neg]

theorem new_decoder_error_iff (base : BaseCalls) (rate baud : ℚ) (polarity : Bool) :
    new_decoder base rate baud polarity = Except.error ErrorKind.InvalidConfig ↔
      (base.init = false ∨
        base.set_relative_rate (fl64 (fl32 (fl32 baud / fl32 rate) / fl64 (742 / 100))) = false ∨
        base.set_history (fl32 (fl32 (fl32 rate / fl32 baud) * 8)) = false ∨
        base.set_output_multiple 10 = false) := by
  unfold new_decoder
  show (if (base.init &&
      base.set_relative_rate (fl64 (fl32 (fl32 baud / fl32 rate) / fl64 (742 / 100))) &&
      base.set_history (fl32 (fl32 (fl32 rate / fl32 baud) * 8)) &&
      base.set_output_multiple 10) = true then _ else _) = _ ↔ _
  cases base.init <;>
    cases base.set_relative_rate (fl64 (fl32 (fl32 baud / fl32 rate) / fl64 (742 / 100))) <;>
    cases base.set_history (fl32 (fl32 (fl32 rate / fl32 baud) * 8)) <;>
    cases base.set_output_multiple 10 <;> simp

/-- C11 (as amended): for nonzero `rate` and `baud`, construction fails exactly when one of
the calls the constructor makes into the base class throws: the base constructor,
`set_relative_rate((baud/rate) / 7.42)`, `set_history(_spb * 8)` or
`set_output_multiple(10)`. Neither `rtty_make_decode_ff` nor the constructor tests `rate` or
`baud`: the base class receives the same arguments for `(-rate, -baud)` as for
`(rate, baud)`, so the two constructions fail together. Whenever construction succeeds, the
decoder is in state `WAITING_FOR_START` with `charset = LETTERS`, `mark = polarity` and
`space = !polarity`. -/
theorem construction_outcome (base : BaseCalls) (rate baud : ℚ) (_hr : rate ≠ 0)
    (_hb : baud ≠ 0) (polarity : Bool) :
    (new_decoder base rate baud polarity = Except.error ErrorKind.InvalidConfig ↔
      (base.init = false ∨
        base.set_relative_rate (fl64 (fl32 (fl32 baud / fl32 rate) / fl64 (742 / 100))) = false ∨
        base.set_history (fl32 (fl32 (fl32 rate / fl32 baud) * 8)) = false ∨
        base.set_output_multiple 10 = false)) ∧
    (new_decoder base (-rate) (-baud) polarity = Except.error ErrorKind.InvalidConfig ↔
      new_decoder base rate baud polarity = Except.error ErrorKind.InvalidConfig) ∧
    (new_decoder base rate baud polarity = Except.error ErrorKind.InvalidConfig ∨
      new_decoder base rate baud polarity = Except.ok (rtty_make_decode_ff rate baud polarity)) ∧
    (∀ d, new_decoder base rate baud polarity = Except.ok d →
      d.state = State.WAITING_FOR_START ∧ d.charset = Charset.LETTERS ∧
      d.mark = polarity ∧ d.space = !polarity) := by
  refine ⟨new_decoder_error_iff base rate baud polarity, ?_, ?_, ?_⟩
  · rw [new_decoder_error_iff, new_decoder_error_iff]
    have e1 : fl32 (-baud) / fl32 (-rate) = fl32 baud / fl32 rate := by
      unfold fl32
      rw [fl_neg, fl_neg, neg_div_neg_eq]
    have e2 : fl32 (-rate) / fl32 (-baud) = fl32 rate / fl32 baud := by
      unfold fl32
      rw [fl_neg, fl_neg, neg_div_neg_eq]
    rw [e1, e2]
  · unfold new_decoder
    split
    · right; rfl
    · left; rfl
  · intro d hd
    unfold new_decoder at hd
    split at hd
    · have : rtty_make_decode_ff rate baud polarity = d := by
        injection hd
      subst this
      cases polarity <;> exact ⟨rfl, rfl, rfl, rfl⟩
    · exact absurd hd (by intro h; cases h)

theorem construction_outcome_witness :
    (new_decoder ⟨true, fun x => decide (0 ≤ x), fun _ => true, fun _ => true⟩ 1 (-1) true =
      Except.error ErrorKind.InvalidConfig) ∧
    ((rtty_make_decode_ff 8000 (909 / 20) false).state = State.WAITING_FOR_START ∧
      (rtty_make_decode_ff 8000 (909 / 20) false).charset = Charset.LETTERS ∧
      (rtty_make_decode_ff 8000 (909 / 20) false).mark = false ∧
      (rtty_make_decode_ff 8000 (909 / 20) false).space = !false) :=
  ⟨(construction_outcome ⟨true, fun x => decide (0 ≤ x), fun _ => true, fun _ => true⟩ 1 (-1)
      (by decide) (by decide) true).1.2 (Or.inr (Or.inl (by decide!))),
   (construction_outcome ⟨true, fun x => decide (0 ≤ x), fun _ => true, fun _ => true⟩ 8000
      (909 / 20) (by decide!) (by decide!) false).2.2.2 _ (by
        unfold new_decoder
        rw [if_pos (by decide!)])⟩

/-- C11 as stated fails whatever the base class does: for `rate = baud = -1` the claim
demands `InvalidConfig` and for `rate = baud = 1` it demands a decoder, but the constructor
tests neither argument and hands the base class the same values in both cases (relative
rate `1 / 7.42`, history `8`, output multiple `10`), so both constructions fail or both
succeed. -/
theorem construction_ignores_sign :
    ¬ ∃ base : BaseCalls,
      (new_decoder base (-1) (-1) true = Except.error ErrorKind.InvalidConfig ↔
        ((-1 : ℚ) ≤ 0 ∨ (-1 : ℚ) ≤ 0)) ∧
      (new_decoder base 1 1 true = Except.error ErrorKind.InvalidConfig ↔
        ((1 : ℚ) ≤ 0 ∨ (1 : ℚ) ≤ 0)) := by
  rintro ⟨base, h1, h2⟩
  have hneg : new_decoder base (-1) (-1) true = Except.error ErrorKind.InvalidConfig :=
    h1.2 (Or.inl (by norm_num))
  have hpos : ¬ new_decoder base 1 1 true = Except.error ErrorKind.InvalidConfig := by
    intro h
    rcases h2.1 h with h | h <;> norm_num at h
  rw [new_decoder_error_iff] at hneg hpos
  have e1 : fl64 (fl32 (fl32 (-1) / fl32 (-1)) / fl64 (742 / 100)) =
      fl64 (fl32 (fl32 1 / fl32 1) / fl64 (742 / 100)) := by decide!
  have e2 : fl32 (fl32 (fl32 (-1) / fl32 (-1)) * 8) = fl32 (fl32 (fl32 1 / fl32 1) * 8) := by
    decide!
  rw [e1, e2] at hneg
  exact hpos hneg

theorem forecastValue_nonneg (d : rtty_decode_ff) (hr : 0 < d._rate) (hb : 0 < d._baud)
    (n : Int) (hn : 0 ≤ n) : 0 ≤ forecastValue d n := by
  unfold forecastValue
  have h1 : 0 < fl32 (d._baud / d._rate) := fl_pos 24 (by decide) _ (div_pos hb hr)
  have h2 : (0 : ℚ) < fl64 (742 / 100) := fl_pos 53 (by decide) _ (by norm_num)
  have h3 : 0 < fl64 (fl32 (d._baud / d._rate) / fl64 (742 / 100)) :=
    fl_pos 53 (by decide) _ (div_pos h1 h2)
  have h4 : (0 : ℚ) ≤ (n : ℚ) / fl64 (fl32 (d._baud / d._rate) / fl64 (742 / 100)) :=
    div_nonneg (by exact_mod_cast hn) (le_of_lt h3)
  have := fl_mono 53 (by decide) _ _ h4
  rwa [fl_zero] at this

theorem forecastValue_mono (d : rtty_decode_ff) (hr : 0 < d._rate) (hb : 0 < d._baud)
    (n m : Int) (hnm : n ≤ m) : forecastValue d n ≤ forecastValue d m := by
  unfold forecastValue
  have h1 : 0 < fl32 (d._baud / d._rate) := fl_pos 24 (by decide) _ (div_pos hb hr)
  have h2 : (0 : ℚ) < fl64 (742 / 100) := fl_pos 53 (by decide) _ (by norm_num)
  have h3 : 0 < fl64 (fl32 (d._baud / d._rate) / fl64 (742 / 100)) :=
    fl_pos 53 (by decide) _ (div_pos h1 h2)
  exact fl_mono 53 (by decide) _ _
    (div_le_div_of_nonneg_right (by exact_mod_cast hnm) (le_of_lt h3))

/-- C12 (as amended): for positive `_rate` and `_baud`, `forecast` stores the `double` value
of `noutput_items / ((_baud/_rate) / 7.42)` (a `float` quotient, then two `double`
divisions by the rounded literal) truncated toward zero, whenever that fits a 32-bit `int`.
The stored value is at most the exact quotient `n * 7.42 * _rate / _baud` enlarged by the
relative error `2^-22` and more than that quotient reduced by `2^-22`, minus one. It is 0 for
`noutput_items = 0`, never negative for `noutput_items ≥ 0`, and non-decreasing: when the
result for `m` fits, so does the result for every `0 ≤ n ≤ m`, and it is not larger. -/
theorem forecast_formula (d : rtty_decode_ff) (hr : 0 < d._rate) (hb : 0 < d._baud) :
    forecast d 0 = some 0 ∧
    (∀ n r, 0 ≤ n → forecast d n = some r →
      r = ⌊fl64 ((n : ℚ) / fl64 (fl32 (d._baud / d._rate) / fl64 (742 / 100)))⌋ ∧ 0 ≤ r ∧
        r < 2147483648 ∧
        (n : ℚ) * (742 / 100) * d._rate / d._baud * (1 - 1 / 4194304) - 1 < (r : ℚ) ∧
        (r : ℚ) ≤ (n : ℚ) * (742 / 100) * d._rate / d._baud * (1 + 1 / 4194304)) ∧
    (∀ n m r, 0 ≤ n → n ≤ m → forecast d m = some r →
      ∃ r0, forecast d n = some r0 ∧ r0 ≤ r) := by
  have hsome : ∀ n r, forecast d n = some r →
      forecastValue d n < 2147483648 ∧ r = toInt (forecastValue d n) := by
    intro n r h
    unfold forecast at h
    split at h
    next hc => exact ⟨hc.2, (Option.some.inj h).symm⟩
    next => exact absurd h (by intro h; cases h)
  have hdef : ∀ n, 0 ≤ n → forecastValue d n < 2147483648 →
      forecast d n = some (toInt (forecastValue d n)) := by
    intro n hn hlt
    unfold forecast
    rw [if_pos ⟨by have := forecastValue_nonneg d hr hb n hn; linarith, hlt⟩]
  refine ⟨?_, ?_, ?_⟩
  · have h0 : forecastValue d 0 = 0 := by
      unfold forecastValue fl64
      simp [fl_zero]
    unfold forecast
    rw [h0, if_pos (by norm_num)]
    simp [toInt]
  · intro n r hn h
    obtain ⟨hlt, hr2⟩ := hsome n r h
    have h0 := forecastValue_nonneg d hr hb n hn
    obtain ⟨e1, e2⟩ := forecastValue_err d hr hb n hn
    have hfl : r = ⌊forecastValue d n⌋ := by rw [hr2, toInt_eq_floor _ h0]
    have f1 := Int.floor_le (forecastValue d n)
    have f2 := Int.lt_floor_add_one (forecastValue d n)
    rw [← hfl] at f1 f2
    refine ⟨hfl, ?_, ?_, by linarith, by linarith⟩
    · rw [hr2]; exact toInt_nonneg _ h0
    · rw [hr2, toInt_eq_floor _ h0, Int.floor_lt]
      exact_mod_cast hlt
  · intro n m r hn hnm h
    obtain ⟨hlt, hr2⟩ := hsome m r h
    have hmono := forecastValue_mono d hr hb n m hnm
    have h0 := forecastValue_nonneg d hr hb n hn
    refine ⟨_, hdef n hn (lt_of_le_of_lt hmono hlt), ?_⟩
    rw [hr2]
    exact toInt_mono _ _ h0 hmono

theorem forecast_formula_witness :
    (forecast (rtty_make_decode_ff 8000 (909 / 20) true) 0 = some 0) ∧
    ((1306 : Int) = ⌊fl64 (((1 : Int) : ℚ) /
        fl64 (fl32 ((rtty_make_decode_ff 8000 (909 / 20) true)._baud /
          (rtty_make_decode_ff 8000 (909 / 20) true)._rate) / fl64 (742 / 100)))⌋ ∧
      (0 : Int) ≤ 1306 ∧ (1306 : Int) < 2147483648 ∧
      (((1 : Int) : ℚ) * (742 / 100) * (rtty_make_decode_ff 8000 (909 / 20) true)._rate /
        (rtty_make_decode_ff 8000 (909 / 20) true)._baud * (1 - 1 / 4194304) - 1 <
          ((1306 : Int) : ℚ)) ∧
      (((1306 : Int) : ℚ) ≤ ((1 : Int) : ℚ) * (742 / 100) *
        (rtty_make_decode_ff 8000 (909 / 20) true)._rate /
        (rtty_make_decode_ff 8000 (909 / 20) true)._baud * (1 + 1 / 4194304))) ∧
    (∃ r0, forecast (rtty_make_decode_ff 8000 (909 / 20) true) 1 = some r0 ∧ r0 ≤ 13060) :=
  ⟨(forecast_formula (rtty_make_decode_ff 8000 (909 / 20) true) (by decide!) (by decide!)).1,
   (forecast_formula (rtty_make_decode_ff 8000 (909 / 20) true) (by decide!) (by decide!)).2.1
      1 1306 (by decide) (by decide!),
   (forecast_formula (rtty_make_decode_ff 8000 (909 / 20) true) (by decide!) (by decide!)).2.2
      1 10 13060 (by decide) (by decide) (by decide!)⟩

/-- C12 as stated fails: for `sample_rate = 9`, `baud_rate = 7` and 50 output items the exact
value `50 * 7.42 * 9 / 7` is 477, but the `float` quotient `7/9` and the `double` literal
`7.42` are rounded and `forecast` stores 476; and for `sample_rate = 8000`,
`baud_rate = 45.45` the value for 2000000 items does not fit a 32-bit `int`. -/
theorem forecast_not_exact :
    forecast (rtty_make_decode_ff 9 7 true) 50 = some 476 ∧
    toInt ((50 : ℚ) / ((7 / 9) / (742 / 100))) = 477 ∧
    toInt ((50 : ℚ) * (742 / 100) * 9 / 7) = 477 ∧
    forecast (rtty_make_decode_ff 8000 (909 / 20) true) 2000000 = none := by
  refine ⟨by decide!, by decide!, by decide!, by decide!⟩

/-- C13: truncation fidelity. With `sample_rate = 8000` and `baud_rate = 45.45` the data-bit
advance `int(_spb)` is 176 and the start-edge advance `int(_spb*1.5)` is 264, also for any
`_spb` within `[176, 176.02)` of that quotient; a data-bit pass and a start-edge pass move the
cursor by exactly these amounts. For every `_spb ≥ 0` the two advances are the floors of
`_spb` and of `1.5 * _spb`, and differ from the rounded value whenever the fractional part is
at least one half. -/
theorem truncation_fidelity :
    (∀ polarity, toInt (rtty_make_decode_ff 8000 (909 / 20) polarity)._spb = 176 ∧
      toInt ((rtty_make_decode_ff 8000 (909 / 20) polarity)._spb * (3 / 2)) = 264) ∧
    ((8000 : ℚ) / (909 / 20) < 176 + 1 / 50 ∧ ⌊(8000 : ℚ) / (909 / 20)⌋ = 176 ∧
      ⌊(3 / 2 : ℚ) * (8000 / (909 / 20))⌋ = 264) ∧
    (∀ x : ℚ, 176 ≤ x → x < 176 + 1 / 50 → toInt x = 176 ∧ toInt (x * (3 / 2)) = 264) ∧
    (∀ x : ℚ, 0 ≤ x → toInt x = ⌊x⌋ ∧ toInt (x * (3 / 2)) = ⌊x * (3 / 2)⌋) ∧
    (∀ x : ℚ, 0 ≤ x → 1 / 2 ≤ Int.fract x → toInt x ≠ round x) ∧
    (∀ (input : List ℚ) (w w1 : Work), 0 ≤ w.blk._spb → body input w = some w1 →
      (w.blk.state = State.DATA → w.blk.datapos ≤ 4 → w1.inp = w.inp + ⌊w.blk._spb⌋) ∧
      (w.blk.state = State.WAITING_FOR_START → w1.blk.state = State.DATA →
        w1.inp = w.inp + ⌊w.blk._spb * (3 / 2)⌋)) := by
  have hrange : ∀ x : ℚ, 176 ≤ x → x < 176 + 1 / 50 →
      toInt x = 176 ∧ toInt (x * (3 / 2)) = 264 := by
    intro x h1 h2
    constructor
    · rw [toInt_eq_floor _ (by linarith), Int.floor_eq_iff]
      constructor <;> push_cast <;> linarith
    · rw [toInt_eq_floor _ (by linarith), Int.floor_eq_iff]
      constructor <;> push_cast <;> linarith
  have hq : (8000 : ℚ) / (909 / 20) = 160000 / 909 := by norm_num
  have hlo : (176 : ℚ) ≤ 8000 / (909 / 20) := by rw [hq]; norm_num
  have hhi : (8000 : ℚ) / (909 / 20) < 176 + 1 / 50 := by rw [hq]; norm_num
  refine ⟨?_, ⟨hhi, ?_, ?_⟩, hrange, ?_, ?_, ?_⟩
  · intro polarity
    have hs1 : (176 : ℚ) ≤ fl32 (fl32 8000 / fl32 (909 / 20)) := by decide!
    have hs2 : fl32 (fl32 8000 / fl32 (909 / 20)) < 176 + 1 / 50 := by decide!
    exact hrange _ hs1 hs2
  · rw [← toInt_eq_floor _ (by linarith)]
    exact (hrange _ hlo hhi).1
  · rw [mul_comm, ← toInt_eq_floor _ (by linarith)]
    exact (hrange _ hlo hhi).2
  · intro x hx
    exact ⟨toInt_eq_floor x hx, toInt_eq_floor _ (by linarith)⟩
  · intro x hx hfr
    rw [toInt_eq_floor x hx, round_eq]
    intro h
    have h1 : (⌊x⌋ : ℚ) + 1 ≤ x + 1 / 2 := by
      have := Int.self_sub_floor x
      linarith
    have h2 : ⌊x⌋ + 1 ≤ ⌊x + 1 / 2⌋ := Int.le_floor.2 (by push_cast; exact h1)
    omega
  · intro input w w1 hspb hb
    constructor
    · intro hst hpos
      rcases body_cases input w w1 hb with ⟨h1, _⟩ | ⟨h1, _⟩ | ⟨_, h2, _⟩ |
        ⟨_, _, _, _, rfl⟩ | ⟨h1, _⟩ | ⟨h1, _⟩
      · rw [hst] at h1; exact State.noConfusion h1
      · rw [hst] at h1; exact State.noConfusion h1
      · omega
      · show w.inp + toInt w.blk._spb = _
        rw [toInt_eq_floor _ hspb]
      · rw [hst] at h1; exact State.noConfusion h1
      · rw [hst] at h1; exact State.noConfusion h1
    · intro hst hst1
      rcases body_cases input w w1 hb with ⟨_, _, _, _, rfl⟩ | ⟨_, _, _, _, rfl⟩ | ⟨h1, _⟩ |
        ⟨h1, _⟩ | ⟨h1, _⟩ | ⟨h1, _⟩
      · rw [hst] at hst1; exact State.noConfusion hst1
      · show w.inp + toInt (w.blk._spb * (3 / 2)) = _
        rw [toInt_eq_floor _ (by linarith)]
      · rw [hst] at h1; exact State.noConfusion h1
      · rw [hst] at h1; exact State.noConfusion h1
      · rw [hst] at h1; exact State.noConfusion h1
      · rw [hst] at h1; exact State.noConfusion h1

theorem truncation_fidelity_witness :
    (toInt (17601 / 100) = 176 ∧ toInt ((17601 / 100 : ℚ) * (3 / 2)) = 264) ∧
    toInt (5 / 2) ≠ round (5 / 2 : ℚ) ∧
    ((⟨{ rtty_make_decode_ff 8000 (909 / 20) true with datapos := 3, state := State.DATA },
        176, 4, []⟩ : Work).inp =
      0 + ⌊(rtty_make_decode_ff 8000 (909 / 20) true)._spb⌋) ∧
    ((⟨{ rtty_make_decode_ff 8000 (909 / 20) true with state := State.DATA }, 264, 0, []⟩ :
        Work).inp = 0 + ⌊(rtty_make_decode_ff 8000 (909 / 20) true)._spb * (3 / 2)⌋) :=
  ⟨truncation_fidelity.2.2.1 (17601 / 100) (by decide!) (by decide!),
   truncation_fidelity.2.2.2.2.1 (5 / 2) (by decide!) (by decide!),
   (truncation_fidelity.2.2.2.2.2 [1]
      ⟨{ rtty_make_decode_ff 8000 (909 / 20) true with datapos := 2, state := State.DATA },
        0, 0, []⟩
      ⟨{ rtty_make_decode_ff 8000 (909 / 20) true with datapos := 3, state := State.DATA },
        176, 4, []⟩ (by decide!) (by decide!)).1 rfl (by decide),
   (truncation_fidelity.2.2.2.2.2 [-1]
      ⟨rtty_make_decode_ff 8000 (909 / 20) true, 0, 0, []⟩
      ⟨{ rtty_make_decode_ff 8000 (909 / 20) true with state := State.DATA }, 264, 0, []⟩
      (by decide!) (by decide!)).2 rfl rfl⟩

/-- After the start edge, the `j`-th data-bit pass is entered at cursor `base + j*b` with
`datapos = j` and the bits read so far in `outchar`. -/
theorem iter_data_bits (input : List ℚ) (nout : Int) (w1 : Work) (base b : Int)
    (hst : w1.blk.state = State.DATA) (hpos : w1.blk.datapos = 0) (hinp : w1.inp = base)
    (hacc : w1.outchar = 0) (hspb : 0 ≤ w1.blk._spb) (hb : b = toInt w1.blk._spb)
    (h0 : 0 ≤ base) (hout : (w1.out.length : Int) < nout)
    (hwin : guardAt input.length w1.blk._spb (base + 5 * b) = true) :
    ∀ j, j ≤ 5 → iter input nout j w1 = some
      { blk := { w1.blk with datapos := j }
        inp := base + (j : Int) * b
        outchar := sampledCode input w1.blk.mark base b j
        out := w1.out } := by
  have hb0 : 0 ≤ b := by rw [hb]; exact toInt_nonneg _ hspb
  intro j
  induction j with
  | zero =>
    intro _
    simp only [iter, sampledCode, Nat.cast_zero, zero_mul, add_zero]
    congr 1
    cases w1 with
    | mk blk inp outchar out =>
      cases blk
      simp_all
  | succ j ih =>
    intro hj
    have hprev := ih (by omega)
    have hjb : (j : Int) * b ≤ 5 * b := Int.mul_le_mul_of_nonneg_right (by omega) hb0
    have hjb0 : 0 ≤ (j : Int) * b := Int.mul_nonneg (by omega) hb0
    have hc : loopCond input nout
        { blk := { w1.blk with datapos := j }
          inp := base + (j : Int) * b
          outchar := sampledCode input w1.blk.mark base b j
          out := w1.out } = true :=
      cond_of_le input nout _ (base + 5 * b) hout (by show base + (j : Int) * b ≤ _; omega) hwin
    obtain ⟨x, hx⟩ := read_of_le input (base + (j : Int) * b) (base + 5 * b) w1.blk._spb hspb
      (by omega) (by omega) hwin
    have hbody := body_data_bit input
        { blk := { w1.blk with datapos := j }
          inp := base + (j : Int) * b
          outchar := sampledCode input w1.blk.mark base b j
          out := w1.out } x hst (by show j ≤ 4; omega) hx
    rw [iter_snoc input nout j w1 _ _ hprev hc hbody]
    congr 1
    simp only [sampledCode, markAt_read input w1.blk.mark _ x hx, Nat.one_shiftLeft,
      decide_eq_true_eq]
    have hcast : base + ((j + 1 : Nat) : Int) * b = base + (j : Int) * b + toInt w1.blk._spb := by
      rw [← hb]; push_cast; ring
    rw [hcast]
    by_cases hm : positive x = w1.blk.mark <;> simp [hm]

/-- C14 (as amended): sampling positions of one frame. For `_spb > 0`, let a call have
reached state `WAITING_FOR_START` with the cursor at `p` on a space-level sample, with output
capacity left, and let the loop condition, as the code evaluates it in `float`, hold at
cursor `p + a + 5*b`, where `a = int(_spb*1.5)` and `b = int(_spb)` are the floors. Then pass `1 + j` (`j = 0..4`) reads data bit `j` at offset `p + a + j*b`, the
accumulated code is the sum of `2^j` over the mark-level samples, pass 8 makes the stop test
at offset `p + a + 5*b` with no further advance, appends the mapped byte exactly when that
sample is at mark level, and leaves state `WAITING_FOR_START` with the cursor still at
`p + a + 5*b`. -/
theorem frame_sampling (d : rtty_decode_ff) (hspb : 0 < d._spb) (input : List ℚ) (nout : Int)
    (k0 : Nat) (w : Work) (hreach : iter input nout k0 (entry d) = some w)
    (hst : w.blk.state = State.WAITING_FOR_START)
    (x0 : ℚ) (hread : readSample input w.inp = some x0) (hx0 : positive x0 = w.blk.space)
    (a b : Int) (ha : a = toInt (d._spb * (3 / 2))) (hb : b = toInt d._spb)
    (hwin : guardAt input.length d._spb (w.inp + a + 5 * b) = true)
    (hout : (w.out.length : Int) < nout) :
    (a = ⌊d._spb * (3 / 2)⌋ ∧ b = ⌊d._spb⌋) ∧
    (∀ j : Nat, j ≤ 5 → iter input nout (1 + j) w = some
      { blk := { w.blk with state := State.DATA, datapos := j }
        inp := w.inp + a + (j : Int) * b
        outchar := sampledCode input w.blk.mark (w.inp + a) b j
        out := w.out }) ∧
    (∀ j : Nat, j ≤ 5 → ∃ x, readSample input (w.inp + a + (j : Int) * b) = some x) ∧
    iter input nout 7 w = some
      { blk := { w.blk with state := State.LOOKING_FOR_STOP, datapos := 5 }
        inp := w.inp + a + 5 * b
        outchar := sampledCode input w.blk.mark (w.inp + a) b 5
        out := w.out } ∧
    ∃ y w8, readSample input (w.inp + a + 5 * b) = some y ∧
      iter input nout 8 w = some w8 ∧
      w8.blk.state = State.WAITING_FOR_START ∧ w8.inp = w.inp + a + 5 * b ∧ w8.outchar = 0 ∧
      (positive y = w.blk.mark → ∃ ch,
        lookup (shift w.blk.charset (sampledCode input w.blk.mark (w.inp + a) b 5))
          (sampledCode input w.blk.mark (w.inp + a) b 5) = some ch ∧
        w8.out = w.out ++ [ch]) ∧
      (positive y ≠ w.blk.mark → w8.out = w.out) := by
  have hcfg : w.blk._spb = d._spb := (iter_config input nout k0 (entry d) w hreach).1
  have hspb0 : 0 ≤ d._spb := le_of_lt hspb
  have hinv := iter_inv input nout k0 (entry d) w hspb0 (inv_entry d) hreach
  have hp0 : 0 ≤ w.inp := hinv.1
  have hacc0 : w.outchar = 0 := by
    have := hinv.2
    simp only [accBits, hst, pow_zero] at this
    omega
  have ha0 : 0 ≤ a := by rw [ha]; exact toInt_nonneg _ (by linarith)
  have hb0 : 0 ≤ b := by rw [hb]; exact toInt_nonneg _ hspb0
  have hwinw : guardAt input.length w.blk._spb (w.inp + a + 5 * b) = true := by
    rw [hcfg]; exact hwin
  -- pass 1: the start edge
  have hc1 : loopCond input nout w = true :=
    cond_of_le input nout w (w.inp + a + 5 * b) hout (by omega) hwinw
  have hb1 := body_wait_start input w x0 hst hread hx0
  have h1 : iter input nout 1 w = some { w with
      blk := { w.blk with state := State.DATA, datapos := 0 }
      inp := w.inp + toInt (w.blk._spb * (3 / 2)) } :=
    iter_snoc input nout 0 w w _ rfl hc1 hb1
  -- passes 2..6: the data bits
  have hbits := iter_data_bits input nout { w with
      blk := { w.blk with state := State.DATA, datapos := 0 }
      inp := w.inp + toInt (w.blk._spb * (3 / 2)) } (w.inp + a) b rfl rfl
    (by show w.inp + toInt (w.blk._spb * (3 / 2)) = w.inp + a; rw [hcfg, ha])
    hacc0 (by show 0 ≤ w.blk._spb; rw [hcfg]; exact hspb0)
    (by show b = toInt w.blk._spb; rw [hcfg]; exact hb)
    (by omega) hout hwinw
  have hdata : ∀ j : Nat, j ≤ 5 → iter input nout (1 + j) w = some
      { blk := { w.blk with state := State.DATA, datapos := j }
        inp := w.inp + a + (j : Int) * b
        outchar := sampledCode input w.blk.mark (w.inp + a) b j
        out := w.out } := by
    intro j hj
    rw [iter_add, h1]
    exact hbits j hj
  have hreads : ∀ j : Nat, j ≤ 5 →
      ∃ x, readSample input (w.inp + a + (j : Int) * b) = some x := by
    intro j hj
    have hjb : (j : Int) * b ≤ 5 * b := Int.mul_le_mul_of_nonneg_right (by exact_mod_cast hj) hb0
    have hjb0 : 0 ≤ (j : Int) * b := Int.mul_nonneg (Int.ofNat_nonneg j) hb0
    exact read_of_le input _ (w.inp + a + 5 * b) d._spb hspb0 (by omega) (by omega) hwin
  -- pass 7: the end of the data bits
  have h6 := hdata 5 (le_refl _)
  have hc6 : ∀ W : Work, W.blk._spb = w.blk._spb → W.out = w.out →
      W.inp = w.inp + a + 5 * b → loopCond input nout W = true := by
    intro W e1 e2 e3
    exact cond_of_le input nout W (w.inp + a + 5 * b) (by rw [e2]; exact hout)
      (by rw [e3]) (by rw [e1]; exact hwinw)
  have h7 : iter input nout 7 w = some
      { blk := { w.blk with state := State.LOOKING_FOR_STOP, datapos := 5 }
        inp := w.inp + a + 5 * b
        outchar := sampledCode input w.blk.mark (w.inp + a) b 5
        out := w.out } :=
    iter_snoc input nout 6 w _ _ h6 (hc6 _ rfl rfl (by simp))
      (body_data_end input _ rfl (by show 4 < 5; decide))
  -- pass 8: the stop test
  obtain ⟨y, hy⟩ := hreads 5 (le_refl _)
  have hy5 : readSample input (w.inp + a + 5 * b) = some y := by simpa using hy
  have hcode : sampledCode input w.blk.mark (w.inp + a) b 5 < 32 :=
    sampledCode_lt input w.blk.mark (w.inp + a) b 5
  refine ⟨⟨by rw [ha, toInt_eq_floor _ (by linarith)], by rw [hb, toInt_eq_floor _ hspb0]⟩,
    hdata, hreads, h7, y, ?_⟩
  by_cases hm : positive y = w.blk.mark
  · obtain ⟨ch, hch⟩ := lookup_some
      (shift w.blk.charset (sampledCode input w.blk.mark (w.inp + a) b 5)) _ hcode
    have hb8 := body_stop_match input
      { blk := { w.blk with state := State.LOOKING_FOR_STOP, datapos := 5 }
        inp := w.inp + a + 5 * b
        outchar := sampledCode input w.blk.mark (w.inp + a) b 5
        out := w.out } y ch rfl hy5 hm hch
    exact ⟨_, hy5, iter_snoc input nout 7 w _ _ h7 (hc6 _ rfl rfl rfl) hb8, rfl, rfl, rfl,
      fun _ => ⟨ch, hch, rfl⟩, fun h => absurd hm h⟩
  · have hb8 := body_stop_miss input
      { blk := { w.blk with state := State.LOOKING_FOR_STOP, datapos := 5 }
        inp := w.inp + a + 5 * b
        outchar := sampledCode input w.blk.mark (w.inp + a) b 5
        out := w.out } y rfl hy5 hm
    exact ⟨_, hy5, iter_snoc input nout 7 w _ _ h7 (hc6 _ rfl rfl rfl) hb8, rfl, rfl, rfl,
      fun h => absurd h hm, fun _ => rfl⟩

theorem frame_sampling_witness :
    ∃ w8, iter
        [1, -1, -1, 1, 1, 1, 1, -1, -1, -1, -1, -1, -1, 1, 1, 1, 1, 1, 1, 1, 1, 1, 1, 1, 1, 1, 1,
      1, 1, 1, 1, 1] 10 8
        ⟨rtty_make_decode_ff 2 1 true, 1, 0, []⟩ = some w8 ∧
      w8.inp = 1 + 3 + 5 * 2 ∧ w8.out = [] ++ ['A'] := by
  obtain ⟨_, _, _, _, y, w8, hy, h8, _, hinp, _, hmatch, _⟩ :=
    frame_sampling (rtty_make_decode_ff 2 1 true) (by decide!)
      [1, -1, -1, 1, 1, 1, 1, -1, -1, -1, -1, -1, -1, 1, 1, 1, 1, 1, 1, 1, 1, 1, 1, 1, 1, 1, 1,
      1, 1, 1, 1, 1] 10 1
      ⟨rtty_make_decode_ff 2 1 true, 1, 0, []⟩ (by decide!) rfl (-1) (by decide!) (by decide!)
      3 2 (by decide!) (by decide!) (by decide!) (by decide)
  have hread : readSample
      [1, -1, -1, 1, 1, 1, 1, -1, -1, -1, -1, -1, -1, 1, 1, 1, 1, 1, 1, 1, 1, 1, 1, 1, 1, 1, 1,
      1, 1, 1, 1, 1] (1 + 3 + 5 * 2) = some 1 := by
    decide!
  have hy1 : y = 1 := Option.some.inj (hy.symm.trans hread)
  obtain ⟨ch, hch, hout⟩ := hmatch (by rw [hy1]; decide!)
  have hA : lookup (shift Charset.LETTERS (sampledCode
      [1, -1, -1, 1, 1, 1, 1, -1, -1, -1, -1, -1, -1, 1, 1, 1, 1, 1, 1, 1, 1, 1, 1, 1, 1, 1, 1,
      1, 1, 1, 1, 1] true (1 + 3) 2 5))
      (sampledCode
      [1, -1, -1, 1, 1, 1, 1, -1, -1, -1, -1, -1, -1, 1, 1, 1, 1, 1, 1, 1, 1, 1, 1, 1, 1, 1, 1,
      1, 1, 1, 1, 1] true (1 + 3) 2 5) = some 'A' := by
    decide!
  exact ⟨w8, h8, hinp, by rw [hout, Option.some.inj (hch.symm.trans hA)]⟩

/-- C14 as stated fails: with `_spb = 16777215/8388608` (the `float` just below 2, from
`rate = 16777215`, `baud = 8388608`) and a window of 100 samples whose start edge is at
index 77, `a = 2`, `b = 1` and `77 + 2 + 5 < 100 - 8*_spb` holds (the right side is
`84.00000095`), but the `float` difference `100 - 8*_spb` is rounded to 84: the fifth
data-bit advance leaves the cursor at 84, where the loop condition is false, and the call
returns in state `DATA` with `datapos = 5`, with no stop test and no byte. -/
theorem frame_cut_before_stop :
    iter (List.replicate 77 1 ++ List.replicate 23 (-1)) 10 77
        (entry (rtty_make_decode_ff 16777215 8388608 true)) =
      some ⟨rtty_make_decode_ff 16777215 8388608 true, 77, 0, []⟩ ∧
    readSample (List.replicate 77 1 ++ List.replicate 23 (-1)) 77 = some (-1) ∧
    positive (-1) = (rtty_make_decode_ff 16777215 8388608 true).space ∧
    0 < (rtty_make_decode_ff 16777215 8388608 true)._spb ∧
    toInt ((rtty_make_decode_ff 16777215 8388608 true)._spb * (3 / 2)) = 2 ∧
    toInt (rtty_make_decode_ff 16777215 8388608 true)._spb = 1 ∧
    (((77 + 2 + 5 * 1 : Int) : ℚ) <
      ((List.replicate 77 (1 : ℚ) ++ List.replicate 23 (-1)).length : ℚ) -
        (rtty_make_decode_ff 16777215 8388608 true)._spb * 8) ∧
    iter (List.replicate 77 1 ++ List.replicate 23 (-1)) 10 6
        ⟨rtty_make_decode_ff 16777215 8388608 true, 77, 0, []⟩ =
      some ⟨{ rtty_make_decode_ff 16777215 8388608 true with
        state := State.DATA, datapos := 5 }, 84, 0, []⟩ ∧
    iter (List.replicate 77 1 ++ List.replicate 23 (-1)) 10 7
        ⟨rtty_make_decode_ff 16777215 8388608 true, 77, 0, []⟩ = none ∧
    general_work 100 (rtty_make_decode_ff 16777215 8388608 true) 10
        (List.replicate 77 1 ++ List.replicate 23 (-1)) =
      Outcome.done ⟨{ rtty_make_decode_ff 16777215 8388608 true with
        state := State.DATA, datapos := 5 }, 84, 0, []⟩ := by
  refine ⟨by decide!, by decide!, by decide!, by decide!, by decide!, by decide!, by decide!,
    by decide!, by decide!, by decide!⟩

/-- C15: line-state decision. For the decoder built with `polarity`, a sample is at mark
level exactly when `(x > 0) = polarity` and at space level exactly when `(x > 0) = !polarity`;
every sample is at exactly one of the two levels; a sample that is zero or negative tests
like zero; and building the decoder with the opposite polarity swaps the two levels. -/
theorem line_state_decision (rate baud : ℚ) (polarity : Bool) (x : ℚ) :
    (positive x = true ↔ 0 < x) ∧
    (positive x = (rtty_make_decode_ff rate baud polarity).mark ↔ positive x = polarity) ∧
    (positive x = (rtty_make_decode_ff rate baud polarity).space ↔ positive x = !polarity) ∧
    (positive x = (rtty_make_decode_ff rate baud polarity).mark ↔
      ¬ positive x = (rtty_make_decode_ff rate baud polarity).space) ∧
    (x ≤ 0 → positive x = positive 0) ∧
    (positive x = (rtty_make_decode_ff rate baud (!polarity)).mark ↔
      positive x = (rtty_make_decode_ff rate baud polarity).space) ∧
    (positive x = (rtty_make_decode_ff rate baud (!polarity)).space ↔
      positive x = (rtty_make_decode_ff rate baud polarity).mark) := by
  have hm : (rtty_make_decode_ff rate baud polarity).mark = polarity := by
    cases polarity <;> rfl
  have hs : (rtty_make_decode_ff rate baud polarity).space = !polarity := by
    cases polarity <;> rfl
  have hm2 : (rtty_make_decode_ff rate baud (!polarity)).mark = !polarity := by
    cases polarity <;> rfl
  have hs2 : (rtty_make_decode_ff rate baud (!polarity)).space = polarity := by
    cases polarity <;> rfl
  rw [hm, hs, hm2, hs2]
  refine ⟨by simp [positive], Iff.rfl, Iff.rfl, ?_, ?_, Iff.rfl, Iff.rfl⟩
  · cases positive x <;> cases polarity <;> simp
  · intro hx
    have h1 : ¬ (0 < x) := not_lt.2 hx
    simp [positive, h1]

theorem line_state_decision_witness : positive (-3) = positive 0 :=
  (line_state_decision 1 1 true (-3)).2.2.2.2.1 (by decide!)

/-- C16: framing error. In state `LOOKING_FOR_STOP`, whatever the accumulator and the
active table, a pass whose sample is not at mark level writes no byte and leaves the table
as it was; and every pass in that state, matched or not, leaves the cursor where it was,
resets `outchar` to 0 and goes to `WAITING_FOR_START`. -/
theorem framing_error (input : List ℚ) (w : Work)
    (hst : w.blk.state = State.LOOKING_FOR_STOP) :
    (∀ x, readSample input w.inp = some x → positive x ≠ w.blk.mark →
      ∃ w1, body input w = some w1 ∧ w1.out = w.out ∧ w1.blk.charset = w.blk.charset) ∧
    (∀ w1, body input w = some w1 →
      w1.inp = w.inp ∧ w1.outchar = 0 ∧ w1.blk.state = State.WAITING_FOR_START) := by
  constructor
  · intro x hread hx
    exact ⟨_, body_stop_miss input w x hst hread hx, rfl, rfl⟩
  · intro w1 hb
    rcases body_cases input w w1 hb with ⟨h1, _⟩ | ⟨h1, _⟩ | ⟨h1, _⟩ | ⟨h1, _⟩ |
      ⟨_, _, _, _, _, _, rfl⟩ | ⟨_, _, _, _, rfl⟩
    · rw [hst] at h1; exact State.noConfusion h1
    · rw [hst] at h1; exact State.noConfusion h1
    · rw [hst] at h1; exact State.noConfusion h1
    · rw [hst] at h1; exact State.noConfusion h1
    · exact ⟨rfl, rfl, rfl⟩
    · exact ⟨rfl, rfl, rfl⟩

theorem framing_error_witness :
    (∃ w1, body [1, -1] ⟨{ rtty_make_decode_ff 1 1 true with
          state := State.LOOKING_FOR_STOP, datapos := 5 }, 1, 27, ['E']⟩ = some w1 ∧
        w1.out = ['E'] ∧ w1.blk.charset = Charset.LETTERS) ∧
    ((⟨{ rtty_make_decode_ff 1 1 true with datapos := 5, charset := Charset.FIGURES },
        0, 0, ['E', '\x00']⟩ : Work).inp = 0 ∧
      (⟨{ rtty_make_decode_ff 1 1 true with datapos := 5, charset := Charset.FIGURES },
        0, 0, ['E', '\x00']⟩ : Work).outchar = 0 ∧
      (⟨{ rtty_make_decode_ff 1 1 true with datapos := 5, charset := Charset.FIGURES },
        0, 0, ['E', '\x00']⟩ : Work).blk.state = State.WAITING_FOR_START) :=
  ⟨(framing_error [1, -1] ⟨{ rtty_make_decode_ff 1 1 true with
        state := State.LOOKING_FOR_STOP, datapos := 5 }, 1, 27, ['E']⟩ rfl).1 (-1)
      (by decide!) (by decide!),
   (framing_error [1, -1] ⟨{ rtty_make_decode_ff 1 1 true with
        state := State.LOOKING_FOR_STOP, datapos := 5 }, 0, 27, ['E']⟩ rfl).2
      ⟨{ rtty_make_decode_ff 1 1 true with datapos := 5, charset := Charset.FIGURES },
        0, 0, ['E', '\x00']⟩ (by decide!)⟩

/-- C17: accumulator range. Start from a freshly constructed decoder (whatever value the
uninitialised member `datapos` holds), run any sequence of calls that return, and look at
the variables after any number of passes of a further call: `outchar` is below 32; in state
`DATA` `datapos` is at most 5 and only the bits below `datapos` can be set; `datapos` is 5
when the stop test is due; `outchar` is 0 in state `WAITING_FOR_START`; and the table lookup
of the stop test is inside both 32-entry tables. With `datapos` initially at most 5 it never
exceeds 5. -/
theorem accumulator_range (rate baud : ℚ) (polarity : Bool) (dp : Nat)
    (calls : List (Nat × Int × List ℚ)) (d : rtty_decode_ff)
    (hcalls : afterCalls { rtty_make_decode_ff rate baud polarity with datapos := dp } calls
      = some d)
    (input : List ℚ) (nout : Int) (k : Nat) (w : Work)
    (hk : iter input nout k (entry d) = some w) :
    w.outchar < 32 ∧
    (w.blk.state = State.DATA → w.blk.datapos ≤ 5 ∧ w.outchar < 2 ^ w.blk.datapos) ∧
    (w.blk.state = State.LOOKING_FOR_STOP → w.blk.datapos = 5) ∧
    (w.blk.state = State.WAITING_FOR_START → w.outchar = 0) ∧
    (dp ≤ 5 → w.blk.datapos ≤ 5) ∧
    (∃ c1 c2, letters[w.outchar]? = some c1 ∧ figures[w.outchar]? = some c2) ∧
    (∃ c, lookup (shift w.blk.charset w.outchar) w.outchar = some c) := by
  have hfresh : FrameInv { rtty_make_decode_ff rate baud polarity with datapos := dp } :=
    ⟨fun h => State.noConfusion h, fun h => State.noConfusion h⟩
  obtain ⟨c1, c2⟩ := afterCalls_frameInv calls _ d hcalls
  obtain ⟨i1, i2⟩ := iter_frameInv input nout k (entry d) w hk
  obtain ⟨hD, hS⟩ := i1 (c1 hfresh)
  have hacc := iter_acc input nout k (entry d) w (inv_entry d).2 hk
  have h32 : w.outchar < 32 := by
    have hle : accBits w ≤ 5 := by
      unfold accBits
      split <;> omega
    have : 2 ^ accBits w ≤ 2 ^ 5 := Nat.pow_le_pow_right (by decide) hle
    omega
  refine ⟨h32, ?_, hS, ?_, fun h5 => i2 (c2 h5), ?_, lookup_some _ _ h32⟩
  · intro hst
    have h5 := hD hst
    refine ⟨h5, ?_⟩
    have hmin : min w.blk.datapos 5 = w.blk.datapos := by omega
    simpa [accBits, hst, hmin] using hacc
  · intro hst
    simpa [accBits, hst] using hacc
  · obtain ⟨a, ha⟩ := lookup_some Charset.LETTERS _ h32
    obtain ⟨b, hb⟩ := lookup_some Charset.FIGURES _ h32
    exact ⟨a, b, by simpa [lookup] using ha, by simpa [lookup] using hb⟩

theorem accumulator_range_witness :
    (2 : Nat) < 32 ∧ ((4 : Nat) ≤ 5 ∧ (2 : Nat) < 2 ^ 4) ∧
    (∃ c1 c2, letters[2]? = some c1 ∧ figures[2]? = some c2) := by
  obtain ⟨h1, h2, _, _, _, h6, _⟩ := accumulator_range 1 1 true 0
    [(100, 10, [-1, 1, 1, -1, -1, -1, 1, 1, 1, 1])]
    { rtty_make_decode_ff 1 1 true with state := State.DATA, datapos := 1 } (by decide!)
    [1, -1, -1, -1, 1, 1, 1, 1, 1, 1, 1, 1, 1, 1] 10 3
    ⟨{ rtty_make_decode_ff 1 1 true with state := State.DATA, datapos := 4 }, 3, 2, []⟩
    (by decide!)
  exact ⟨h1, h2 rfl, h6⟩

/-- C18 (as amended): consumed-count bounds. For `_spb ≥ 0` no pass moves the cursor
backwards and the consumed count of a call that returns is at least 0; when the window holds
at most `2^24 = 16777216` samples it is at most the window length `n`, and for `_spb ≥ 2/3`
the call does return, with such a count. -/
theorem consumed_range (d : rtty_decode_ff) (hspb : 0 ≤ d._spb) (nout : Int)
    (input : List ℚ) :
    (∀ w w1, w.blk._spb = d._spb → body input w = some w1 → w.inp ≤ w1.inp) ∧
    (∀ fuel r, general_work fuel d nout input = Outcome.done r → 0 ≤ r.inp) ∧
    (input.length ≤ 16777216 → ∀ fuel r, general_work fuel d nout input = Outcome.done r →
      0 ≤ r.inp ∧ r.inp ≤ (input.length : Int)) ∧
    (input.length ≤ 16777216 → 2 / 3 ≤ d._spb → ∃ r f0,
      (∀ f, f0 ≤ f → general_work f d nout input = Outcome.done r) ∧
      0 ≤ r.inp ∧ r.inp ≤ (input.length : Int)) := by
  have hrange : input.length ≤ 16777216 → ∀ fuel r,
      general_work fuel d nout input = Outcome.done r →
      0 ≤ r.inp ∧ r.inp ≤ (input.length : Int) := by
    intro hwin fuel r h
    exact loop_inp_range input nout hwin fuel (entry d) r hspb (le_refl _)
      (by show (0 : Int) ≤ (input.length : Int); omega) h
  refine ⟨?_, ?_, hrange, ?_⟩
  · intro w w1 hw hb
    exact (body_advance_le input w w1 (by rw [hw]; exact hspb) hb).1
  · intro fuel r h
    exact loop_inp_nonneg input nout fuel (entry d) r hspb (le_refl _) h
  · intro hwin h23
    obtain ⟨r, hr⟩ := loop_terminates_aux input nout (passBound input (entry d)) (entry d)
      h23 (inv_entry d) (le_refl _)
    exact ⟨r, _, hr, hrange hwin _ r (hr _ (le_refl _))⟩

theorem consumed_range_witness :
    ((0 : Int) ≤ 6 ∧ (6 : Int) ≤
      (([1, 1, 1, -1, 1, 1, 1, 1, 1, 1, 1, 1, 1, 1, 1, 1, 1, 1, 1, 1] : List ℚ).length : Int)) ∧
    (∃ r f0, (∀ f, f0 ≤ f → general_work f (rtty_make_decode_ff 2 1 true) 1
        [1, 1, 1, -1, 1, 1, 1, 1, 1, 1, 1, 1, 1, 1, 1, 1, 1, 1, 1, 1] = Outcome.done r) ∧
      0 ≤ r.inp ∧ r.inp ≤
        (([1, 1, 1, -1, 1, 1, 1, 1, 1, 1, 1, 1, 1, 1, 1, 1, 1, 1, 1, 1] : List ℚ).length : Int)) :=
  ⟨(consumed_range (rtty_make_decode_ff 2 1 true) (by decide!) 1
      [1, 1, 1, -1, 1, 1, 1, 1, 1, 1, 1, 1, 1, 1, 1, 1, 1, 1, 1, 1]).2.2.1 (by decide) 10
      ⟨{ rtty_make_decode_ff 2 1 true with state := State.DATA, datapos := 0 }, 6, 0, []⟩
      (by decide!),
   (consumed_range (rtty_make_decode_ff 2 1 true) (by decide!) 1
      [1, 1, 1, -1, 1, 1, 1, 1, 1, 1, 1, 1, 1, 1, 1, 1, 1, 1, 1, 1]).2.2.2 (by decide)
      (by decide!)⟩

/-- C18 as stated fails on long windows, where the loop condition is evaluated in `float`:
with two samples per bit and a window of 268435504 samples, `float(268435504)` is 268435520
and the loop condition holds for every cursor below 268435504. When the window ends with
twelve space samples, the start edge at 268435492 and the five data-bit advances carry the
cursor to 268435505: the call returns a consumed count one above the window length. -/
theorem consumed_exceeds_window :
    0 ≤ (rtty_make_decode_ff 2 1 true)._spb ∧
    ((List.replicate 268435492 true ++ List.replicate 12 false).map toSample).length =
      268435504 ∧
    ∃ r f0,
      (∀ f, f0 ≤ f → general_work f (rtty_make_decode_ff 2 1 true) 1
        ((List.replicate 268435492 true ++ List.replicate 12 false).map toSample) =
          Outcome.done r) ∧
      r.inp = 268435505 ∧
      ¬ r.inp ≤ (((List.replicate 268435492 true ++ List.replicate 12 false).map
        toSample).length : Int) := by
  have hlen : ((List.replicate 268435492 true ++ List.replicate 12 false).map
      toSample).length = 268435504 := by
    rw [List.length_map, List.length_append, List.length_replicate, List.length_replicate]
  obtain ⟨f0, hf⟩ := overrun_run 268435492 1 (le_refl _) _ (levels_toSample _) (by
    rw [hlen]
    exact guardAt_threshold 268435504 ((2 : Nat) : ℚ) ((268435492 + 12 : Nat) : Int)
      (by decide!) (by decide!))
  refine ⟨by decide!, hlen, _, f0, hf, rfl, ?_⟩
  rw [hlen]
  decide

/-- C19: in-bounds reads. For `_spb ≥ 0`, every pass of a call is entered with the cursor
inside the window, `0 ≤ in - instart < n`, so the sample it may read exists; every pass
succeeds, and the call never faults on a read outside the window (nor on a table index). -/
theorem reads_in_bounds (d : rtty_decode_ff) (hspb : 0 ≤ d._spb) (nout : Int)
    (input : List ℚ) :
    (∀ k w, iter input nout k (entry d) = some w → loopCond input nout w = true →
      0 ≤ w.inp ∧ w.inp < (input.length : Int) ∧
      (∃ x, readSample input w.inp = some x) ∧ ∃ w1, body input w = some w1) ∧
    (∀ fuel, general_work fuel d nout input ≠ Outcome.fault) := by
  constructor
  · intro k w hk hc
    have hcfg := (iter_config input nout k (entry d) w hk).1
    have hspbw : 0 ≤ w.blk._spb := by rw [hcfg]; exact hspb
    have hinv := iter_inv input nout k (entry d) w hspb (inv_entry d) hk
    have hlt := cond_lt_length input nout w hspbw hc
    refine ⟨hinv.1, hlt, ?_, body_total input nout w hspbw hinv hc⟩
    unfold readSample
    rw [if_pos hinv.1]
    exact ⟨_, List.getElem?_eq_getElem (by have := hinv.1; omega)⟩
  · intro fuel
    exact loop_no_fault input nout fuel (entry d) hspb (inv_entry d)

theorem reads_in_bounds_witness :
    (0 : Int) ≤ 6 ∧ (6 : Int) < (([-1, 1, 1, -1, -1, -1, 1, 1, 1, 1, 1, 1, 1, 1, 1, 1] :
      List ℚ).length : Int) ∧
    (∃ x, readSample [-1, 1, 1, -1, -1, -1, 1, 1, 1, 1, 1, 1, 1, 1, 1, 1] 6 = some x) ∧
    ∃ w1, body [-1, 1, 1, -1, -1, -1, 1, 1, 1, 1, 1, 1, 1, 1, 1, 1]
      ⟨{ rtty_make_decode_ff 1 1 true with
        state := State.LOOKING_FOR_STOP, datapos := 5 }, 6, 3, []⟩ = some w1 :=
  (reads_in_bounds (rtty_make_decode_ff 1 1 true) (by decide!) 10
    [-1, 1, 1, -1, -1, -1, 1, 1, 1, 1, 1, 1, 1, 1, 1, 1]).1 7
    ⟨{ rtty_make_decode_ff 1 1 true with
      state := State.LOOKING_FOR_STOP, datapos := 5 }, 6, 3, []⟩ (by decide!) (by decide!)

/-- C20: constant-space silence. For `_spb ≥ 1`, either polarity, every member state and
every `noutput_items`, a call on a window whose samples are all at space level returns
without a byte written and with the active table unchanged: after any number of passes
nothing is written, the table is as at entry, and the stop test of the pass at hand does not
match. -/
theorem space_silence (d : rtty_decode_ff) (hspb : 1 ≤ d._spb) (hsp : d.space = !d.mark)
    (input : List ℚ) (hall : ∀ x ∈ input, positive x = d.space) (nout : Int) :
    (∀ k w, iter input nout k (entry d) = some w →
      w.out = [] ∧ w.blk.charset = d.charset ∧ stopMatched input w = false) ∧
    (∃ r f0, (∀ f, f0 ≤ f → general_work f d nout input = Outcome.done r) ∧
      r.out = [] ∧ r.blk.charset = d.charset) := by
  have hstep : ∀ k w, iter input nout k (entry d) = some w →
      w.out = [] ∧ w.blk.charset = d.charset := by
    intro k w hk
    exact iter_silent input nout k (entry d) w hsp hall hk
  constructor
  · intro k w hk
    obtain ⟨h1, h2⟩ := hstep k w hk
    refine ⟨h1, h2, ?_⟩
    obtain ⟨_, hm, hs⟩ := iter_config input nout k (entry d) w hk
    cases hsm : stopMatched input w with
    | false => rfl
    | true =>
      exfalso
      obtain ⟨_, x, hx, hxm⟩ := (stopMatched_iff input w).1 hsm
      have h3 := hall x (readSample_mem input _ x hx)
      rw [hxm, hm] at h3
      have h4 : d.mark = !d.mark := h3.trans hsp
      revert h4
      cases d.mark <;> simp
  · obtain ⟨r, hr⟩ := loop_terminates_aux input nout (passBound input (entry d)) (entry d)
      (by show (2 / 3 : ℚ) ≤ d._spb; linarith) (inv_entry d) (le_refl _)
    obtain ⟨k, hk, _⟩ := iter_of_loop input nout _ (entry d) r (hr _ (le_refl _))
    obtain ⟨h1, h2⟩ := hstep k r hk
    exact ⟨r, _, hr, h1, h2⟩

theorem space_silence_witness :
    (∀ k w, iter [-1, 0, -2, -1, -1, -1, -1, -1, -1, -1, -1, -1] 3 k
        (entry { rtty_make_decode_ff 1 1 true with
          state := State.LOOKING_FOR_STOP, datapos := 5, charset := Charset.FIGURES }) = some w →
      w.out = [] ∧ w.blk.charset = Charset.FIGURES ∧
      stopMatched [-1, 0, -2, -1, -1, -1, -1, -1, -1, -1, -1, -1] w = false) ∧
    (∃ r f0, (∀ f, f0 ≤ f → general_work f { rtty_make_decode_ff 1 1 true with
          state := State.LOOKING_FOR_STOP, datapos := 5, charset := Charset.FIGURES } 3
        [-1, 0, -2, -1, -1, -1, -1, -1, -1, -1, -1, -1] = Outcome.done r) ∧
      r.out = [] ∧ r.blk.charset = Charset.FIGURES) :=
  space_silence { rtty_make_decode_ff 1 1 true with
      state := State.LOOKING_FOR_STOP, datapos := 5, charset := Charset.FIGURES }
    (by decide!) rfl [-1, 0, -2, -1, -1, -1, -1, -1, -1, -1, -1, -1] (by decide) 3

end Rtty
